import Mathlib

/-!
# `cs_impl::any` — the dynamic value handle of Covariant Script

A shallow embedding of `jni/include/covscript/any.hpp`.

* `holder<T>` objects, `proxy` objects and `any` objects live in three stores
  (`State.holders`, `State.proxies`, `State.objs`).  A pointer is the index of a cell,
  `nullptr` is `none`, and a cell that holds `none` is memory that holds no object.
* Every member function of `any` becomes a function on `State`.  A call ends in one of
  three ways (`Outcome`): it returns, it throws (and the state at the `throw` is kept),
  or it has no defined behaviour (a null or dangling pointer is dereferenced, or the
  call is made on an object that does not exist).
* `short protect_level` is an `Int`; `std::size_t refcount` is a `Nat`.  `--refcount`
  is truncated subtraction: it differs from the machine only on a slot whose refcount
  is already `0`, a state shown unreachable below (`WF`), and `++refcount` cannot wrap
  because the handles counted by it each occupy memory.
* Payloads of all types are values of one type `Val`; a `holder<T>` records `T` next
  to its payload.  Copying a payload yields the same value, and neither the copy nor
  an allocation fails.
-/

namespace cs_impl

/-! ## Stores -/

/-- Cell `p` of a store: the object at address `p`, if there is one. -/
def peek {α : Type} : List (Option α) → Nat → Option α
  | [], _ => none
  | c :: _, 0 => c
  | _ :: l, p + 1 => peek l p

/-- Overwrite cell `p` of a store (nothing happens outside the store). -/
def poke {α : Type} : List (Option α) → Nat → Option α → List (Option α)
  | [], _, _ => []
  | _ :: l, 0, x => x :: l
  | c :: l, p + 1, x => c :: poke l p x

/-- Modelled from the spec: `cov::allocator::alloc` of `mozart/memory.hpp` (the
PoolAllocator, "allocate → owning reference to a newly constructed object"), which is
not part of the sources.  The new object gets an address that was never used before,
so an address identifies one object for its whole lifetime. -/
def alloc {α : Type} (m : List (Option α)) (x : α) : Nat × List (Option α) :=
  (m.length, m ++ [some x])

/-- Modelled from the spec: `cov::allocator::free` of `mozart/memory.hpp`
("destructs and returns memory to the pool"); the destructor's own effects are
written out by the caller. -/
def free {α : Type} (m : List (Option α)) (p : Nat) : List (Option α) :=
  poke m p none

/-! ## Data model -/

/-- The codes of the exceptions thrown by `any`: `cov::error("E000x")`, and
`cs::syntax_error` from `get_ext`. -/
inductive Error where
  | E0005
  | E0006
  | E000G
  | E000J
  | E000K
  | E000L
  | syntax_error
  deriving DecidableEq, Repr

/-- Values of `std::type_info`: `typeid(void)` and `typeid(T)` for a payload type `T`. -/
inductive type_info where
  | void
  | of (T : Nat)
  deriving DecidableEq, Repr

/-- An object of the primary class template `holder<T>`: the payload `mDat`, and `T`
itself, which is what `type()` returns (`return typeid(T);`). -/
structure holder (Val : Type) where
  T : Nat
  mDat : Val
  deriving DecidableEq, Repr

/-- The `struct proxy`, with its default member initialisers. -/
structure proxy where
  protect_level : Int := 0
  refcount : Nat := 1
  data : Option Nat := none
  deriving DecidableEq, Repr

/-- An object of class `any`: its only data member, `proxy *mDat`. -/
structure any where
  mDat : Option Nat := none
  deriving DecidableEq, Repr

/-- The memory: the `any` objects, the pool of `proxy` and the pool of `holder`. -/
structure State (Val : Type) where
  objs : List (Option any)
  proxies : List (Option proxy)
  holders : List (Option (holder Val))
  deriving DecidableEq, Repr

/-- How a call ends. -/
inductive Outcome (Val : Type) (α : Type) where
  | ok (r : α) (s : State Val)
  | thrown (e : Error) (s : State Val)
  | undefined
  deriving DecidableEq, Repr

/-- Modelled from the spec: the per-type functions of `cs_impl` (the TraitDispatch of
the spec: `compare`, `to_integer`, `to_string`, `hash`, `detach`, `get_ext`,
`get_name_of_type`), declared outside the sources.  The first argument is the payload
type the template is instantiated at. -/
structure Traits (Val : Type) where
  compare : Nat → Val → Val → Bool
  to_integer : Nat → Val → Int
  to_string : Nat → Val → String
  hash : Nat → Val → Nat
  hash_nullptr : Nat
  detach : Nat → Val → Val
  get_ext : Nat → Nat
  get_name_of_type : type_info → String

section
variable {Val : Type}

/-- The empty memory. -/
def State.empty : State Val := ⟨[], [], []⟩

/-- The member `mDat` of the `any` object `a` (`none`: there is no such object). -/
def State.mDat (s : State Val) (a : Nat) : Option (Option Nat) :=
  (peek s.objs a).map any.mDat

/-- Assignment `mDat = m` in the `any` object `a`. -/
def State.set_mDat (s : State Val) (a : Nat) (m : Option Nat) : State Val :=
  { s with objs := poke s.objs a (some ⟨m⟩) }

/-- The proxy at address `p`. -/
def State.slot (s : State Val) (p : Nat) : Option proxy := peek s.proxies p

/-- Overwrite the proxy at address `p`. -/
def State.set_slot (s : State Val) (p : Nat) (px : proxy) : State Val :=
  { s with proxies := poke s.proxies p (some px) }

/-- The holder at address `h`. -/
def State.hold (s : State Val) (h : Nat) : Option (holder Val) := peek s.holders h

/-- Overwrite the holder at address `h`. -/
def State.set_hold (s : State Val) (h : Nat) (hd : holder Val) : State Val :=
  { s with holders := poke s.holders h (some hd) }

/-- The template `holder<T>::allocator.alloc(dat)` of the primary template `holder<T>`:
a new holder of type `T` with a copy of `dat`. -/
def State.new_holder (s : State Val) (T : Nat) (dat : Val) : Nat × State Val :=
  ((alloc s.holders (⟨T, dat⟩ : holder Val)).1,
    { s with holders := (alloc s.holders (⟨T, dat⟩ : holder Val)).2 })

/-- The call `any::allocator.alloc(pl, rc, d)`: a new proxy. -/
def State.new_proxy (s : State Val) (px : proxy) : Nat × State Val :=
  ((alloc s.proxies px).1, { s with proxies := (alloc s.proxies px).2 })

/-- A new `any` object whose `mDat` is `m`. -/
def State.new_any (s : State Val) (m : Option Nat) : Nat × State Val :=
  ((alloc s.objs (⟨m⟩ : any)).1, { s with objs := (alloc s.objs (⟨m⟩ : any)).2 })

/-- Number of `any` objects whose `mDat` is the proxy `p`. -/
def State.refs (s : State Val) (p : Nat) : Nat :=
  s.objs.count (some ⟨some p⟩)

end

/-! ## The types that any.hpp names

Type identities are numbers.  Those that the source names are numbered here; every
other number (`0`, and the odd numbers from `5` on) is a type the source does not
name, of which `holder<T>` is the primary template. -/

/-- The number of `std::string`. -/
def std_string : Nat := 1

/-- The number of `std::type_index`. -/
def std_type_index : Nat := 2

/-- The number of `std::type_info`. -/
def std_type_info : Nat := 3

/-- The number of `char[N]`. -/
def char_array (N : Nat) : Nat := 2 * N + 4

/-- The type of the holder that `holder<T>::allocator.alloc` makes.  It is `T` for the
primary template.  The two specialisations at the end of any.hpp,
`class any::holder<char[N]> : public any::holder<std::string>` and
`class any::holder<std::type_info> : public any::holder<std::type_index>`, declare
nothing but the inherited constructors, so that `holder<char[N]>::allocator` is the
member of `holder<std::string>` and `holder<std::type_info>::allocator` that of
`holder<std::type_index>`: the holder made is one of the base class, whose `type()`
returns `typeid(std::string)`, respectively `typeid(std::type_index)`.  Its payload is
constructed from the argument by the constructor of the base class; payloads carry no
type here, so it is the value of the argument. -/
def holder_type (T : Nat) : Nat :=
  if T = std_type_info then std_type_index
  else if 4 ≤ T ∧ T % 2 = 0 then std_string
  else T

/-- The object a parameter `const T &dat` is bound to: an object outside the memory of
the handles, given by its value, or the payload of the holder at the address `h`, as
the references that `val<T>()` and `const_val<T>()` return. -/
inductive Arg (Val : Type) where
  | value (v : Val)
  | payload (h : Nat)
  deriving DecidableEq, Repr

section
variable {Val : Type}

/-- Reading through the reference `dat` in the memory `s`; there is nothing to read
(`none`) once the holder referred to has been destroyed. -/
def Arg.get (s : State Val) : Arg Val → Option Val
  | .value v => some v
  | .payload h => (s.hold h).map fun hd => hd.mDat

end

/-! ## The private members of `any` -/

section
variable {Val : Type}

/-- Sequencing: run `f` on the result of a call that returned; a throw or an undefined
behaviour ends the whole computation. -/
def Outcome.bind {α β : Type} (x : Outcome Val α) (f : α → State Val → Outcome Val β) :
    Outcome Val β :=
  match x with
  | .ok r s => f r s
  | .thrown e s => .thrown e s
  | .undefined => .undefined

/-- The state a call leaves behind, when it has one. -/
def Outcome.state {α : Type} : Outcome Val α → Option (State Val)
  | .ok _ s => some s
  | .thrown _ s => some s
  | .undefined => none

/-- The expression `this->mDat->data` followed to the holder it points to, for the
proxy `p`. -/
def State.payload (s : State Val) (p : Nat) : Option (holder Val) :=
  match s.slot p with
  | none => none
  | some px =>
    match px.data with
    | none => none
    | some h => s.hold h

/-- The virtual `holder<T>::duplicate()` called through the pointer `d`:
`return allocator.alloc(mDat);`. -/
def holder_duplicate (s : State Val) (d : Option Nat) : Option (Nat × State Val) :=
  match d with
  | none => none
  | some h =>
    match s.hold h with
    | none => none
    | some hd => some (s.new_holder hd.T hd.mDat)

/-- The virtual `holder<T>::kill()` called through the pointer `d`:
`allocator.free(this);`. -/
def kill (s : State Val) (d : Option Nat) : Option (State Val) :=
  match d with
  | none => none
  | some h =>
    match s.hold h with
    | none => none
    | some _ => some { s with holders := free s.holders h }

/-- The call `allocator.free(mDat)` on the proxy `p` whose content is `px`: the
destructor `~proxy()` kills the holder when `data != nullptr`, then the memory goes
back to the pool. -/
def free_proxy (s : State Val) (p : Nat) (px : proxy) : Option (State Val) :=
  match px.data with
  | none => some { s with proxies := free s.proxies p }
  | some h =>
    match kill s (some h) with
    | none => none
    | some s1 => some { s1 with proxies := free s1.proxies p }

/-- Member `proxy *duplicate() const noexcept`. -/
def duplicate (s : State Val) (a : Nat) : Outcome Val (Option Nat) :=
  match s.mDat a with
  | none => .undefined
  | some none => .ok none s
  | some (some p) =>
    match s.slot p with
    | none => .undefined
    | some px =>
      -- ++mDat->refcount; return mDat;
      .ok (some p) (s.set_slot p { px with refcount := px.refcount + 1 })

/-- Member `void recycle() noexcept`. -/
def recycle (s : State Val) (a : Nat) : Outcome Val Unit :=
  match s.mDat a with
  | none => .undefined
  | some none => .ok () s
  | some (some p) =>
    match s.slot p with
    | none => .undefined
    | some px =>
      -- --mDat->refcount; if (mDat->refcount == 0) { allocator.free(mDat); mDat = nullptr; }
      if px.refcount - 1 = 0 then
        match free_proxy (s.set_slot p { px with refcount := px.refcount - 1 }) p
            { px with refcount := px.refcount - 1 } with
        | none => .undefined
        | some s2 => .ok () (s2.set_mDat a none)
      else .ok () (s.set_slot p { px with refcount := px.refcount - 1 })

end

/-! ## The public members of `any` -/

section
variable {Val : Type}

/-- Member `void swap(any &obj, bool raw = false)`; the overload taking `any &&obj` has
the same body. -/
def swap (s : State Val) (a obj : Nat) (raw : Bool) : Outcome Val Unit :=
  match s.mDat a, s.mDat obj with
  | some (some p), some (some q) =>
    if raw then
      match s.slot p, s.slot q with
      | some px, some qx =>
        if px.protect_level > 0 ∨ qx.protect_level > 0 then .thrown .E000J s
        else
          -- baseHolder *tmp = this->mDat->data; this->mDat->data = obj.mDat->data;
          match (s.set_slot p { px with data := qx.data }).slot q with
          | none => .undefined
          | some qx1 =>
            -- obj.mDat->data = tmp;
            .ok () ((s.set_slot p { px with data := qx.data }).set_slot q
              { qx1 with data := px.data })
      | _, _ => .undefined
    else .ok () ((s.set_mDat a (some q)).set_mDat obj (some p))
  | some m, some n => .ok () ((s.set_mDat a n).set_mDat obj m)
  | _, _ => .undefined

/-- Member `void clone()`. -/
def clone (s : State Val) (a : Nat) : Outcome Val Unit :=
  match s.mDat a with
  | none => .undefined
  | some none => .ok () s
  | some (some p) =>
    match s.slot p with
    | none => .undefined
    | some px =>
      if px.protect_level > 2 then .thrown .E000L s
      else
        match holder_duplicate s px.data with
        | none => .undefined
        | some hs =>
          (recycle (hs.2.new_proxy ⟨0, 1, some hs.1⟩).2 a).bind fun _ s3 =>
            .ok () (s3.set_mDat a (some (hs.2.new_proxy ⟨0, 1, some hs.1⟩).1))

/-- Member `bool usable() const noexcept`. -/
def usable (s : State Val) (a : Nat) : Option Bool :=
  (s.mDat a).map fun m => m.isSome

/-- Factory `static any make(ArgsT &&...args)`:
`return any(allocator.alloc(1, holder<T>::allocator.alloc(args...)));`. -/
def make (s : State Val) (T : Nat) (dat : Val) : Outcome Val Nat :=
  let hs := s.new_holder (holder_type T) dat
  let ps := hs.2.new_proxy ⟨0, 1, some hs.1⟩
  .ok (ps.2.new_any (some ps.1)).1 (ps.2.new_any (some ps.1)).2

/-- Factory `static any make_protect(ArgsT &&...args)`:
`return any(allocator.alloc(1, 1, holder<T>::allocator.alloc(args...)));`. -/
def make_protect (s : State Val) (T : Nat) (dat : Val) : Outcome Val Nat :=
  let hs := s.new_holder (holder_type T) dat
  let ps := hs.2.new_proxy ⟨1, 1, some hs.1⟩
  .ok (ps.2.new_any (some ps.1)).1 (ps.2.new_any (some ps.1)).2

/-- Factory `static any make_constant(ArgsT &&...args)`:
`return any(allocator.alloc(2, 1, holder<T>::allocator.alloc(args...)));`. -/
def make_constant (s : State Val) (T : Nat) (dat : Val) : Outcome Val Nat :=
  let hs := s.new_holder (holder_type T) dat
  let ps := hs.2.new_proxy ⟨2, 1, some hs.1⟩
  .ok (ps.2.new_any (some ps.1)).1 (ps.2.new_any (some ps.1)).2

/-- Factory `static any make_single(ArgsT &&...args)`:
`return any(allocator.alloc(3, 1, holder<T>::allocator.alloc(args...)));`. -/
def make_single (s : State Val) (T : Nat) (dat : Val) : Outcome Val Nat :=
  let hs := s.new_holder (holder_type T) dat
  let ps := hs.2.new_proxy ⟨3, 1, some hs.1⟩
  .ok (ps.2.new_any (some ps.1)).1 (ps.2.new_any (some ps.1)).2

/-- Constructor `any() = default;`. -/
def ctor_default (s : State Val) : Outcome Val Nat :=
  .ok (s.new_any none).1 (s.new_any none).2

/-- Constructor `any(const T &dat)`, whose initialiser is
`mDat(allocator.alloc(1, holder<T>::allocator.alloc(dat)))`.  The argument is copied
before anything is written, so it is given by its value. -/
def ctor_value (s : State Val) (T : Nat) (dat : Val) : Outcome Val Nat :=
  let hs := s.new_holder (holder_type T) dat
  let ps := hs.2.new_proxy ⟨0, 1, some hs.1⟩
  .ok (ps.2.new_any (some ps.1)).1 (ps.2.new_any (some ps.1)).2

/-- Constructor `any(const any &v) : mDat(v.duplicate()) {}`. -/
def ctor_copy (s : State Val) (v : Nat) : Outcome Val Nat :=
  (duplicate s v).bind fun m s1 => .ok (s1.new_any m).1 (s1.new_any m).2

/-- Constructor `any(any &&v) noexcept { swap(std::forward<any>(v)); }`. -/
def ctor_move (s : State Val) (v : Nat) : Outcome Val Nat :=
  (swap (s.new_any none).2 (s.new_any none).1 v false).bind fun _ s1 =>
    .ok (s.new_any none).1 s1

/-- Destructor `~any() { recycle(); }`, after which the object is gone. -/
def dtor (s : State Val) (a : Nat) : Outcome Val Unit :=
  (recycle s a).bind fun _ s1 => .ok () { s1 with objs := free s1.objs a }

/-- Member `const std::type_info &type() const`. -/
def type (s : State Val) (a : Nat) : Option type_info :=
  match s.mDat a with
  | none => none
  | some none => some .void
  | some (some p) => (s.payload p).map fun hd => .of hd.T

/-- Member `long to_integer() const`. -/
def to_integer (tr : Traits Val) (s : State Val) (a : Nat) : Option Int :=
  match s.mDat a with
  | none => none
  | some none => some 0
  | some (some p) => (s.payload p).map fun hd => tr.to_integer hd.T hd.mDat

/-- Member `std::string to_string() const`. -/
def to_string (tr : Traits Val) (s : State Val) (a : Nat) : Option String :=
  match s.mDat a with
  | none => none
  | some none => some "Null"
  | some (some p) => (s.payload p).map fun hd => tr.to_string hd.T hd.mDat

/-- Member `std::size_t hash() const`. -/
def hash (tr : Traits Val) (s : State Val) (a : Nat) : Option Nat :=
  match s.mDat a with
  | none => none
  | some none => some tr.hash_nullptr
  | some (some p) => (s.payload p).map fun hd => tr.hash hd.T hd.mDat

/-- Member `void detach()`. -/
def detach (tr : Traits Val) (s : State Val) (a : Nat) : Outcome Val Unit :=
  match s.mDat a with
  | none => .undefined
  | some none => .ok () s
  | some (some p) =>
    match s.slot p with
    | none => .undefined
    | some px =>
      if px.protect_level > 2 then .thrown .E000L s
      else
        match px.data with
        | none => .undefined
        | some h =>
          match s.hold h with
          | none => .undefined
          | some hd => .ok () (s.set_hold h { hd with mDat := tr.detach hd.T hd.mDat })

/-- Member `cs::extension_t &get_ext() const`. -/
def get_ext (tr : Traits Val) (s : State Val) (a : Nat) : Outcome Val Nat :=
  match s.mDat a with
  | none => .undefined
  | some none => .thrown .syntax_error s
  | some (some p) =>
    match s.payload p with
    | none => .undefined
    | some hd => .ok (tr.get_ext hd.T) s

/-- Member `const char *get_type_name() const`. -/
def get_type_name (tr : Traits Val) (s : State Val) (a : Nat) : Option String :=
  match s.mDat a with
  | none => none
  | some none => some (tr.get_name_of_type .void)
  | some (some p) => (s.payload p).map fun hd => tr.get_name_of_type (.of hd.T)

/-- Member `bool is_same(const any &obj) const`. -/
def is_same (s : State Val) (a obj : Nat) : Option Bool :=
  match s.mDat a, s.mDat obj with
  | some m, some n => some (decide (m = n))
  | _, _ => none

/-- Member `bool is_protect() const`. -/
def is_protect (s : State Val) (a : Nat) : Option Bool :=
  match s.mDat a with
  | none => none
  | some none => some false
  | some (some p) => (s.slot p).map fun px => decide (px.protect_level > 0)

/-- Member `bool is_constant() const`. -/
def is_constant (s : State Val) (a : Nat) : Option Bool :=
  match s.mDat a with
  | none => none
  | some none => some false
  | some (some p) => (s.slot p).map fun px => decide (px.protect_level > 1)

/-- Member `bool is_single() const`. -/
def is_single (s : State Val) (a : Nat) : Option Bool :=
  match s.mDat a with
  | none => none
  | some none => some false
  | some (some p) => (s.slot p).map fun px => decide (px.protect_level > 2)

/-- Member `void protect()`. -/
def protect (s : State Val) (a : Nat) : Outcome Val Unit :=
  match s.mDat a with
  | none => .undefined
  | some none => .ok () s
  | some (some p) =>
    match s.slot p with
    | none => .undefined
    | some px =>
      if px.protect_level > 1 then .thrown .E000G s
      else .ok () (s.set_slot p { px with protect_level := 1 })

/-- Member `void constant()`. -/
def constant (s : State Val) (a : Nat) : Outcome Val Unit :=
  match s.mDat a with
  | none => .undefined
  | some none => .ok () s
  | some (some p) =>
    match s.slot p with
    | none => .undefined
    | some px =>
      if px.protect_level > 2 then .thrown .E000G s
      else .ok () (s.set_slot p { px with protect_level := 2 })

/-- Member `void single()`. -/
def single (s : State Val) (a : Nat) : Outcome Val Unit :=
  match s.mDat a with
  | none => .undefined
  | some none => .ok () s
  | some (some p) =>
    match s.slot p with
    | none => .undefined
    | some px =>
      if px.protect_level > 3 then .thrown .E000G s
      else .ok () (s.set_slot p { px with protect_level := 3 })

/-- Operator `any &operator=(const any &var)`. -/
def copy_assign (s : State Val) (a var : Nat) : Outcome Val Unit :=
  match s.mDat a, s.mDat var with
  | some _, some _ =>
    if var ≠ a then
      (recycle s a).bind fun _ s1 =>
        (duplicate s1 var).bind fun m s2 => .ok () (s2.set_mDat a m)
    else .ok () s
  | _, _ => .undefined

/-- Operator `any &operator=(any &&var) noexcept`. -/
def move_assign (s : State Val) (a var : Nat) : Outcome Val Unit :=
  match s.mDat a, s.mDat var with
  | some _, some _ => if var ≠ a then swap s a var false else .ok () s
  | _, _ => .undefined

/-- The virtual `holder<T>::compare(const baseHolder *obj)` called on the holder `hd`. -/
def holder_compare (tr : Traits Val) (hd obj : holder Val) : Bool :=
  if type_info.of obj.T = type_info.of hd.T then tr.compare hd.T hd.mDat obj.mDat
  else false

/-- Member `bool compare(const any &var) const`; `operator==` returns the same value and
`operator!=` its negation. -/
def compare (tr : Traits Val) (s : State Val) (a var : Nat) : Option Bool :=
  match s.mDat a, s.mDat var with
  | some (some p), some (some q) =>
    match s.payload p, s.payload q with
    | some hd, some obj => some (holder_compare tr hd obj)
    | _, _ => none
  | some m, some n => some (!m.isSome && !n.isSome)
  | _, _ => none

/-- Member template `template<typename T> T &val(bool raw = false)`; the reference
returned is the address of the holder whose `mDat` it designates. -/
def val (s : State Val) (a : Nat) (T : type_info) (raw : Bool) : Outcome Val Nat :=
  match type s a with
  | none => .undefined
  | some ti =>
    if T ≠ ti then .thrown .E0006 s
    else
      match s.mDat a with
      | none => .undefined
      | some none => .thrown .E0005 s
      | some (some p) =>
        match s.slot p with
        | none => .undefined
        | some px =>
          if px.protect_level > 1 then .thrown .E000K s
          else
            (if raw then .ok () s else clone s a).bind fun _ s1 =>
              match s1.mDat a with
              | some (some p1) =>
                match s1.slot p1 with
                | some px1 =>
                  match px1.data with
                  | some h => .ok h s1
                  | none => .undefined
                | none => .undefined
              | _ => .undefined

/-- Writing `v` through a reference `T &` obtained from `val`. -/
def store (s : State Val) (ref : Nat) (v : Val) : Outcome Val Unit :=
  match s.hold ref with
  | none => .undefined
  | some hd => .ok () (s.set_hold ref { hd with mDat := v })

/-- Member template `template<typename T> const T &const_val() const`; the `const` overload of `val`
has the same body.  The result is the payload the reference designates. -/
def const_val (s : State Val) (a : Nat) (T : type_info) : Outcome Val Val :=
  match type s a with
  | none => .undefined
  | some ti =>
    if T ≠ ti then .thrown .E0006 s
    else
      match s.mDat a with
      | none => .undefined
      | some none => .thrown .E0005 s
      | some (some p) =>
        match s.payload p with
        | none => .undefined
        | some hd => .ok hd.mDat s

/-- Member `void assign(const any &obj, bool raw = false)`. -/
def assign (s : State Val) (a obj : Nat) (raw : Bool) : Outcome Val Unit :=
  match s.mDat a, s.mDat obj with
  | some m, some n =>
    if obj ≠ a ∧ n ≠ m then
      match m, n, raw with
      | some p, some q, true =>
        match s.slot p, s.slot q with
        | some px, some qx =>
          if px.protect_level > 0 ∨ qx.protect_level > 0 then .thrown .E000J s
          else
            -- mDat->data->kill();
            match kill s px.data with
            | none => .undefined
            | some s1 =>
              -- mDat->data = obj.mDat->data->duplicate();
              match holder_duplicate s1 qx.data with
              | none => .undefined
              | some hs =>
                match hs.2.slot p with
                | none => .undefined
                | some px1 => .ok () (hs.2.set_slot p { px1 with data := some hs.1 })
        | _, _ => .undefined
      | _, _, _ =>
        (recycle s a).bind fun _ s1 =>
          match n with
          | some q =>
            match s1.slot q with
            | none => .undefined
            | some qx =>
              match holder_duplicate s1 qx.data with
              | none => .undefined
              | some hs =>
                .ok () ((hs.2.new_proxy ⟨0, 1, some hs.1⟩).2.set_mDat a
                  (some (hs.2.new_proxy ⟨0, 1, some hs.1⟩).1))
          | none => .ok () (s1.set_mDat a none)
    else .ok () s
  | _, _ => .undefined

/-- Member template `template<typename T> void assign(const T &dat, bool raw = false)`.
The parameter is a reference: the object it is bound to is read when the new holder is
constructed from it, after `kill()`, respectively `recycle()`. -/
def assign_value (s : State Val) (a : Nat) (T : Nat) (dat : Arg Val) (raw : Bool) :
    Outcome Val Unit :=
  match s.mDat a, raw with
  | none, _ => .undefined
  | some (some p), true =>
    match s.slot p with
    | none => .undefined
    | some px =>
      if px.protect_level > 0 then .thrown .E000J s
      else
        -- mDat->data->kill();
        match kill s px.data with
        | none => .undefined
        | some s1 =>
          -- mDat->data = holder<T>::allocator.alloc(dat);
          match dat.get s1 with
          | none => .undefined
          | some v =>
            match (s1.new_holder (holder_type T) v).2.slot p with
            | none => .undefined
            | some px1 =>
              .ok () ((s1.new_holder (holder_type T) v).2.set_slot p
                { px1 with data := some (s1.new_holder (holder_type T) v).1 })
  | some _, _ =>
    -- recycle(); mDat = allocator.alloc(1, holder<T>::allocator.alloc(dat));
    (recycle s a).bind fun _ s1 =>
      match dat.get s1 with
      | none => .undefined
      | some v =>
        let hs := s1.new_holder (holder_type T) v
        let ps := hs.2.new_proxy ⟨0, 1, some hs.1⟩
        .ok () (ps.2.set_mDat a (some ps.1))

/-- Member template `template<typename T> any &operator=(const T &dat)`, whose body is
`assign(dat); return *this;`. -/
def assign_op (s : State Val) (a : Nat) (T : Nat) (dat : Arg Val) : Outcome Val Unit :=
  assign_value s a T dat false

end

/-! ## Programs: sequences of calls -/

/-- One call of the interface of `any`, with its arguments. -/
inductive Op (Val : Type) where
  | swap (a obj : Nat) (raw : Bool)
  | clone (a : Nat)
  | make (T : Nat) (dat : Val)
  | make_protect (T : Nat) (dat : Val)
  | make_constant (T : Nat) (dat : Val)
  | make_single (T : Nat) (dat : Val)
  | ctor_default
  | ctor_value (T : Nat) (dat : Val)
  | ctor_copy (v : Nat)
  | ctor_move (v : Nat)
  | dtor (a : Nat)
  | detach (a : Nat)
  | get_ext (a : Nat)
  | protect (a : Nat)
  | constant (a : Nat)
  | single (a : Nat)
  | copy_assign (a var : Nat)
  | move_assign (a var : Nat)
  | val (a : Nat) (T : type_info) (raw : Bool)
  | const_val (a : Nat) (T : type_info)
  | store (ref : Nat) (v : Val)
  | assign (a obj : Nat) (raw : Bool)
  | assign_value (a : Nat) (T : Nat) (dat : Arg Val) (raw : Bool)
  | assign_op (a : Nat) (T : Nat) (dat : Arg Val)

section
variable {Val : Type}

/-- Forget the value a call returns. -/
def Outcome.void {α : Type} : Outcome Val α → Outcome Val Unit
  | .ok _ s => .ok () s
  | .thrown e s => .thrown e s
  | .undefined => .undefined

/-- Perform one call. -/
def run (tr : Traits Val) (s : State Val) : Op Val → Outcome Val Unit
  | .swap a obj raw => swap s a obj raw
  | .clone a => clone s a
  | .make T dat => (make s T dat).void
  | .make_protect T dat => (make_protect s T dat).void
  | .make_constant T dat => (make_constant s T dat).void
  | .make_single T dat => (make_single s T dat).void
  | .ctor_default => (ctor_default s).void
  | .ctor_value T dat => (ctor_value s T dat).void
  | .ctor_copy v => (ctor_copy s v).void
  | .ctor_move v => (ctor_move s v).void
  | .dtor a => dtor s a
  | .detach a => detach tr s a
  | .get_ext a => (get_ext tr s a).void
  | .protect a => protect s a
  | .constant a => constant s a
  | .single a => single s a
  | .copy_assign a var => copy_assign s a var
  | .move_assign a var => move_assign s a var
  | .val a T raw => (val s a T raw).void
  | .const_val a T => (const_val s a T).void
  | .store ref v => store s ref v
  | .assign a obj raw => assign s a obj raw
  | .assign_value a T dat raw => assign_value s a T dat raw
  | .assign_op a T dat => assign_op s a T dat

/-- Perform the calls of a program one after the other; a call that throws leaves its
state to the next call (the exception is caught), a call without defined behaviour
ends the run. -/
def run_all (tr : Traits Val) : State Val → List (Op Val) → Option (State Val)
  | s, [] => some s
  | s, op :: ops =>
    match (run tr s op).state with
    | none => none
    | some s1 => run_all tr s1 ops

/-- The states a program can reach from the empty memory. -/
inductive Reachable (tr : Traits Val) : State Val → Prop where
  | empty : Reachable tr State.empty
  | step (s s1 : State Val) (op : Op Val) :
      Reachable tr s → (run tr s op).state = some s1 → Reachable tr s1

end

/-! ## Well-formed memory -/

section
variable {Val : Type}

/-- The representation invariant of the memory:
* a handle that is not empty points to a proxy that exists;
* the refcount of a proxy is the number of handles pointing to it, and is at least 1;
* its protection level is one of `0`, `1`, `2`, `3`;
* its `data` is not null and points to a holder that exists;
* two different proxies have different holders. -/
structure WF (s : State Val) : Prop where
  live : ∀ a p, s.mDat a = some (some p) → ∃ px, s.slot p = some px
  count : ∀ p px, s.slot p = some px → px.refcount = s.refs p ∧ 1 ≤ px.refcount
  level : ∀ p px, s.slot p = some px → 0 ≤ px.protect_level ∧ px.protect_level ≤ 3
  data : ∀ p px, s.slot p = some px → ∃ h hd, px.data = some h ∧ s.hold h = some hd
  owner : ∀ p q px qx, s.slot p = some px → s.slot q = some qx → px.data = qx.data → p = q

end

section
variable {Val : Type}

/-- The level of a proxy is one of `0` (Mutable), `1` (Protected), `2` (Constant) and
`3` (Single). -/
def proxy.in_range (px : proxy) : Prop := 0 ≤ px.protect_level ∧ px.protect_level ≤ 3

/-- From the memory `s` to the memory `s1` no proxy lost protection: addresses are
not reused, a proxy present in both has a level in `s1` that is at least its level in
`s`, and levels stay in range (a proxy new in `s1` has a level in range). -/
structure Raises (s s1 : State Val) : Prop where
  grow : s.proxies.length ≤ s1.proxies.length
  dead : ∀ p, p < s.proxies.length → s.slot p = none → s1.slot p = none
  mono : ∀ p px px1, s.slot p = some px → s1.slot p = some px1 →
    px.protect_level ≤ px1.protect_level
  range : ∀ p px1, s1.slot p = some px1 → (∀ px, s.slot p = some px → px.in_range) →
    px1.in_range

end

section
variable {Val : Type}

/-- The invariant `WF` with one reference pending: the proxy `x`, when there is one,
has been given a refcount that counts a handle which does not point to it yet. -/
structure WFx (s : State Val) (x : Option Nat) : Prop where
  live : ∀ a p, s.mDat a = some (some p) → ∃ px, s.slot p = some px
  count : ∀ p px, s.slot p = some px →
    px.refcount = s.refs p + (if x = some p then 1 else 0) ∧ 1 ≤ px.refcount
  level : ∀ p px, s.slot p = some px → px.in_range
  data : ∀ p px, s.slot p = some px → ∃ h hd, px.data = some h ∧ s.hold h = some hd
  owner : ∀ p q px qx, s.slot p = some px → s.slot q = some qx → px.data = qx.data → p = q
  pending : ∀ q, x = some q → ∃ qx, s.slot q = some qx

end

section
variable {Val : Type}

/-- The handle `a` is the only handle of the proxy whose holder is `h`: the holder
that `a.recycle()` destroys. -/
def owns_alone (s : State Val) (a h : Nat) : Bool :=
  match s.mDat a with
  | some (some p) =>
    match s.slot p with
    | some px => decide (px.refcount = 1 ∧ px.data = some h)
    | none => false
  | _ => false

/-- What the two members `assign` have in common, used to reason about both at once
(it is no member of `any`): the handle `a` is given a new holder of type `U` with the
payload `v`, in place under the test of the level when `raw` is set on a handle that
is not empty, on a new proxy after `recycle()` otherwise.  The member
`assign(const T &dat, bool)` does this with `U = holder_type T` and the value read
from `dat`, when `dat` can still be read at that point; the member
`assign(const any &obj, bool)` does it, without `raw`, with the type and the payload
of the holder of `obj`. -/
def assign_holder (s : State Val) (a : Nat) (U : Nat) (v : Val) (raw : Bool) :
    Outcome Val Unit :=
  match s.mDat a, raw with
  | none, _ => .undefined
  | some (some p), true =>
    match s.slot p with
    | none => .undefined
    | some px =>
      if px.protect_level > 0 then .thrown .E000J s
      else
        match kill s px.data with
        | none => .undefined
        | some s1 =>
          match (s1.new_holder U v).2.slot p with
          | none => .undefined
          | some px1 =>
            .ok () ((s1.new_holder U v).2.set_slot p
              { px1 with data := some (s1.new_holder U v).1 })
  | some _, _ =>
    (recycle s a).bind fun _ s1 =>
      let hs := s1.new_holder U v
      let ps := hs.2.new_proxy ⟨0, 1, some hs.1⟩
      .ok () (ps.2.set_mDat a (some ps.1))

end

section
variable {Val : Type}

/-- The memory `s1` is the memory `s` after the handle `a` has been given a value of its
own, the payload `dat` of type `T`: `a` points to a proxy that did not exist in `s`,
with refcount 1 and level 0, on a new holder of `dat`; the proxy `a` pointed to has
lost one reference, and is gone when that was its last one; every other handle has
its pointer, reads the payload it read and answers `is_protect`, `is_constant` and
`is_single` as it did. -/
structure Reassigned (s s1 : State Val) (a T : Nat) (dat : Val) : Prop where
  fresh : s.slot s.proxies.length = none
  new_handle : s1.mDat a = some (some s.proxies.length)
  new_proxy : s1.slot s.proxies.length = some ⟨0, 1, some s.holders.length⟩
  new_holder : s1.hold s.holders.length = some ⟨T, dat⟩
  new_read : const_val s1 a (.of T) = .ok dat s1
  released : ∀ p px, s.mDat a = some (some p) → s.slot p = some px →
    s1.slot p = if px.refcount = 1 then none
      else some { px with refcount := px.refcount - 1 }
  others : ∀ c, c ≠ a → s1.mDat c = s.mDat c
  reads : ∀ c T1 v, c ≠ a → const_val s c T1 = .ok v s → const_val s1 c T1 = .ok v s1
  levels : ∀ c, c ≠ a → is_protect s1 c = is_protect s c ∧
    is_constant s1 c = is_constant s c ∧ is_single s1 c = is_single s c

end

section
variable {Val : Type}

/-- Operator `bool operator==(const any &var) const`: `return this->compare(var);`. -/
def op_eq (tr : Traits Val) (s : State Val) (a var : Nat) : Option Bool :=
  compare tr s a var

/-- Operator `bool operator!=(const any &var) const`: `return !this->compare(var);`. -/
def op_ne (tr : Traits Val) (s : State Val) (a var : Nat) : Option Bool :=
  (compare tr s a var).map fun r => !r

/-- Specialisation `std::hash<cs_impl::any>`, whose `operator()` is
`return val.hash();`. -/
def std_hash (tr : Traits Val) (s : State Val) (val : Nat) : Option Nat :=
  hash tr s val

/-- The protection level observed through the handle `c`: the answers of
`c.is_protect()`, `c.is_constant()` and `c.is_single()`. -/
def observed (s : State Val) (c : Nat) : Option Bool × Option Bool × Option Bool :=
  (is_protect s c, is_constant s c, is_single s c)

end

/-! ## Example memories -/

/-- Payload type `0` stands for `int`. -/
def ex_traits : Traits Int where
  compare := fun _ x y => decide (x = y)
  to_integer := fun _ x => x
  to_string := fun _ _ => ""
  hash := fun _ x => x.natAbs
  hash_nullptr := 0
  detach := fun _ x => x
  get_ext := fun T => T
  get_name_of_type := fun _ => ""

/-- The memory after `any a(5);`: handle `0` on proxy `0` on holder `0`. -/
def ex_five : State Int :=
  ⟨[some ⟨some 0⟩], [some ⟨0, 1, some 0⟩], [some ⟨0, 5⟩]⟩

/-- The memory after `any e;`: the empty handle `0`. -/
def ex_null : State Int :=
  ⟨[some ⟨none⟩], [], []⟩

/-- The memory after `any a(5); a.protect(); any c(7);`: handle `0` on the protected
proxy `0` holding `5`, handle `1` on the mutable proxy `1` holding `7`. -/
def ex_five_seven : State Int :=
  ⟨[some ⟨some 0⟩, some ⟨some 1⟩], [some ⟨1, 1, some 0⟩, some ⟨0, 1, some 1⟩],
    [some ⟨0, 5⟩, some ⟨0, 7⟩]⟩

/-- The memory after `any a(5); any b(7); any c(a);`: handles `0` and `2` share the
proxy `0` holding `5`, handle `1` is on the proxy `1` holding `7`. -/
def ex_shared : State Int :=
  ⟨[some ⟨some 0⟩, some ⟨some 1⟩, some ⟨some 0⟩], [some ⟨0, 2, some 0⟩, some ⟨0, 1, some 1⟩],
    [some ⟨0, 5⟩, some ⟨0, 7⟩]⟩

/-- The memory after `any a(5); a.protect(); a.constant(); a.single();`, also when
calls of `protect()` and `constant()` that throw come in between. -/
def ex_single : State Int :=
  ⟨[some ⟨some 0⟩], [some ⟨3, 1, some 0⟩], [some ⟨0, 5⟩]⟩

/-- The memory after `any a(42);`. -/
def ex_forty_two : State Int :=
  ⟨[some ⟨some 0⟩], [some ⟨0, 1, some 0⟩], [some ⟨0, 42⟩]⟩

/-- The memory after `any a = any::make_single<int>(5); any e;`: handle `0` on the
proxy `0` at level 3 holding `5`, and the empty handle `1`. -/
def ex_single_null : State Int :=
  ⟨[some ⟨some 0⟩, some ⟨none⟩], [some ⟨3, 1, some 0⟩], [some ⟨0, 5⟩]⟩

/-- The memory after `any a(5); any b(5);`: two handles on two proxies, each holding a
`5` of type `0`. -/
def ex_twins : State Int :=
  ⟨[some ⟨some 0⟩, some ⟨some 1⟩], [some ⟨0, 1, some 0⟩, some ⟨0, 1, some 1⟩],
    [some ⟨0, 5⟩, some ⟨0, 5⟩]⟩

/-- The memory after two constructions from values of two types, `0` and `1`, both
equal to `5` as values of `Int`, followed by `any e;`. -/
def ex_mixed : State Int :=
  ⟨[some ⟨some 0⟩, some ⟨some 1⟩, some ⟨none⟩],
    [some ⟨0, 1, some 0⟩, some ⟨0, 1, some 1⟩], [some ⟨0, 5⟩, some ⟨1, 5⟩]⟩

/-! ## Facts about stores -/

section
variable {α : Type}

theorem peek_length_le (l : List (Option α)) (p : Nat) (h : l.length ≤ p) : peek l p = none := by
  induction l generalizing p with
  | nil => rfl
  | cons c l ih =>
    cases p with
    | zero => simp at h
    | succ p => exact ih p (by simpa using h)

theorem peek_lt (l : List (Option α)) (p : Nat) (v : α) (h : peek l p = some v) :
    p < l.length := by
  by_contra hc
  rw [peek_length_le l p (by omega)] at h
  cases h

theorem length_poke (l : List (Option α)) (p : Nat) (x : Option α) :
    (poke l p x).length = l.length := by
  induction l generalizing p with
  | nil => rfl
  | cons c l ih =>
    cases p with
    | zero => rfl
    | succ p => simp [poke, ih]

theorem peek_poke_ne (l : List (Option α)) (p q : Nat) (x : Option α) (h : q ≠ p) :
    peek (poke l p x) q = peek l q := by
  induction l generalizing p q with
  | nil => rfl
  | cons c l ih =>
    cases p with
    | zero =>
      cases q with
      | zero => exact absurd rfl h
      | succ q => rfl
    | succ p =>
      cases q with
      | zero => rfl
      | succ q => exact ih p q (by omega)

theorem peek_poke_self (l : List (Option α)) (p : Nat) (x : Option α) (h : p < l.length) :
    peek (poke l p x) p = x := by
  induction l generalizing p with
  | nil => simp at h
  | cons c l ih =>
    cases p with
    | zero => rfl
    | succ p => exact ih p (by simpa using h)

theorem peek_poke (l : List (Option α)) (p q : Nat) (x : Option α) (v : α)
    (h : peek l p = some v) : peek (poke l p x) q = if q = p then x else peek l q := by
  by_cases hq : q = p
  · subst hq
    simp [peek_poke_self l q x (peek_lt l q v h)]
  · simp [hq, peek_poke_ne l p q x hq]

theorem peek_append (l : List (Option α)) (x : Option α) (q : Nat) :
    peek (l ++ [x]) q = if q = l.length then x else peek l q := by
  induction l generalizing q with
  | nil =>
    cases q with
    | zero => rfl
    | succ q => simp [peek]
  | cons c l ih =>
    cases q with
    | zero => simp [peek]
    | succ q => simp [peek, ih]

theorem length_free (l : List (Option α)) (p : Nat) : (free l p).length = l.length :=
  length_poke l p none

theorem peek_free (l : List (Option α)) (p q : Nat) :
    peek (free l p) q = if q = p then none else peek l q := by
  by_cases hq : q = p
  · subst hq
    rw [if_pos rfl]
    by_cases hlt : q < l.length
    · exact peek_poke_self l q none hlt
    · exact peek_length_le _ _ (by rw [length_free]; omega)
  · rw [if_neg hq]
    exact peek_poke_ne l p q none hq

theorem count_poke [DecidableEq α] (l : List (Option α)) (p : Nat) (x : Option α) (y v : α)
    (h : peek l p = some v) :
    (poke l p x).count (some y) + (if v = y then 1 else 0)
      = l.count (some y) + (if x = some y then 1 else 0) := by
  induction l generalizing p with
  | nil => cases h
  | cons c l ih =>
    cases p with
    | zero =>
      simp only [peek] at h
      subst h
      simp only [poke, List.count_cons, beq_iff_eq, Option.some.injEq]
      omega
    | succ p =>
      have := ih p h
      simp only [poke, List.count_cons]
      omega

end

/-! ## Facts about the memory -/

section
variable {Val : Type}

theorem slot_set_slot (s : State Val) (p q : Nat) (px px1 : proxy) (h : s.slot p = some px) :
    (s.set_slot p px1).slot q = if q = p then some px1 else s.slot q :=
  peek_poke s.proxies p q (some px1) px h

theorem hold_set_hold (s : State Val) (h k : Nat) (hd hd1 : holder Val)
    (hh : s.hold h = some hd) :
    (s.set_hold h hd1).hold k = if k = h then some hd1 else s.hold k :=
  peek_poke s.holders h k (some hd1) hd hh

theorem mDat_set_mDat (s : State Val) (a b : Nat) (m m1 : Option Nat)
    (h : s.mDat a = some m) :
    (s.set_mDat a m1).mDat b = if b = a then some m1 else s.mDat b := by
  unfold State.mDat at h
  cases ho : peek s.objs a with
  | none => simp [ho] at h
  | some o =>
    simp only [State.mDat, State.set_mDat, peek_poke s.objs a b (some ⟨m1⟩) o ho]
    split <;> simp

theorem refs_set_mDat (s : State Val) (a p : Nat) (m m1 : Option Nat)
    (h : s.mDat a = some m) :
    (s.set_mDat a m1).refs p + (if m = some p then 1 else 0)
      = s.refs p + (if m1 = some p then 1 else 0) := by
  unfold State.mDat at h
  cases ho : peek s.objs a with
  | none => simp [ho] at h
  | some o =>
    have hc := count_poke s.objs a (some ⟨m1⟩) ⟨some p⟩ o ho
    simp only [ho, Option.map_some', Option.some.injEq] at h
    have e1 : (o = (⟨some p⟩ : any)) ↔ (m = some p) := by
      cases o; simp only [any.mk.injEq]; simp at h; rw [h]
    have e2 : ((some (⟨m1⟩ : any)) = some ⟨some p⟩) ↔ (m1 = some p) := by simp
    simp only [e1, e2] at hc
    exact hc

end

section
variable {Val : Type}

/-- What `const_val` returns, in terms of the holder the handle leads to. -/
theorem const_val_eq (s : State Val) (c : Nat) (T : type_info) :
    const_val s c T =
      match s.mDat c with
      | none => .undefined
      | some none => if T ≠ .void then .thrown .E0006 s else .thrown .E0005 s
      | some (some p) =>
        match s.payload p with
        | none => .undefined
        | some hd => if T ≠ .of hd.T then .thrown .E0006 s else .ok hd.mDat s := by
  unfold const_val type
  cases hm : s.mDat c with
  | none => rfl
  | some m =>
    cases m with
    | none => simp
    | some p =>
      cases hp : s.payload p with
      | none => simp [hp]
      | some hd => simp [hp]

/-- A successful typed read follows the handle to a proxy, its holder and the payload. -/
theorem const_val_ok (s s1 : State Val) (c : Nat) (T : type_info) (v : Val)
    (h : const_val s c T = .ok v s1) :
    s1 = s ∧ ∃ p hd, s.mDat c = some (some p) ∧ s.payload p = some hd ∧
      T = .of hd.T ∧ hd.mDat = v := by
  rw [const_val_eq] at h
  cases hm : s.mDat c with
  | none => simp [hm] at h
  | some m =>
    cases m with
    | none =>
      simp only [hm] at h
      split at h <;> cases h
    | some p =>
      cases hp : s.payload p with
      | none => simp [hm, hp] at h
      | some hd =>
        simp only [hm, hp] at h
        split at h
        · cases h
        · rename_i hT
          simp only [Outcome.ok.injEq] at h
          exact ⟨h.2.symm, p, hd, rfl, hp, not_not.mp hT, h.1⟩

end

section
variable {Val : Type}

theorem bind_thrown {α β : Type} (x : Outcome Val α) (f : α → State Val → Outcome Val β)
    (e : Error) (s1 : State Val) (h : x.bind f = .thrown e s1) :
    x = .thrown e s1 ∨ ∃ r s2, x = .ok r s2 ∧ f r s2 = .thrown e s1 := by
  cases x with
  | ok r s2 => exact Or.inr ⟨r, s2, rfl, h⟩
  | thrown e2 s2 => exact Or.inl (by simpa [Outcome.bind] using h)
  | undefined => cases h

theorem recycle_not_thrown (s s1 : State Val) (a : Nat) (e : Error) :
    recycle s a ≠ .thrown e s1 := by
  unfold recycle
  intro h
  repeat' split at h
  all_goals cases h

theorem duplicate_not_thrown (s s1 : State Val) (a : Nat) (e : Error) :
    duplicate s a ≠ .thrown e s1 := by
  unfold duplicate
  intro h
  repeat' split at h
  all_goals cases h

theorem swap_thrown (s s1 : State Val) (a obj : Nat) (raw : Bool) (e : Error)
    (h : swap s a obj raw = .thrown e s1) : s1 = s := by
  unfold swap at h
  repeat' split at h
  all_goals cases h <;> rfl

theorem clone_thrown (s s1 : State Val) (a : Nat) (e : Error)
    (h : clone s a = .thrown e s1) : s1 = s := by
  unfold clone at h
  repeat' split at h
  all_goals first
    | (cases h <;> rfl)
    | (exfalso
       rcases bind_thrown _ _ _ _ h with h1 | ⟨r, s2, -, h2⟩
       · exact recycle_not_thrown _ _ _ _ h1
       · cases h2)

theorem val_thrown (s s1 : State Val) (a : Nat) (T : type_info) (raw : Bool) (e : Error)
    (h : val s a T raw = .thrown e s1) : s1 = s := by
  unfold val at h
  repeat' split at h
  all_goals first
    | (cases h <;> rfl)
    | (rcases bind_thrown _ _ _ _ h with h1 | ⟨r, s2, -, h2⟩
       · first
           | cases h1
           | exact clone_thrown _ _ _ _ h1
       · repeat' split at h2
         all_goals cases h2)

theorem const_val_thrown (s s1 : State Val) (a : Nat) (T : type_info) (e : Error)
    (h : const_val s a T = .thrown e s1) : s1 = s := by
  unfold const_val at h
  repeat' split at h
  all_goals cases h <;> rfl

theorem assign_thrown (s s1 : State Val) (a obj : Nat) (raw : Bool) (e : Error)
    (h : assign s a obj raw = .thrown e s1) : s1 = s := by
  unfold assign at h
  repeat' split at h
  all_goals first
    | (cases h <;> rfl)
    | (exfalso
       rcases bind_thrown _ _ _ _ h with h1 | ⟨r, s2, -, h2⟩
       · exact recycle_not_thrown _ _ _ _ h1
       · repeat' split at h2
         all_goals cases h2)

theorem assign_holder_thrown (s s1 : State Val) (a T : Nat) (dat : Val) (raw : Bool)
    (e : Error) (h : assign_holder s a T dat raw = .thrown e s1) : s1 = s := by
  unfold assign_holder at h
  repeat' split at h
  all_goals first
    | (cases h <;> rfl)
    | (exfalso
       rcases bind_thrown _ _ _ _ h with h1 | ⟨r, s2, -, h2⟩
       · exact recycle_not_thrown _ _ _ _ h1
       · cases h2)

/-- The member `assign(const T &dat, bool)` bound to a value. -/
theorem assign_value_value (s : State Val) (a T : Nat) (v : Val) (raw : Bool) :
    assign_value s a T (.value v) raw = assign_holder s a (holder_type T) v raw := by
  unfold assign_value assign_holder
  rfl

/-- The cooked member `assign(const T &dat)` reads `dat` in the memory that `recycle()`
leaves. -/
theorem assign_value_cooked (s s2 : State Val) (a T : Nat) (dat : Arg Val)
    (hrec : recycle s a = .ok () s2) :
    assign_value s a T dat false
      = match dat.get s2 with
        | none => .undefined
        | some v => assign_holder s a (holder_type T) v false := by
  have hm : ∃ m, s.mDat a = some m := by
    cases hc : s.mDat a with
    | none => simp [recycle, hc] at hrec
    | some m => exact ⟨m, rfl⟩
  obtain ⟨m, hm⟩ := hm
  cases hg : dat.get s2 with
  | none => cases m <;> simp [assign_value, hm, hrec, Outcome.bind, hg]
  | some v => cases m <;> simp [assign_value, assign_holder, hm, hrec, Outcome.bind, hg]

/-- The member `assign(const T &dat, bool)` has no defined behaviour, or throws E000J
and changes nothing, or does what `assign_holder` does with a value read from `dat`. -/
theorem assign_value_cases (s : State Val) (a T : Nat) (dat : Arg Val) (raw : Bool) :
    assign_value s a T dat raw = .undefined ∨
    assign_value s a T dat raw = .thrown .E000J s ∨
    ∃ v, assign_value s a T dat raw = assign_holder s a (holder_type T) v raw := by
  cases hm : s.mDat a with
  | none => exact Or.inl (by simp [assign_value, hm])
  | some m =>
    have cooked : assign_value s a T dat false = .undefined ∨
        assign_value s a T dat false = .thrown .E000J s ∨
        ∃ v, assign_value s a T dat false = assign_holder s a (holder_type T) v false := by
      cases hrec : recycle s a with
      | undefined => exact Or.inl (by cases m <;> simp [assign_value, hm, hrec, Outcome.bind])
      | thrown e s2 => exact absurd hrec (recycle_not_thrown _ _ _ _)
      | ok r s2 =>
        rw [assign_value_cooked s s2 a T dat hrec]
        cases hg : dat.get s2 with
        | none => exact Or.inl rfl
        | some v => exact Or.inr (Or.inr ⟨v, rfl⟩)
    cases raw with
    | false => exact cooked
    | true =>
      cases m with
      | none =>
        have e1 : assign_value s a T dat true = assign_value s a T dat false := by
          simp [assign_value, hm]
        have e2 : ∀ v, assign_holder s a (holder_type T) v true
            = assign_holder s a (holder_type T) v false := by
          intro v
          simp [assign_holder, hm]
        rw [e1]
        rcases cooked with h | h | ⟨v, h⟩
        · exact Or.inl h
        · exact Or.inr (Or.inl h)
        · exact Or.inr (Or.inr ⟨v, by rw [e2, h]⟩)
      | some p =>
        cases hp : s.slot p with
        | none => exact Or.inl (by simp [assign_value, hm, hp])
        | some px =>
          by_cases hl : px.protect_level > 0
          · exact Or.inr (Or.inl (by simp [assign_value, hm, hp, hl]))
          · cases hk : kill s px.data with
            | none => exact Or.inl (by simp [assign_value, hm, hp, hl, hk])
            | some s1 =>
              cases hg : dat.get s1 with
              | none => exact Or.inl (by simp [assign_value, hm, hp, hl, hk, hg])
              | some v =>
                exact Or.inr (Or.inr ⟨v, by
                  simp [assign_value, assign_holder, hm, hp, hl, hk, hg]⟩)

theorem assign_value_thrown (s s1 : State Val) (a T : Nat) (dat : Arg Val) (raw : Bool)
    (e : Error) (h : assign_value s a T dat raw = .thrown e s1) : s1 = s := by
  rcases assign_value_cases s a T dat raw with h1 | h1 | ⟨v, h1⟩
  · rw [h1] at h
    cases h
  · rw [h1] at h
    cases h
    rfl
  · rw [h1] at h
    exact assign_holder_thrown s s1 a _ v raw e h

theorem detach_thrown (tr : Traits Val) (s s1 : State Val) (a : Nat) (e : Error)
    (h : detach tr s a = .thrown e s1) : s1 = s := by
  unfold detach at h
  repeat' split at h
  all_goals cases h <;> rfl

theorem get_ext_thrown (tr : Traits Val) (s s1 : State Val) (a : Nat) (e : Error)
    (h : get_ext tr s a = .thrown e s1) : s1 = s := by
  unfold get_ext at h
  repeat' split at h
  all_goals cases h <;> rfl

theorem protect_thrown (s s1 : State Val) (a : Nat) (e : Error)
    (h : protect s a = .thrown e s1) : s1 = s := by
  unfold protect at h
  repeat' split at h
  all_goals cases h <;> rfl

theorem constant_thrown (s s1 : State Val) (a : Nat) (e : Error)
    (h : constant s a = .thrown e s1) : s1 = s := by
  unfold constant at h
  repeat' split at h
  all_goals cases h <;> rfl

theorem single_thrown (s s1 : State Val) (a : Nat) (e : Error)
    (h : single s a = .thrown e s1) : s1 = s := by
  unfold single at h
  repeat' split at h
  all_goals cases h <;> rfl

theorem copy_assign_not_thrown (s s1 : State Val) (a var : Nat) (e : Error) :
    copy_assign s a var ≠ .thrown e s1 := by
  intro h
  unfold copy_assign at h
  repeat' split at h
  all_goals first
    | cases h
    | (rcases bind_thrown _ _ _ _ h with h1 | ⟨r, s2, -, h2⟩
       · exact recycle_not_thrown _ _ _ _ h1
       · rcases bind_thrown _ _ _ _ h2 with h3 | ⟨r, s3, -, h4⟩
         · exact duplicate_not_thrown _ _ _ _ h3
         · cases h4)

theorem swap_false_not_thrown (s s1 : State Val) (a obj : Nat) (e : Error) :
    swap s a obj false ≠ .thrown e s1 := by
  intro h
  unfold swap at h
  simp only [Bool.false_eq_true, if_false] at h
  repeat' split at h
  all_goals cases h

theorem move_assign_not_thrown (s s1 : State Val) (a var : Nat) (e : Error) :
    move_assign s a var ≠ .thrown e s1 := by
  intro h
  unfold move_assign at h
  repeat' split at h
  all_goals first
    | cases h
    | exact swap_false_not_thrown _ _ _ _ _ h

theorem ctor_copy_not_thrown (s s1 : State Val) (v : Nat) (e : Error) :
    ctor_copy s v ≠ .thrown e s1 := by
  intro h
  unfold ctor_copy at h
  rcases bind_thrown _ _ _ _ h with h1 | ⟨r, s2, -, h2⟩
  · exact duplicate_not_thrown _ _ _ _ h1
  · cases h2

theorem ctor_move_not_thrown (s s1 : State Val) (v : Nat) (e : Error) :
    ctor_move s v ≠ .thrown e s1 := by
  intro h
  unfold ctor_move at h
  rcases bind_thrown _ _ _ _ h with h1 | ⟨r, s2, -, h2⟩
  · exact swap_false_not_thrown _ _ _ _ _ h1
  · cases h2

theorem dtor_not_thrown (s s1 : State Val) (a : Nat) (e : Error) :
    dtor s a ≠ .thrown e s1 := by
  intro h
  unfold dtor at h
  rcases bind_thrown _ _ _ _ h with h1 | ⟨r, s2, -, h2⟩
  · exact recycle_not_thrown _ _ _ _ h1
  · cases h2

theorem store_not_thrown (s s1 : State Val) (ref : Nat) (v : Val) (e : Error) :
    store s ref v ≠ .thrown e s1 := by
  intro h
  unfold store at h
  repeat' split at h
  all_goals cases h

theorem void_thrown {α : Type} (x : Outcome Val α) (e : Error) (s1 : State Val)
    (h : x.void = .thrown e s1) : x = .thrown e s1 := by
  cases x with
  | ok r s2 => cases h
  | thrown e2 s2 => simpa [Outcome.void] using h
  | undefined => cases h

/-- A call that throws leaves the memory as it was. -/
theorem run_thrown (tr : Traits Val) (s s1 : State Val) (op : Op Val) (e : Error)
    (h : run tr s op = .thrown e s1) : s1 = s := by
  cases op <;> simp only [run] at h
  case swap a obj raw => exact swap_thrown _ _ _ _ _ _ h
  case clone a => exact clone_thrown _ _ _ _ h
  case make T dat => simp [make, Outcome.void] at h
  case make_protect T dat => simp [make_protect, Outcome.void] at h
  case make_constant T dat => simp [make_constant, Outcome.void] at h
  case make_single T dat => simp [make_single, Outcome.void] at h
  case ctor_default => simp [ctor_default, Outcome.void] at h
  case ctor_value T dat => simp [ctor_value, Outcome.void] at h
  case ctor_copy v => exact absurd (void_thrown _ _ _ h) (ctor_copy_not_thrown _ _ _ _)
  case ctor_move v => exact absurd (void_thrown _ _ _ h) (ctor_move_not_thrown _ _ _ _)
  case dtor a => exact absurd h (dtor_not_thrown _ _ _ _)
  case detach a => exact detach_thrown _ _ _ _ _ h
  case get_ext a => exact get_ext_thrown _ _ _ _ _ (void_thrown _ _ _ h)
  case protect a => exact protect_thrown _ _ _ _ h
  case constant a => exact constant_thrown _ _ _ _ h
  case single a => exact single_thrown _ _ _ _ h
  case copy_assign a var => exact absurd h (copy_assign_not_thrown _ _ _ _ _)
  case move_assign a var => exact absurd h (move_assign_not_thrown _ _ _ _ _)
  case val a T raw => exact val_thrown _ _ _ _ _ _ (void_thrown _ _ _ h)
  case const_val a T => exact const_val_thrown _ _ _ _ _ (void_thrown _ _ _ h)
  case store ref v => exact absurd h (store_not_thrown _ _ _ _ _)
  case assign a obj raw => exact assign_thrown _ _ _ _ _ _ h
  case assign_value a T dat raw => exact assign_value_thrown _ _ _ _ _ _ _ h
  case assign_op a T dat => exact assign_value_thrown _ _ _ _ _ _ _ h

end

/-! ## Protection never decreases -/

section
variable {Val : Type}

theorem Raises.of_eq (s s1 : State Val) (h : s1.proxies = s.proxies) : Raises s s1 where
  grow := by rw [h]
  dead := fun p _ hp => by simpa [State.slot, h] using hp
  mono := fun p px px1 h0 h1 => by
    have : some px = some px1 := by rw [← h0, ← h1]; simp [State.slot, h]
    cases this
    exact le_refl _
  range := fun p px1 h1 hr => hr px1 (by simpa [State.slot, h] using h1)

theorem Raises.refl (s : State Val) : Raises s s := Raises.of_eq s s rfl

theorem Raises.trans (s s1 s2 : State Val) (h01 : Raises s s1) (h12 : Raises s1 s2) :
    Raises s s2 where
  grow := le_trans h01.grow h12.grow
  dead := fun p hp h0 =>
    h12.dead p (lt_of_lt_of_le hp h01.grow) (h01.dead p hp h0)
  mono := fun p px px2 h0 h2 => by
    cases h1 : s1.slot p with
    | none =>
      have hlt : p < s.proxies.length := peek_lt _ _ _ h0
      have := h12.dead p (lt_of_lt_of_le hlt h01.grow) h1
      rw [h2] at this
      cases this
    | some px1 => exact le_trans (h01.mono p px px1 h0 h1) (h12.mono p px1 px2 h1 h2)
  range := fun p px2 h2 hr =>
    h12.range p px2 h2 (fun px1 h1 => h01.range p px1 h1 hr)

theorem Raises.set_slot (s : State Val) (p : Nat) (px px1 : proxy) (h : s.slot p = some px)
    (hle : px.protect_level ≤ px1.protect_level) (hr : px.in_range → px1.in_range) :
    Raises s (s.set_slot p px1) where
  grow := by simp [State.set_slot, length_poke]
  dead := fun q _ hq => by
    rw [slot_set_slot s p q px px1 h]
    split
    · rename_i e
      subst e
      rw [h] at hq
      cases hq
    · exact hq
  mono := fun q qx qx1 h0 h1 => by
    rw [slot_set_slot s p q px px1 h] at h1
    split at h1
    · rename_i e
      subst e
      rw [h] at h0
      cases h0
      cases h1
      exact hle
    · rw [h0] at h1
      cases h1
      exact le_refl _
  range := fun q qx1 h1 hq => by
    rw [slot_set_slot s p q px px1 h] at h1
    split at h1
    · rename_i e
      subst e
      cases h1
      exact hr (hq px h)
    · exact hq qx1 h1

theorem Raises.new_proxy (s : State Val) (px : proxy) (hr : px.in_range) :
    Raises s (s.new_proxy px).2 where
  grow := by simp [State.new_proxy, alloc]
  dead := fun q hq h0 => by
    simp only [State.new_proxy, alloc, State.slot, peek_append]
    rw [if_neg (by omega)]
    exact h0
  mono := fun q qx qx1 h0 h1 => by
    have hlt : q < s.proxies.length := peek_lt _ _ _ h0
    simp only [State.new_proxy, alloc, State.slot, peek_append] at h1
    rw [if_neg (by omega)] at h1
    have : some qx = some qx1 := by rw [← h1]; exact h0.symm
    cases this
    exact le_refl _
  range := fun q qx1 h1 hq => by
    simp only [State.new_proxy, alloc, State.slot, peek_append] at h1
    split at h1
    · cases h1
      exact hr
    · exact hq qx1 h1

theorem Raises.release (s : State Val) (p : Nat) :
    Raises s { s with proxies := free s.proxies p } where
  grow := by simp [length_free]
  dead := fun q _ h0 => by
    simp only [State.slot, peek_free]
    split
    · rfl
    · exact h0
  mono := fun q qx qx1 h0 h1 => by
    simp only [State.slot, peek_free] at h1
    split at h1
    · cases h1
    · have : some qx = some qx1 := by rw [← h1]; exact h0.symm
      cases this
      exact le_refl _
  range := fun q qx1 h1 hq => by
    simp only [State.slot, peek_free] at h1
    split at h1
    · cases h1
    · exact hq qx1 h1

theorem Raises.congr_right (s x y : State Val) (h : Raises s x) (e : y.proxies = x.proxies) :
    Raises s y :=
  Raises.trans s x y h (Raises.of_eq x y e)

theorem Raises.set_mDat_right (s x : State Val) (a : Nat) (m : Option Nat) (h : Raises s x) :
    Raises s (x.set_mDat a m) :=
  Raises.congr_right s x _ h rfl

theorem Raises.new_any_right (s x : State Val) (m : Option Nat) (h : Raises s x) :
    Raises s (x.new_any m).2 :=
  Raises.congr_right s x _ h rfl

theorem Raises.new_holder_right (s x : State Val) (T : Nat) (dat : Val) (h : Raises s x) :
    Raises s (x.new_holder T dat).2 :=
  Raises.congr_right s x _ h rfl

theorem Raises.set_hold_right (s x : State Val) (k : Nat) (hd : holder Val)
    (h : Raises s x) : Raises s (x.set_hold k hd) :=
  Raises.congr_right s x _ h rfl

theorem Raises.set_slot_right (s x : State Val) (p : Nat) (px px1 : proxy) (h : Raises s x)
    (hp : x.slot p = some px) (hle : px.protect_level ≤ px1.protect_level)
    (hr : px.in_range → px1.in_range) : Raises s (x.set_slot p px1) :=
  Raises.trans s x _ h (Raises.set_slot x p px px1 hp hle hr)

theorem Raises.new_proxy_right (s x : State Val) (px : proxy) (h : Raises s x)
    (hr : px.in_range) : Raises s (x.new_proxy px).2 :=
  Raises.trans s x _ h (Raises.new_proxy x px hr)

theorem kill_proxies (s s1 : State Val) (d : Option Nat) (h : kill s d = some s1) :
    s1.proxies = s.proxies := by
  unfold kill at h
  repeat' split at h
  all_goals cases h <;> rfl

theorem holder_duplicate_proxies (s : State Val) (d : Option Nat) (hs : Nat × State Val)
    (h : holder_duplicate s d = some hs) : hs.2.proxies = s.proxies := by
  unfold holder_duplicate at h
  repeat' split at h
  all_goals cases h <;> rfl

theorem free_proxy_raises (s s1 : State Val) (p : Nat) (px : proxy)
    (h : free_proxy s p px = some s1) : Raises s s1 := by
  unfold free_proxy at h
  split at h
  · cases h
    exact Raises.release s p
  · split at h
    · cases h
    · rename_i s2 hk
      cases h
      exact Raises.trans _ _ _ (Raises.of_eq s s2 (kill_proxies _ _ _ hk)) (Raises.release s2 p)

theorem state_bind {α β : Type} (x : Outcome Val α) (f : α → State Val → Outcome Val β)
    (s1 : State Val) (h : (x.bind f).state = some s1) :
    (∃ e, x = .thrown e s1) ∨ ∃ r s2, x = .ok r s2 ∧ (f r s2).state = some s1 := by
  cases x with
  | ok r s2 => exact Or.inr ⟨r, s2, rfl, h⟩
  | thrown e2 s2 =>
    simp only [Outcome.bind, Outcome.state, Option.some.injEq] at h
    subst h
    exact Or.inl ⟨e2, rfl⟩
  | undefined => cases h

theorem same_level (px : proxy) (r : Nat) :
    px.protect_level ≤ ({ px with refcount := r } : proxy).protect_level ∧
    (px.in_range → ({ px with refcount := r } : proxy).in_range) :=
  ⟨le_refl _, fun h => h⟩

theorem same_level_data (px : proxy) (d : Option Nat) :
    px.protect_level ≤ ({ px with data := d } : proxy).protect_level ∧
    (px.in_range → ({ px with data := d } : proxy).in_range) :=
  ⟨le_refl _, fun h => h⟩

theorem Raises.set_refcount (s x : State Val) (p r : Nat) (px : proxy) (h : Raises s x)
    (hp : x.slot p = some px) : Raises s (x.set_slot p { px with refcount := r }) :=
  Raises.set_slot_right s x p px _ h hp (same_level px r).1 (same_level px r).2

theorem Raises.set_data (s x : State Val) (p : Nat) (d : Option Nat) (px : proxy)
    (h : Raises s x) (hp : x.slot p = some px) :
    Raises s (x.set_slot p { px with data := d }) :=
  Raises.set_slot_right s x p px _ h hp (same_level_data px d).1 (same_level_data px d).2

theorem recycle_raises (s s1 : State Val) (a : Nat) (h : (recycle s a).state = some s1) :
    Raises s s1 := by
  unfold recycle at h
  repeat' split at h
  all_goals simp only [Outcome.state, Option.some.injEq] at h
  all_goals first
    | (cases h; done)
    | (subst h; exact Raises.refl _)
    | (subst h
       exact Raises.set_mDat_right _ _ _ _
         (Raises.trans _ _ _
           (Raises.set_refcount s s _ _ _ (Raises.refl s) (by assumption))
           (free_proxy_raises _ _ _ _ (by assumption))))
    | (subst h
       exact Raises.set_refcount s s _ _ _ (Raises.refl s) (by assumption))

theorem duplicate_raises {r : Option Nat} (s s1 : State Val) (a : Nat)
    (h : duplicate s a = .ok r s1) : Raises s s1 := by
  unfold duplicate at h
  repeat' split at h
  all_goals first
    | (cases h; done)
    | (cases h; exact Raises.refl _)
    | (cases h
       exact Raises.set_refcount s s _ _ _ (Raises.refl s) (by assumption))

end

section
variable {Val : Type}

theorem Raises.free_objs_right (s x : State Val) (a : Nat) (h : Raises s x) :
    Raises s { x with objs := free x.objs a } :=
  Raises.congr_right s x _ h rfl

theorem Raises.of_kill (s x y : State Val) (d : Option Nat) (h : Raises s x)
    (hk : kill x d = some y) : Raises s y :=
  Raises.congr_right s x y h (kill_proxies x y d hk)

theorem Raises.of_holder_duplicate (s x : State Val) (d : Option Nat) (hs : Nat × State Val)
    (h : Raises s x) (hk : holder_duplicate x d = some hs) : Raises s hs.2 :=
  Raises.congr_right s x hs.2 h (holder_duplicate_proxies x d hs hk)

theorem Raises.of_recycle {r : Unit} (s x y : State Val) (a : Nat) (h : Raises s x)
    (hk : recycle x a = .ok r y) : Raises s y :=
  Raises.trans s x y h (recycle_raises x y a (by rw [hk]; rfl))

theorem Raises.of_duplicate {r : Option Nat} (s x y : State Val) (a : Nat) (h : Raises s x)
    (hk : duplicate x a = .ok r y) : Raises s y :=
  Raises.trans s x y h (duplicate_raises x y a hk)

theorem swap_raises (s s1 : State Val) (a obj : Nat) (raw : Bool)
    (h : (swap s a obj raw).state = some s1) : Raises s s1 := by
  unfold swap at h
  repeat' split at h
  all_goals simp only [Outcome.state, Option.some.injEq] at h
  all_goals first | (cases h; done) | subst h
  all_goals
    repeat (first
        | exact Raises.refl _
        | apply Raises.set_mDat_right
        | (refine Raises.set_data _ _ _ _ _ ?_ (by assumption)))

theorem detach_raises (tr : Traits Val) (s s1 : State Val) (a : Nat)
    (h : (detach tr s a).state = some s1) : Raises s s1 := by
  unfold detach at h
  repeat' split at h
  all_goals simp only [Outcome.state, Option.some.injEq] at h
  all_goals first | (cases h; done) | subst h
  all_goals
    repeat (first
        | exact Raises.refl _
        | apply Raises.set_hold_right)

theorem get_ext_raises (tr : Traits Val) (s s1 : State Val) (a : Nat)
    (h : (get_ext tr s a).state = some s1) : Raises s s1 := by
  unfold get_ext at h
  repeat' split at h
  all_goals simp only [Outcome.state, Option.some.injEq] at h
  all_goals first | (cases h; done) | subst h
  all_goals
    repeat (first
        | exact Raises.refl _)

theorem protect_raises (s s1 : State Val) (a : Nat)
    (h : (protect s a).state = some s1) : Raises s s1 := by
  unfold protect at h
  repeat' split at h
  all_goals simp only [Outcome.state, Option.some.injEq] at h
  all_goals first | (cases h; done) | subst h
  all_goals
    repeat (first
        | exact Raises.refl _
        | (refine Raises.set_slot_right _ _ _ _ _ ?_ (by assumption)
            (by simp only []; omega) (by intro _; simp [proxy.in_range])))

theorem constant_raises (s s1 : State Val) (a : Nat)
    (h : (constant s a).state = some s1) : Raises s s1 := by
  unfold constant at h
  repeat' split at h
  all_goals simp only [Outcome.state, Option.some.injEq] at h
  all_goals first | (cases h; done) | subst h
  all_goals
    repeat (first
        | exact Raises.refl _
        | (refine Raises.set_slot_right _ _ _ _ _ ?_ (by assumption)
            (by simp only []; omega) (by intro _; simp [proxy.in_range])))

theorem single_raises (s s1 : State Val) (a : Nat)
    (h : (single s a).state = some s1) : Raises s s1 := by
  unfold single at h
  repeat' split at h
  all_goals simp only [Outcome.state, Option.some.injEq] at h
  all_goals first | (cases h; done) | subst h
  all_goals
    repeat (first
        | exact Raises.refl _
        | (refine Raises.set_slot_right _ _ _ _ _ ?_ (by assumption)
            (by simp only []; omega) (by intro _; simp [proxy.in_range])))

theorem const_val_raises (s s1 : State Val) (a : Nat) (T : type_info)
    (h : (const_val s a T).state = some s1) : Raises s s1 := by
  unfold const_val at h
  repeat' split at h
  all_goals simp only [Outcome.state, Option.some.injEq] at h
  all_goals first | (cases h; done) | subst h
  all_goals
    repeat (first
        | exact Raises.refl _)

theorem store_raises (s s1 : State Val) (ref : Nat) (v : Val)
    (h : (store s ref v).state = some s1) : Raises s s1 := by
  unfold store at h
  repeat' split at h
  all_goals simp only [Outcome.state, Option.some.injEq] at h
  all_goals first | (cases h; done) | subst h
  all_goals
    repeat (first
        | exact Raises.refl _
        | apply Raises.set_hold_right)

theorem make_raises (s s1 : State Val) (T : Nat) (dat : Val)
    (h : (make s T dat).state = some s1) : Raises s s1 := by
  simp only [make, Outcome.state, Option.some.injEq] at h
  subst h
  exact Raises.new_any_right _ _ _ (Raises.new_proxy_right _ _ _
    (Raises.new_holder_right _ _ _ _ (Raises.refl s)) (by simp [proxy.in_range]))

theorem make_protect_raises (s s1 : State Val) (T : Nat) (dat : Val)
    (h : (make_protect s T dat).state = some s1) : Raises s s1 := by
  simp only [make_protect, Outcome.state, Option.some.injEq] at h
  subst h
  exact Raises.new_any_right _ _ _ (Raises.new_proxy_right _ _ _
    (Raises.new_holder_right _ _ _ _ (Raises.refl s)) (by simp [proxy.in_range]))

theorem make_constant_raises (s s1 : State Val) (T : Nat) (dat : Val)
    (h : (make_constant s T dat).state = some s1) : Raises s s1 := by
  simp only [make_constant, Outcome.state, Option.some.injEq] at h
  subst h
  exact Raises.new_any_right _ _ _ (Raises.new_proxy_right _ _ _
    (Raises.new_holder_right _ _ _ _ (Raises.refl s)) (by simp [proxy.in_range]))

theorem make_single_raises (s s1 : State Val) (T : Nat) (dat : Val)
    (h : (make_single s T dat).state = some s1) : Raises s s1 := by
  simp only [make_single, Outcome.state, Option.some.injEq] at h
  subst h
  exact Raises.new_any_right _ _ _ (Raises.new_proxy_right _ _ _
    (Raises.new_holder_right _ _ _ _ (Raises.refl s)) (by simp [proxy.in_range]))

theorem ctor_default_raises (s s1 : State Val)
    (h : (ctor_default s).state = some s1) : Raises s s1 := by
  simp only [ctor_default, Outcome.state, Option.some.injEq] at h
  subst h
  exact Raises.new_any_right _ _ _ (Raises.refl s)

theorem ctor_value_raises (s s1 : State Val) (T : Nat) (dat : Val)
    (h : (ctor_value s T dat).state = some s1) : Raises s s1 := by
  simp only [ctor_value, Outcome.state, Option.some.injEq] at h
  subst h
  exact Raises.new_any_right _ _ _ (Raises.new_proxy_right _ _ _
    (Raises.new_holder_right _ _ _ _ (Raises.refl s)) (by simp [proxy.in_range]))

theorem clone_raises (s s1 : State Val) (a : Nat)
    (h : (clone s a).state = some s1) : Raises s s1 := by
  unfold clone at h
  repeat' split at h
  all_goals first
    | (simp only [Outcome.state, Option.some.injEq] at h
       first
         | (cases h; done)
         | (subst h; exact Raises.refl _))
    | (rcases state_bind _ _ _ h with ⟨e, h1⟩ | ⟨r, s2, h1, h2⟩
       · exact absurd h1 (recycle_not_thrown _ _ _ _)
       · simp only [Outcome.state, Option.some.injEq] at h2
         subst h2
         refine Raises.set_mDat_right _ _ _ _ (Raises.of_recycle _ _ _ _ ?_ h1)
         repeat (first
             | exact Raises.refl _
             | (refine Raises.new_proxy_right _ _ _ ?_ (by simp [proxy.in_range]))
             | (refine Raises.of_holder_duplicate _ _ _ _ ?_ (by assumption))))

theorem dtor_raises (s s1 : State Val) (a : Nat)
    (h : (dtor s a).state = some s1) : Raises s s1 := by
  unfold dtor at h
  rcases state_bind _ _ _ h with ⟨e, h1⟩ | ⟨r, s2, h1, h2⟩
  · exact absurd h1 (recycle_not_thrown _ _ _ _)
  · simp only [Outcome.state, Option.some.injEq] at h2
    subst h2
    exact Raises.free_objs_right _ _ _ (Raises.of_recycle _ _ _ _ (Raises.refl s) h1)

theorem ctor_copy_raises (s s1 : State Val) (v : Nat)
    (h : (ctor_copy s v).state = some s1) : Raises s s1 := by
  unfold ctor_copy at h
  rcases state_bind _ _ _ h with ⟨e, h1⟩ | ⟨r, s2, h1, h2⟩
  · exact absurd h1 (duplicate_not_thrown _ _ _ _)
  · simp only [Outcome.state, Option.some.injEq] at h2
    subst h2
    exact Raises.new_any_right _ _ _ (Raises.of_duplicate _ _ _ _ (Raises.refl s) h1)

theorem ctor_move_raises (s s1 : State Val) (v : Nat)
    (h : (ctor_move s v).state = some s1) : Raises s s1 := by
  unfold ctor_move at h
  rcases state_bind _ _ _ h with ⟨e, h1⟩ | ⟨r, s2, h1, h2⟩
  · exact absurd h1 (swap_false_not_thrown _ _ _ _ _)
  · simp only [Outcome.state, Option.some.injEq] at h2
    subst h2
    exact Raises.trans _ _ _ (Raises.new_any_right s s none (Raises.refl s))
      (swap_raises _ _ _ _ _ (by rw [h1]; rfl))

theorem copy_assign_raises (s s1 : State Val) (a var : Nat)
    (h : (copy_assign s a var).state = some s1) : Raises s s1 := by
  unfold copy_assign at h
  repeat' split at h
  all_goals first
    | (simp only [Outcome.state, Option.some.injEq] at h
       first
         | (cases h; done)
         | (subst h; exact Raises.refl _))
    | (rcases state_bind _ _ _ h with ⟨e, h1⟩ | ⟨r, s2, h1, h2⟩
       · exact absurd h1 (recycle_not_thrown _ _ _ _)
       · rcases state_bind _ _ _ h2 with ⟨e, h3⟩ | ⟨r3, s3, h3, h4⟩
         · exact absurd h3 (duplicate_not_thrown _ _ _ _)
         · simp only [Outcome.state, Option.some.injEq] at h4
           subst h4
           exact Raises.set_mDat_right _ _ _ _
             (Raises.of_duplicate _ _ _ _ (Raises.of_recycle _ _ _ _ (Raises.refl s) h1) h3))

theorem move_assign_raises (s s1 : State Val) (a var : Nat)
    (h : (move_assign s a var).state = some s1) : Raises s s1 := by
  unfold move_assign at h
  repeat' split at h
  all_goals first
    | exact swap_raises _ _ _ _ _ h
    | (simp only [Outcome.state, Option.some.injEq] at h
       first
         | (cases h; done)
         | (subst h; exact Raises.refl _))

theorem val_raises (s s1 : State Val) (a : Nat) (T : type_info) (raw : Bool)
    (h : (val s a T raw).state = some s1) : Raises s s1 := by
  unfold val at h
  repeat' split at h
  all_goals first
    | (simp only [Outcome.state, Option.some.injEq] at h
       first
         | (cases h; done)
         | (subst h; exact Raises.refl _))
    | (rcases state_bind _ _ _ h with ⟨e, h1⟩ | ⟨r, s2, h1, h2⟩
       · first
           | cases h1
           | exact clone_raises _ _ _ (by rw [h1]; rfl)
       · have hs2 : Raises s s2 := by
           first
             | (cases h1; exact Raises.refl _)
             | exact clone_raises _ _ _ (by rw [h1]; rfl)
         repeat' split at h2
         all_goals simp only [Outcome.state, Option.some.injEq] at h2
         all_goals first | (cases h2; done) | (subst h2; exact hs2))

theorem assign_raises (s s1 : State Val) (a obj : Nat) (raw : Bool)
    (h : (assign s a obj raw).state = some s1) : Raises s s1 := by
  unfold assign at h
  repeat' split at h
  all_goals first
    | (simp only [Outcome.state, Option.some.injEq] at h
       first
         | (cases h; done)
         | (subst h
            repeat (first
                | exact Raises.refl _
                | (refine Raises.set_data _ _ _ _ _ ?_ (by assumption))
                | apply Raises.new_holder_right
                | (refine Raises.of_kill _ _ _ _ ?_ (by assumption))
                | (refine Raises.of_holder_duplicate _ _ _ _ ?_ (by assumption)))))
    | (rcases state_bind _ _ _ h with ⟨e, h1⟩ | ⟨r, s2, h1, h2⟩
       · exact absurd h1 (recycle_not_thrown _ _ _ _)
       · have hs2 : Raises s s2 := Raises.of_recycle _ _ _ _ (Raises.refl s) h1
         repeat' split at h2
         all_goals simp only [Outcome.state, Option.some.injEq] at h2
         all_goals first | (cases h2; done) | subst h2
         all_goals
           repeat (first
             | exact hs2
             | apply Raises.set_mDat_right
             | (refine Raises.new_proxy_right _ _ _ ?_ (by simp [proxy.in_range]))
             | (refine Raises.of_holder_duplicate _ _ _ _ ?_ (by assumption))))

theorem assign_holder_raises (s s1 : State Val) (a T : Nat) (dat : Val) (raw : Bool)
    (h : (assign_holder s a T dat raw).state = some s1) : Raises s s1 := by
  unfold assign_holder at h
  repeat' split at h
  all_goals first
    | (simp only [Outcome.state, Option.some.injEq] at h
       first
         | (cases h; done)
         | (subst h
            repeat (first
                | exact Raises.refl _
                | (refine Raises.set_data _ _ _ _ _ ?_ (by assumption))
                | apply Raises.new_holder_right
                | (refine Raises.of_kill _ _ _ _ ?_ (by assumption)))))
    | (rcases state_bind _ _ _ h with ⟨e, h1⟩ | ⟨r, s2, h1, h2⟩
       · exact absurd h1 (recycle_not_thrown _ _ _ _)
       · have hs2 : Raises s s2 := Raises.of_recycle _ _ _ _ (Raises.refl s) h1
         simp only [Outcome.state, Option.some.injEq] at h2
         subst h2
         repeat (first
           | exact hs2
           | apply Raises.set_mDat_right
           | apply Raises.new_holder_right
           | (refine Raises.new_proxy_right _ _ _ ?_ (by simp [proxy.in_range]))))

theorem assign_value_raises (s s1 : State Val) (a T : Nat) (dat : Arg Val) (raw : Bool)
    (h : (assign_value s a T dat raw).state = some s1) : Raises s s1 := by
  rcases assign_value_cases s a T dat raw with h1 | h1 | ⟨v, h1⟩
  · rw [h1] at h
    cases h
  · rw [h1] at h
    simp only [Outcome.state, Option.some.injEq] at h
    subst h
    exact Raises.refl _
  · rw [h1] at h
    exact assign_holder_raises s s1 a _ v raw h

theorem void_state {α : Type} (x : Outcome Val α) : x.void.state = x.state := by
  cases x <;> rfl

/-- Every call leaves the protection of every proxy at least as high as it found it. -/
theorem run_raises (tr : Traits Val) (s s1 : State Val) (op : Op Val)
    (h : (run tr s op).state = some s1) : Raises s s1 := by
  cases op <;> simp only [run, void_state] at h
  case swap a obj raw => exact swap_raises _ _ _ _ _ h
  case clone a => exact clone_raises _ _ _ h
  case make T dat => exact make_raises _ _ _ _ h
  case make_protect T dat => exact make_protect_raises _ _ _ _ h
  case make_constant T dat => exact make_constant_raises _ _ _ _ h
  case make_single T dat => exact make_single_raises _ _ _ _ h
  case ctor_default => exact ctor_default_raises _ _ h
  case ctor_value T dat => exact ctor_value_raises _ _ _ _ h
  case ctor_copy v => exact ctor_copy_raises _ _ _ h
  case ctor_move v => exact ctor_move_raises _ _ _ h
  case dtor a => exact dtor_raises _ _ _ h
  case detach a => exact detach_raises _ _ _ _ h
  case get_ext a => exact get_ext_raises _ _ _ _ h
  case protect a => exact protect_raises _ _ _ h
  case constant a => exact constant_raises _ _ _ h
  case single a => exact single_raises _ _ _ h
  case copy_assign a var => exact copy_assign_raises _ _ _ _ h
  case move_assign a var => exact move_assign_raises _ _ _ _ h
  case val a T raw => exact val_raises _ _ _ _ _ h
  case const_val a T => exact const_val_raises _ _ _ _ h
  case store ref v => exact store_raises _ _ _ _ h
  case assign a obj raw => exact assign_raises _ _ _ _ _ h
  case assign_value a T dat raw => exact assign_value_raises _ _ _ _ _ _ h
  case assign_op a T dat => exact assign_value_raises _ _ _ _ _ _ h

theorem run_all_raises (tr : Traits Val) (ops : List (Op Val)) (s s1 : State Val)
    (h : run_all tr s ops = some s1) : Raises s s1 := by
  induction ops generalizing s with
  | nil =>
    simp only [run_all, Option.some.injEq] at h
    subst h
    exact Raises.refl s
  | cons op ops ih =>
    simp only [run_all] at h
    split at h
    · cases h
    · rename_i s2 h2
      exact Raises.trans _ _ _ (run_raises tr s s2 op h2) (ih s2 h)

end

/-! ## The representation invariant is kept -/

section
variable {Val : Type}

theorem WF.to_wfx (s : State Val) (h : WF s) : WFx s none where
  live := h.live
  count := fun p px hp => by simpa using h.count p px hp
  level := h.level
  data := h.data
  owner := h.owner
  pending := fun q hq => by cases hq

theorem WFx.to_wf (s : State Val) (h : WFx s none) : WF s where
  live := h.live
  count := fun p px hp => by simpa using h.count p px hp
  level := h.level
  data := h.data
  owner := h.owner

theorem poke_poke {α : Type} (l : List (Option α)) (p : Nat) (x y : Option α) :
    poke (poke l p x) p y = poke l p y := by
  induction l generalizing p with
  | nil => rfl
  | cons c l ih =>
    cases p with
    | zero => rfl
    | succ p => simp [poke, ih]

theorem mDat_lt (s : State Val) (a : Nat) (m : Option Nat) (h : s.mDat a = some m) :
    a < s.objs.length := by
  unfold State.mDat at h
  cases ho : peek s.objs a with
  | none => simp [ho] at h
  | some o => exact peek_lt _ _ _ ho

theorem mDat_peek (s : State Val) (a : Nat) (m : Option Nat) :
    s.mDat a = some m ↔ peek s.objs a = some ⟨m⟩ := by
  unfold State.mDat
  cases ho : peek s.objs a with
  | none => simp
  | some o =>
    cases o
    simp

theorem refs_pos (s : State Val) (a p : Nat) (h : s.mDat a = some (some p)) :
    1 ≤ s.refs p := by
  have hp := (mDat_peek s a (some p)).mp h
  have hc := count_poke s.objs a none ⟨some p⟩ ⟨some p⟩ hp
  have h2 : (if (none : Option any) = some ⟨some p⟩ then 1 else 0) = 0 := by simp
  simp only [if_true] at hc
  unfold State.refs
  omega

theorem refs_unique (s : State Val) (a b p : Nat) (ha : s.mDat a = some (some p))
    (hb : s.mDat b = some (some p)) (h1 : s.refs p ≤ 1) : a = b := by
  by_contra hne
  have e := refs_set_mDat s a p (some p) none ha
  simp only [if_true] at e
  have hb1 : (s.set_mDat a none).mDat b = some (some p) := by
    rw [mDat_set_mDat s a b (some p) none ha, if_neg (Ne.symm hne), hb]
  have := refs_pos _ b p hb1
  have h2 : (if (none : Option Nat) = some p then 1 else 0) = 0 := by simp
  omega

theorem refs_new_any (s : State Val) (m : Option Nat) (p : Nat) :
    (s.new_any m).2.refs p = s.refs p + (if m = some p then 1 else 0) := by
  simp only [State.refs, State.new_any, alloc, List.count_append, List.count_cons,
    List.count_nil, beq_iff_eq, Option.some.injEq, any.mk.injEq]
  simp

theorem refs_free_objs (s : State Val) (a p : Nat) (m : Option Nat) (h : s.mDat a = some m) :
    State.refs { s with objs := free s.objs a } p + (if m = some p then 1 else 0)
      = s.refs p := by
  have hp := (mDat_peek s a m).mp h
  have hc := count_poke s.objs a none ⟨some p⟩ ⟨m⟩ hp
  simp only [any.mk.injEq] at hc
  have h2 : (if (none : Option any) = some ⟨some p⟩ then 1 else 0) = 0 := by simp
  simp only [State.refs, free]
  omega

theorem poke_peek {α : Type} (l : List (Option α)) (p : Nat) (v : α)
    (h : peek l p = some v) : poke l p (some v) = l := by
  induction l generalizing p with
  | nil => cases h
  | cons c l ih =>
    cases p with
    | zero =>
      simp only [peek] at h
      subst h
      rfl
    | succ p => simp [poke, ih p h]

theorem set_mDat_same (s : State Val) (a : Nat) (m : Option Nat) (h : s.mDat a = some m) :
    s.set_mDat a m = s := by
  have hp := (mDat_peek s a m).mp h
  simp [State.set_mDat, poke_peek s.objs a ⟨m⟩ hp]

theorem set_mDat_set_mDat (s : State Val) (a : Nat) (m n : Option Nat) :
    (s.set_mDat a m).set_mDat a n = s.set_mDat a n := by
  simp [State.set_mDat, poke_poke]

/-- Releasing a reference that is not the last one. -/
theorem wfx_drop_shared (s : State Val) (x : Option Nat) (a p : Nat) (px : proxy)
    (hwf : WFx s x) (ha : s.mDat a = some (some p)) (hp : s.slot p = some px)
    (hr : px.refcount - 1 ≠ 0) :
    WFx ((s.set_slot p { px with refcount := px.refcount - 1 }).set_mDat a none) x := by
  have hm : ∀ b, State.mDat ((s.set_slot p { px with refcount := px.refcount - 1 }).set_mDat
      a none) b = if b = a then some none else s.mDat b :=
    fun b => mDat_set_mDat (s.set_slot p _) a b (some p) none ha
  have hs : ∀ q, State.slot ((s.set_slot p { px with refcount := px.refcount - 1 }).set_mDat
      a none) q = if q = p then some { px with refcount := px.refcount - 1 } else s.slot q :=
    fun q => slot_set_slot s p q px _ hp
  have hrf : ∀ q, State.refs ((s.set_slot p { px with refcount := px.refcount - 1 }).set_mDat
      a none) q + (if some p = some q then 1 else 0) = s.refs q := by
    intro q
    have := refs_set_mDat (s.set_slot p { px with refcount := px.refcount - 1 }) a q
      (some p) none ha
    have h2 : (if (none : Option Nat) = some q then 1 else 0) = 0 := by simp
    have h3 : State.refs (s.set_slot p { px with refcount := px.refcount - 1 }) q = s.refs q :=
      rfl
    omega
  refine ⟨?_, ?_, ?_, ?_, ?_, ?_⟩
  · intro b q hb
    rw [hm] at hb
    split at hb
    · cases hb
    · obtain ⟨qx, hq⟩ := hwf.live b q hb
      rw [hs]
      split
      · exact ⟨_, rfl⟩
      · exact ⟨qx, hq⟩
  · intro q qx hq
    rw [hs] at hq
    have hc := hrf q
    split at hq
    · rename_i e
      subst e
      cases hq
      have := hwf.count q px hp
      simp only [if_true] at hc
      constructor
      · show px.refcount - 1 = _
        omega
      · show 1 ≤ px.refcount - 1
        omega
    · rename_i e
      have := hwf.count q qx hq
      have h2 : (if some p = some q then 1 else 0) = 0 := by
        simp only [Option.some.injEq]
        rw [if_neg (fun h => e h.symm)]
      omega
  · intro q qx hq
    rw [hs] at hq
    split at hq
    · cases hq
      exact hwf.level p px hp
    · exact hwf.level q qx hq
  · intro q qx hq
    rw [hs] at hq
    split at hq
    · cases hq
      exact hwf.data p px hp
    · exact hwf.data q qx hq
  · intro q1 q2 qx1 qx2 h1 h2 hd
    rw [hs] at h1 h2
    split at h1 <;> split at h2
    · rename_i e1 e2
      rw [e1, e2]
    · rename_i e1 e2
      cases h1
      rw [e1]
      exact hwf.owner p q2 px qx2 hp h2 hd
    · rename_i e1 e2
      cases h2
      rw [e2]
      exact hwf.owner q1 p qx1 px h1 hp hd
    · exact hwf.owner q1 q2 qx1 qx2 h1 h2 hd
  · intro q hq
    obtain ⟨qx, hqx⟩ := hwf.pending q hq
    rw [hs]
    split
    · exact ⟨_, rfl⟩
    · exact ⟨qx, hqx⟩

/-- Releasing the last reference: the proxy and its holder go. -/
theorem wfx_drop_last (s : State Val) (x : Option Nat) (a p h : Nat) (px px1 : proxy)
    (hwf : WFx s x) (ha : s.mDat a = some (some p)) (hp : s.slot p = some px)
    (hr : px.refcount - 1 = 0) (hd : px.data = some h) :
    WFx (State.set_mDat ⟨s.objs, free (poke s.proxies p (some px1)) p, free s.holders h⟩
      a none) x := by
  have hcp := hwf.count p px hp
  have hpos := refs_pos s a p ha
  have hx : x ≠ some p := by
    intro e
    rw [if_pos e] at hcp
    omega
  have hone : s.refs p ≤ 1 := by omega
  have hm : ∀ b, State.mDat (State.set_mDat
      ⟨s.objs, free (poke s.proxies p (some px1)) p, free s.holders h⟩ a none) b
      = if b = a then some none else s.mDat b :=
    fun b => mDat_set_mDat
      ⟨s.objs, free (poke s.proxies p (some px1)) p, free s.holders h⟩ a b (some p) none ha
  have hs : ∀ q, State.slot (State.set_mDat
      ⟨s.objs, free (poke s.proxies p (some px1)) p, free s.holders h⟩ a none) q
      = if q = p then none else s.slot q := by
    intro q
    show peek (free (poke s.proxies p (some px1)) p) q = _
    rw [peek_free]
    split
    · rfl
    · rename_i e
      exact peek_poke_ne _ _ _ _ e
  have hh : ∀ k, State.hold (State.set_mDat
      ⟨s.objs, free (poke s.proxies p (some px1)) p, free s.holders h⟩ a none) k
      = if k = h then none else s.hold k :=
    fun k => peek_free s.holders h k
  have hrf : ∀ q, State.refs (State.set_mDat
      ⟨s.objs, free (poke s.proxies p (some px1)) p, free s.holders h⟩ a none) q
      + (if some p = some q then 1 else 0) = s.refs q := by
    intro q
    have := refs_set_mDat
      ⟨s.objs, free (poke s.proxies p (some px1)) p, free s.holders h⟩ a q (some p) none ha
    have h2 : (if (none : Option Nat) = some q then 1 else 0) = 0 := by simp
    have h3 : State.refs (⟨s.objs, free (poke s.proxies p (some px1)) p,
        free s.holders h⟩ : State Val) q = s.refs q := rfl
    omega
  refine ⟨?_, ?_, ?_, ?_, ?_, ?_⟩
  · intro b q hb
    rw [hm] at hb
    split at hb
    · cases hb
    · rename_i e
      obtain ⟨qx, hq⟩ := hwf.live b q hb
      have hqp : q ≠ p := by
        intro e2
        subst e2
        exact e (refs_unique s a b q ha hb hone).symm
      rw [hs, if_neg hqp]
      exact ⟨qx, hq⟩
  · intro q qx hq
    rw [hs] at hq
    split at hq
    · cases hq
    · rename_i e
      have hc := hrf q
      have := hwf.count q qx hq
      have h2 : (if some p = some q then 1 else 0) = 0 := by
        simp only [Option.some.injEq]
        rw [if_neg (fun h => e h.symm)]
      omega
  · intro q qx hq
    rw [hs] at hq
    split at hq
    · cases hq
    · exact hwf.level q qx hq
  · intro q qx hq
    rw [hs] at hq
    split at hq
    · cases hq
    · rename_i e
      obtain ⟨k, kd, hk, hkd⟩ := hwf.data q qx hq
      have hkh : k ≠ h := by
        intro e2
        subst e2
        exact e (hwf.owner q p qx px hq hp (by rw [hk, hd]))
      refine ⟨k, kd, hk, ?_⟩
      rw [hh, if_neg hkh]
      exact hkd
  · intro q1 q2 qx1 qx2 h1 h2 hdd
    rw [hs] at h1 h2
    split at h1
    · cases h1
    · split at h2
      · cases h2
      · exact hwf.owner q1 q2 qx1 qx2 h1 h2 hdd
  · intro q hq
    obtain ⟨qx, hqx⟩ := hwf.pending q hq
    have hqp : q ≠ p := by
      intro e
      subst e
      exact hx hq
    rw [hs, if_neg hqp]
    exact ⟨qx, hqx⟩

/-- What `recycle` does to a well-formed memory: it returns, and once the handle
forgets its pointer the memory is well formed again. -/
theorem recycle_spec (s : State Val) (x : Option Nat) (a : Nat) (m : Option Nat)
    (hwf : WFx s x) (ha : s.mDat a = some m) :
    ∃ s1, recycle s a = .ok () s1 ∧ WFx (s1.set_mDat a none) x ∧
      s1.proxies.length = s.proxies.length ∧ s1.holders.length = s.holders.length ∧
      (∀ b, b ≠ a → s1.mDat b = s.mDat b) ∧ (∃ m1, s1.mDat a = some m1) := by
  cases m with
  | none =>
    refine ⟨s, by simp [recycle, ha], ?_, rfl, rfl, fun _ _ => rfl, none, ha⟩
    rw [set_mDat_same s a none ha]
    exact hwf
  | some p =>
    obtain ⟨px, hp⟩ := hwf.live a p ha
    obtain ⟨h, hd, hpd, hhd⟩ := hwf.data p px hp
    by_cases hr : px.refcount - 1 = 0
    · refine ⟨State.set_mDat ⟨s.objs, free (poke s.proxies p
          (some { px with refcount := px.refcount - 1 })) p, free s.holders h⟩ a none,
        ?_, ?_, ?_, ?_, ?_, ?_⟩
      · have hk : ∀ px1, (s.set_slot p px1).hold h = some hd := fun _ => hhd
        obtain ⟨l, r, d⟩ := px
        simp only at hpd
        subst hpd
        simp only [recycle, ha, hp, if_pos hr, free_proxy, kill, hk]
        rfl
      · rw [set_mDat_set_mDat]
        exact wfx_drop_last s x a p h px _ hwf ha hp hr hpd
      · simp [State.set_mDat, length_free, length_poke]
      · simp [State.set_mDat, length_free]
      · intro b hb
        simp only [State.mDat, State.set_mDat, peek_poke_ne _ _ _ _ hb]
      · refine ⟨none, ?_⟩
        simp only [State.mDat, State.set_mDat]
        rw [peek_poke_self _ _ _ (mDat_lt s a _ ha)]
        rfl
    · refine ⟨s.set_slot p { px with refcount := px.refcount - 1 }, ?_, ?_, ?_, rfl,
        fun _ _ => rfl, some p, ha⟩
      · simp only [recycle, ha, hp, hr, if_false]
      · exact wfx_drop_shared s x a p px hwf ha hp hr
      · simp [State.set_slot, length_poke]

theorem peek_of_count_pos {α : Type} [DecidableEq α] (l : List (Option α)) (y : α)
    (h : 0 < l.count (some y)) : ∃ a, peek l a = some y := by
  induction l with
  | nil => simp at h
  | cons c l ih =>
    by_cases e : c = some y
    · exact ⟨0, e⟩
    · have : 0 < l.count (some y) := by
        simpa [List.count_cons, e] using h
      obtain ⟨a, ha⟩ := ih this
      exact ⟨a + 1, ha⟩

theorem refs_fresh (s : State Val) (x : Option Nat) (hwf : WFx s x) (p : Nat)
    (hp : s.proxies.length ≤ p) : s.refs p = 0 := by
  by_contra hne
  obtain ⟨a, ha⟩ := peek_of_count_pos s.objs ⟨some p⟩ (Nat.pos_of_ne_zero hne)
  obtain ⟨px, hpx⟩ := hwf.live a p ((mDat_peek s a (some p)).mpr ha)
  have := peek_lt _ _ _ hpx
  omega

/-- The handle `a`, which is empty, takes the pending reference. -/
theorem wfx_attach (s : State Val) (m : Option Nat) (a : Nat) (hwf : WFx s m)
    (ha : s.mDat a = some none) : WF (s.set_mDat a m) := by
  have hm : ∀ b, (s.set_mDat a m).mDat b = if b = a then some m else s.mDat b :=
    fun b => mDat_set_mDat s a b none m ha
  have hrf : ∀ q, (s.set_mDat a m).refs q = s.refs q + (if m = some q then 1 else 0) := by
    intro q
    have := refs_set_mDat s a q none m ha
    have h2 : (if (none : Option Nat) = some q then 1 else 0) = 0 := by simp
    omega
  refine ⟨?_, ?_, hwf.level, hwf.data, hwf.owner⟩
  · intro b q hb
    rw [hm] at hb
    split at hb
    · simp only [Option.some.injEq] at hb
      exact hwf.pending q hb
    · exact hwf.live b q hb
  · intro q qx hq
    rw [hrf]
    exact hwf.count q qx hq

/-- A new handle takes the pending reference. -/
theorem wfx_attach_new (s : State Val) (m : Option Nat) (hwf : WFx s m) :
    WF (s.new_any m).2 := by
  have hm : ∀ b, (s.new_any m).2.mDat b
      = if b = s.objs.length then some m else s.mDat b := by
    intro b
    simp only [State.mDat, State.new_any, alloc, peek_append]
    split <;> rfl
  refine ⟨?_, ?_, hwf.level, hwf.data, hwf.owner⟩
  · intro b q hb
    rw [hm] at hb
    split at hb
    · simp only [Option.some.injEq] at hb
      exact hwf.pending q hb
    · exact hwf.live b q hb
  · intro q qx hq
    rw [refs_new_any]
    exact hwf.count q qx hq

/-- An empty handle goes away. -/
theorem wf_remove (s : State Val) (a : Nat) (hwf : WF s) (ha : s.mDat a = some none) :
    WF { s with objs := free s.objs a } := by
  have hm : ∀ b, State.mDat { s with objs := free s.objs a } b
      = if b = a then none else s.mDat b := by
    intro b
    simp only [State.mDat, peek_free]
    split <;> rfl
  have hrf : ∀ q, State.refs { s with objs := free s.objs a } q = s.refs q := by
    intro q
    have := refs_free_objs s a q none ha
    have h2 : (if (none : Option Nat) = some q then 1 else 0) = 0 := by simp
    omega
  refine ⟨?_, ?_, hwf.level, hwf.data, hwf.owner⟩
  · intro b q hb
    rw [hm] at hb
    split at hb
    · cases hb
    · exact hwf.live b q hb
  · intro q qx hq
    rw [hrf]
    exact hwf.count q qx hq

/-- A new holder in a new proxy whose refcount awaits its handle. -/
theorem wfx_alloc (s : State Val) (T : Nat) (dat : Val) (l : Int) (hwf : WFx s none)
    (h0 : 0 ≤ l) (h3 : l ≤ 3) :
    WFx ((s.new_holder T dat).2.new_proxy ⟨l, 1, some (s.new_holder T dat).1⟩).2
      (some s.proxies.length) := by
  have hs : ∀ q, State.slot
      ((s.new_holder T dat).2.new_proxy ⟨l, 1, some (s.new_holder T dat).1⟩).2 q
      = if q = s.proxies.length then some ⟨l, 1, some s.holders.length⟩ else s.slot q :=
    fun q => peek_append s.proxies _ q
  have hh : ∀ k, State.hold
      ((s.new_holder T dat).2.new_proxy ⟨l, 1, some (s.new_holder T dat).1⟩).2 k
      = if k = s.holders.length then some ⟨T, dat⟩ else s.hold k :=
    fun k => peek_append s.holders _ k
  have hold_lt : ∀ k kd, s.hold k = some kd → k ≠ s.holders.length := by
    intro k kd hk e
    have := peek_lt _ _ _ hk
    omega
  have slot_lt : ∀ q qx, s.slot q = some qx → q ≠ s.proxies.length := by
    intro q qx hq e
    have := peek_lt _ _ _ hq
    omega
  refine ⟨?_, ?_, ?_, ?_, ?_, ?_⟩
  · intro b q hb
    obtain ⟨qx, hq⟩ := hwf.live b q hb
    rw [hs, if_neg (slot_lt q qx hq)]
    exact ⟨qx, hq⟩
  · intro q qx hq
    rw [hs] at hq
    split at hq
    · rename_i e
      subst e
      cases hq
      have := refs_fresh s none hwf s.proxies.length (le_refl _)
      have h2 : State.refs
          ((s.new_holder T dat).2.new_proxy ⟨l, 1, some (s.new_holder T dat).1⟩).2
          s.proxies.length = s.refs s.proxies.length := rfl
      simp only [if_true]
      constructor
      · show 1 = _
        omega
      · exact le_refl _
    · rename_i e
      have := hwf.count q qx hq
      have h2 : State.refs
          ((s.new_holder T dat).2.new_proxy ⟨l, 1, some (s.new_holder T dat).1⟩).2
          q = s.refs q := rfl
      have h4 : (if some s.proxies.length = some q then 1 else 0) = 0 := by
        simp only [Option.some.injEq]
        rw [if_neg (fun h => e h.symm)]
      have h5 : (if (none : Option Nat) = some q then 1 else 0) = 0 := by simp
      omega
  · intro q qx hq
    rw [hs] at hq
    split at hq
    · cases hq
      exact ⟨h0, h3⟩
    · exact hwf.level q qx hq
  · intro q qx hq
    rw [hs] at hq
    split at hq
    · cases hq
      exact ⟨s.holders.length, ⟨T, dat⟩, rfl, by rw [hh, if_pos rfl]⟩
    · obtain ⟨k, kd, hk, hkd⟩ := hwf.data q qx hq
      exact ⟨k, kd, hk, by rw [hh, if_neg (hold_lt k kd hkd)]; exact hkd⟩
  · intro q1 q2 qx1 qx2 h1 h2 hdd
    rw [hs] at h1 h2
    split at h1 <;> split at h2
    · rename_i e1 e2
      rw [e1, e2]
    · exfalso
      cases h1
      obtain ⟨k, kd, hk, hkd⟩ := hwf.data q2 qx2 h2
      rw [hk] at hdd
      simp only [Option.some.injEq] at hdd
      exact hold_lt k kd hkd hdd.symm
    · exfalso
      cases h2
      obtain ⟨k, kd, hk, hkd⟩ := hwf.data q1 qx1 h1
      rw [hk] at hdd
      simp only [Option.some.injEq] at hdd
      exact hold_lt k kd hkd hdd
    · exact hwf.owner q1 q2 qx1 qx2 h1 h2 hdd
  · intro q hq
    cases hq
    exact ⟨_, by rw [hs, if_pos rfl]⟩

/-- Overwriting a proxy by one with the same `data`, a level in range and the refcount
that the pending reference `x1` asks for. -/
theorem wfx_set_slot (s : State Val) (x x1 : Option Nat) (p : Nat) (px px1 : proxy)
    (hwf : WFx s x) (hp : s.slot p = some px) (hd : px1.data = px.data)
    (hl : px1.in_range)
    (hc : px1.refcount = s.refs p + (if x1 = some p then 1 else 0) ∧ 1 ≤ px1.refcount)
    (hx : ∀ q, q ≠ p → (x1 = some q ↔ x = some q)) :
    WFx (s.set_slot p px1) x1 := by
  have hs : ∀ q, (s.set_slot p px1).slot q = if q = p then some px1 else s.slot q :=
    fun q => slot_set_slot s p q px px1 hp
  refine ⟨?_, ?_, ?_, ?_, ?_, ?_⟩
  · intro b q hb
    obtain ⟨qx, hq⟩ := hwf.live b q hb
    rw [hs]
    split
    · exact ⟨_, rfl⟩
    · exact ⟨qx, hq⟩
  · intro q qx hq
    rw [hs] at hq
    split at hq
    · rename_i e
      subst e
      cases hq
      exact hc
    · rename_i e
      have := hwf.count q qx hq
      have h2 : (if x1 = some q then 1 else 0) = (if x = some q then 1 else 0) := by
        by_cases hxq : x = some q
        · rw [if_pos hxq, if_pos ((hx q e).mpr hxq)]
        · rw [if_neg hxq, if_neg (fun h => hxq ((hx q e).mp h))]
      show qx.refcount = s.refs q + _ ∧ _
      rw [h2]
      exact this
  · intro q qx hq
    rw [hs] at hq
    split at hq
    · cases hq
      exact hl
    · exact hwf.level q qx hq
  · intro q qx hq
    rw [hs] at hq
    split at hq
    · cases hq
      rw [hd]
      exact hwf.data p px hp
    · exact hwf.data q qx hq
  · intro q1 q2 qx1 qx2 h1 h2 hdd
    rw [hs] at h1 h2
    split at h1 <;> split at h2
    · rename_i e1 e2
      rw [e1, e2]
    · rename_i e1 e2
      cases h1
      rw [e1]
      exact hwf.owner p q2 px qx2 hp h2 (by rw [← hd]; exact hdd)
    · rename_i e1 e2
      cases h2
      rw [e2]
      exact hwf.owner q1 p qx1 px h1 hp (by rw [← hd]; exact hdd)
    · exact hwf.owner q1 q2 qx1 qx2 h1 h2 hdd
  · intro q hq
    rw [hs]
    split
    · exact ⟨_, rfl⟩
    · rename_i e
      exact hwf.pending q ((hx q e).mp hq)

/-- What `duplicate` does to a well-formed memory. -/
theorem duplicate_spec (s : State Val) (v : Nat) (m : Option Nat) (hwf : WFx s none)
    (hv : s.mDat v = some m) :
    ∃ s1, duplicate s v = .ok m s1 ∧ WFx s1 m ∧ s1.objs = s.objs := by
  cases m with
  | none => exact ⟨s, by simp [duplicate, hv], hwf, rfl⟩
  | some q =>
    obtain ⟨qx, hq⟩ := hwf.live v q hv
    refine ⟨s.set_slot q { qx with refcount := qx.refcount + 1 }, ?_, ?_, rfl⟩
    · simp only [duplicate, hv, hq]
    · have hc := hwf.count q qx hq
      have h5 : (if (none : Option Nat) = some q then 1 else 0) = 0 := by simp
      refine wfx_set_slot s none (some q) q qx _ hwf hq rfl (hwf.level q qx hq) ?_ ?_
      · simp only [if_true]
        constructor
        · show qx.refcount + 1 = _
          omega
        · show 1 ≤ qx.refcount + 1
          omega
      · intro r hr
        simp only [Option.some.injEq]
        constructor
        · intro e
          exact absurd e.symm hr
        · intro e
          cases e

/-- Overwriting the content of a holder. -/
theorem wfx_set_hold (s : State Val) (x : Option Nat) (k : Nat) (hd hd1 : holder Val)
    (hwf : WFx s x) (hk : s.hold k = some hd) : WFx (s.set_hold k hd1) x := by
  refine ⟨hwf.live, hwf.count, hwf.level, ?_, hwf.owner, hwf.pending⟩
  intro q qx hq
  obtain ⟨k1, kd, hk1, hkd⟩ := hwf.data q qx hq
  by_cases e : k1 = k
  · exact ⟨k1, hd1, hk1, by rw [hold_set_hold s k k1 hd hd1 hk, if_pos e]⟩
  · exact ⟨k1, kd, hk1, by rw [hold_set_hold s k k1 hd hd1 hk, if_neg e]; exact hkd⟩

/-- Two handles exchange their pointers. -/
theorem wf_exchange (s : State Val) (a b : Nat) (m n : Option Nat) (hwf : WF s)
    (ha : s.mDat a = some m) (hb : s.mDat b = some n) :
    WF ((s.set_mDat a n).set_mDat b m) := by
  by_cases hab : b = a
  · subst hab
    rw [ha] at hb
    cases hb
    rw [set_mDat_set_mDat, set_mDat_same s b m ha]
    exact hwf
  · have hb1 : (s.set_mDat a n).mDat b = some n := by
      rw [mDat_set_mDat s a b m n ha, if_neg hab, hb]
    have hm : ∀ c, ((s.set_mDat a n).set_mDat b m).mDat c
        = if c = b then some m else if c = a then some n else s.mDat c := by
      intro c
      rw [mDat_set_mDat _ b c n m hb1, mDat_set_mDat s a c m n ha]
    have hrf : ∀ q, ((s.set_mDat a n).set_mDat b m).refs q = s.refs q := by
      intro q
      have e1 := refs_set_mDat s a q m n ha
      have e2 := refs_set_mDat (s.set_mDat a n) b q n m hb1
      omega
    refine ⟨?_, ?_, hwf.level, hwf.data, hwf.owner⟩
    · intro c q hc
      rw [hm] at hc
      split at hc
      · simp only [Option.some.injEq] at hc
        subst hc
        exact hwf.live a q ha
      · split at hc
        · simp only [Option.some.injEq] at hc
          subst hc
          exact hwf.live b q hb
        · exact hwf.live c q hc
    · intro q qx hq
      rw [hrf]
      exact hwf.count q qx hq

/-- Two different proxies exchange their holders. -/
theorem wf_swap_data (s : State Val) (p q : Nat) (px qx : proxy) (hwf : WF s)
    (hp : s.slot p = some px) (hq : s.slot q = some qx) (hne : p ≠ q) :
    WF ((s.set_slot p { px with data := qx.data }).set_slot q
      { qx with data := px.data }) := by
  have hmid : (s.set_slot p { px with data := qx.data }).slot q = some qx := by
    rw [slot_set_slot s p q px _ hp, if_neg (Ne.symm hne), hq]
  have hs : ∀ r, State.slot ((s.set_slot p { px with data := qx.data }).set_slot q
      { qx with data := px.data }) r
      = if r = q then some { qx with data := px.data }
        else if r = p then some { px with data := qx.data } else s.slot r := by
    intro r
    rw [slot_set_slot _ q r qx _ hmid, slot_set_slot s p r px _ hp]
  refine ⟨?_, ?_, ?_, ?_, ?_⟩
  · intro b r hb
    obtain ⟨rx, hr⟩ := hwf.live b r hb
    rw [hs]
    split
    · exact ⟨_, rfl⟩
    · split
      · exact ⟨_, rfl⟩
      · exact ⟨rx, hr⟩
  · intro r rx hr
    rw [hs] at hr
    split at hr
    · rename_i e
      subst e
      cases hr
      exact hwf.count r qx hq
    · split at hr
      · rename_i e
        subst e
        cases hr
        exact hwf.count r px hp
      · exact hwf.count r rx hr
  · intro r rx hr
    rw [hs] at hr
    split at hr
    · cases hr
      exact hwf.level q qx hq
    · split at hr
      · cases hr
        exact hwf.level p px hp
      · exact hwf.level r rx hr
  · intro r rx hr
    rw [hs] at hr
    split at hr
    · cases hr
      exact hwf.data p px hp
    · split at hr
      · cases hr
        exact hwf.data q qx hq
      · exact hwf.data r rx hr
  · intro r1 r2 rx1 rx2 h1 h2 hdd
    rw [hs] at h1 h2
    split at h1
    · rename_i e1
      cases h1
      split at h2
      · rename_i e2
        rw [e1, e2]
      · split at h2
        · cases h2
          exact absurd (hwf.owner p q px qx hp hq hdd) hne
        · rename_i e2 e3
          exact absurd (hwf.owner p r2 px rx2 hp h2 hdd).symm e3
    · split at h1
      · rename_i e0 e1
        cases h1
        split at h2
        · cases h2
          exact absurd (hwf.owner q p qx px hq hp hdd).symm hne
        · split at h2
          · rename_i e2 e3
            rw [e1, e3]
          · rename_i e2 e3
            exact absurd (hwf.owner q r2 qx rx2 hq h2 hdd).symm e2
      · rename_i e0 e1
        split at h2
        · cases h2
          exact absurd (hwf.owner r1 p rx1 px h1 hp hdd) e1
        · split at h2
          · cases h2
            exact absurd (hwf.owner r1 q rx1 qx h1 hq hdd) e0
          · exact hwf.owner r1 r2 rx1 rx2 h1 h2 hdd

/-- A proxy has its holder killed and is given a new one. -/
theorem wf_replace_data (s : State Val) (p h n : Nat) (px : proxy) (hd1 : holder Val)
    (hwf : WF s) (hp : s.slot p = some px) (hd : px.data = some h)
    (hn : n = s.holders.length) :
    WF (State.set_slot ⟨s.objs, s.proxies, free s.holders h ++ [some hd1]⟩ p
      { px with data := some n }) := by
  have hs : ∀ r, State.slot (State.set_slot
      ⟨s.objs, s.proxies, free s.holders h ++ [some hd1]⟩ p { px with data := some n }) r
      = if r = p then some { px with data := some n } else s.slot r :=
    fun r => slot_set_slot ⟨s.objs, s.proxies, free s.holders h ++ [some hd1]⟩ p r px _ hp
  have hh : ∀ k, State.hold (State.set_slot
      ⟨s.objs, s.proxies, free s.holders h ++ [some hd1]⟩ p { px with data := some n }) k
      = if k = n then some hd1 else if k = h then none else s.hold k := by
    intro k
    show peek (free s.holders h ++ [some hd1]) k = _
    rw [peek_append, length_free, ← hn, peek_free]
    rfl
  have hold_lt : ∀ k kd, s.hold k = some kd → k ≠ n := by
    intro k kd hk e
    have := peek_lt _ _ _ hk
    omega
  refine ⟨?_, ?_, ?_, ?_, ?_⟩
  · intro b r hb
    obtain ⟨rx, hr⟩ := hwf.live b r hb
    rw [hs]
    split
    · exact ⟨_, rfl⟩
    · exact ⟨rx, hr⟩
  · intro r rx hr
    rw [hs] at hr
    split at hr
    · rename_i e
      subst e
      cases hr
      exact hwf.count r px hp
    · exact hwf.count r rx hr
  · intro r rx hr
    rw [hs] at hr
    split at hr
    · cases hr
      exact hwf.level p px hp
    · exact hwf.level r rx hr
  · intro r rx hr
    rw [hs] at hr
    split at hr
    · cases hr
      exact ⟨n, hd1, rfl, by rw [hh, if_pos rfl]⟩
    · rename_i e
      obtain ⟨k, kd, hk, hkd⟩ := hwf.data r rx hr
      have hkh : k ≠ h := by
        intro e2
        subst e2
        exact e (hwf.owner r p rx px hr hp (by rw [hk, hd]))
      exact ⟨k, kd, hk, by rw [hh, if_neg (hold_lt k kd hkd), if_neg hkh]; exact hkd⟩
  · intro r1 r2 rx1 rx2 h1 h2 hdd
    rw [hs] at h1 h2
    split at h1 <;> split at h2
    · rename_i e1 e2
      rw [e1, e2]
    · exfalso
      cases h1
      obtain ⟨k, kd, hk, hkd⟩ := hwf.data r2 rx2 h2
      rw [hk] at hdd
      simp only [Option.some.injEq] at hdd
      exact hold_lt k kd hkd hdd.symm
    · exfalso
      cases h2
      obtain ⟨k, kd, hk, hkd⟩ := hwf.data r1 rx1 h1
      rw [hk] at hdd
      simp only [Option.some.injEq] at hdd
      exact hold_lt k kd hkd hdd
    · exact hwf.owner r1 r2 rx1 rx2 h1 h2 hdd

theorem kill_eq (s s1 : State Val) (d : Option Nat) (h : kill s d = some s1) :
    ∃ k kd, d = some k ∧ s.hold k = some kd ∧ s1 = { s with holders := free s.holders k } := by
  unfold kill at h
  split at h
  · cases h
  · rename_i k
    split at h
    · cases h
    · rename_i kd hk
      cases h
      exact ⟨k, kd, rfl, hk, rfl⟩

theorem holder_duplicate_eq (s : State Val) (d : Option Nat) (hs : Nat × State Val)
    (h : holder_duplicate s d = some hs) :
    ∃ k kd, d = some k ∧ s.hold k = some kd ∧ hs = s.new_holder kd.T kd.mDat := by
  unfold holder_duplicate at h
  split at h
  · cases h
  · rename_i k
    split at h
    · cases h
    · rename_i kd hk
      cases h
      exact ⟨k, kd, rfl, hk, rfl⟩

/-- The end of `clone`, of the cooked `assign` and of `operator=(const T &)`: the handle
`a`, whose old pointer has been recycled, is given a new proxy on a new holder. -/
theorem wf_fresh (s1 : State Val) (a T : Nat) (dat : Val) (l : Int) (m1 : Option Nat)
    (hwf : WFx (s1.set_mDat a none) none) (ha : s1.mDat a = some m1)
    (h0 : 0 ≤ l) (h3 : l ≤ 3) :
    WF (((s1.new_holder T dat).2.new_proxy ⟨l, 1, some (s1.new_holder T dat).1⟩).2.set_mDat a
      (some ((s1.new_holder T dat).2.new_proxy ⟨l, 1, some (s1.new_holder T dat).1⟩).1)) := by
  have hY := wfx_alloc (s1.set_mDat a none) T dat l hwf h0 h3
  have hYa : State.mDat (((s1.set_mDat a none).new_holder T dat).2.new_proxy
      ⟨l, 1, some ((s1.set_mDat a none).new_holder T dat).1⟩).2 a = some none := by
    show (s1.set_mDat a none).mDat a = some none
    rw [mDat_set_mDat s1 a a m1 none ha, if_pos rfl]
  have := wfx_attach _ (some (s1.set_mDat a none).proxies.length) a hY hYa
  have e : State.set_mDat (((s1.set_mDat a none).new_holder T dat).2.new_proxy
      ⟨l, 1, some ((s1.set_mDat a none).new_holder T dat).1⟩).2 a
      (some (s1.set_mDat a none).proxies.length)
      = ((s1.new_holder T dat).2.new_proxy ⟨l, 1, some (s1.new_holder T dat).1⟩).2.set_mDat a
      (some ((s1.new_holder T dat).2.new_proxy ⟨l, 1, some (s1.new_holder T dat).1⟩).1) := by
    simp [State.set_mDat, State.new_holder, State.new_proxy, alloc, poke_poke]
  rw [← e]
  exact this

theorem swap_wf (s s1 : State Val) (a obj : Nat) (raw : Bool) (hwf : WF s)
    (h : (swap s a obj raw).state = some s1) : WF s1 := by
  unfold swap at h
  split at h
  · rename_i p q ha hb
    split at h
    · obtain ⟨px, hp⟩ := hwf.live a p ha
      obtain ⟨qx, hq⟩ := hwf.live obj q hb
      simp only [hp, hq] at h
      split at h
      · simp only [Outcome.state, Option.some.injEq] at h
        subst h
        exact hwf
      · by_cases hpq : p = q
        · subst hpq
          rw [hp] at hq
          cases hq
          have hmid : (s.set_slot p { px with data := px.data }).slot p
              = some { px with data := px.data } := by
            rw [slot_set_slot s p p px _ hp, if_pos rfl]
          simp only [hmid, Outcome.state, Option.some.injEq] at h
          subst h
          have e : ({ px with data := px.data } : proxy) = px := rfl
          have h5 : (if (none : Option Nat) = some p then 1 else 0) = 0 := by simp
          have hc := hwf.count p px hp
          have w1 := wfx_set_slot s none none p px px (WF.to_wfx s hwf) hp rfl
            (hwf.level p px hp) (by rw [h5]; exact hc) (fun _ _ => Iff.rfl)
          have hp1 : (s.set_slot p px).slot p = some px := by
            rw [slot_set_slot s p p px _ hp, if_pos rfl]
          exact WFx.to_wf _ (wfx_set_slot _ none none p px px w1 hp1 rfl
            (hwf.level p px hp) (by rw [h5]; exact hc) (fun _ _ => Iff.rfl))
        · have hmid : (s.set_slot p { px with data := qx.data }).slot q = some qx := by
            rw [slot_set_slot s p q px _ hp, if_neg (Ne.symm hpq), hq]
          simp only [hmid, Outcome.state, Option.some.injEq] at h
          subst h
          exact wf_swap_data s p q px qx hwf hp hq hpq
    · simp only [Outcome.state, Option.some.injEq] at h
      subst h
      exact wf_exchange s a obj (some p) (some q) hwf ha hb
  · simp only [Outcome.state, Option.some.injEq] at h
    subst h
    exact wf_exchange s a obj _ _ hwf (by assumption) (by assumption)
  · cases h

theorem clone_wf (s s1 : State Val) (a : Nat) (hwf : WF s)
    (h : (clone s a).state = some s1) : WF s1 := by
  unfold clone at h
  split at h
  · cases h
  · simp only [Outcome.state, Option.some.injEq] at h
    subst h
    exact hwf
  · rename_i p ha
    split at h
    · cases h
    · rename_i px hp
      split at h
      · simp only [Outcome.state, Option.some.injEq] at h
        subst h
        exact hwf
      · split at h
        · cases h
        · rename_i hs hdup
          obtain ⟨k, kd, -, -, ehs⟩ := holder_duplicate_eq s px.data hs hdup
          subst ehs
          have hY := wfx_alloc s kd.T kd.mDat 0 (WF.to_wfx s hwf) (le_refl _) (by decide)
          obtain ⟨s3, hrec, hw3, -, -, -, m1, hm1⟩ :=
            recycle_spec _ (some s.proxies.length) a (some p) hY ha
          rw [hrec] at h
          simp only [Outcome.bind, Outcome.state, Option.some.injEq] at h
          subst h
          have ha3 : (s3.set_mDat a none).mDat a = some none := by
            rw [mDat_set_mDat s3 a a m1 none hm1, if_pos rfl]
          have := wfx_attach _ (some s.proxies.length) a hw3 ha3
          rw [set_mDat_set_mDat] at this
          exact this
theorem make_wf (s s1 : State Val) (T : Nat) (dat : Val) (hwf : WF s)
    (h : (make s T dat).state = some s1) : WF s1 := by
  simp only [make, Outcome.state, Option.some.injEq] at h
  subst h
  exact wfx_attach_new _ _
    (wfx_alloc s (holder_type T) dat 0 (WF.to_wfx s hwf) (by decide) (by decide))

theorem make_protect_wf (s s1 : State Val) (T : Nat) (dat : Val) (hwf : WF s)
    (h : (make_protect s T dat).state = some s1) : WF s1 := by
  simp only [make_protect, Outcome.state, Option.some.injEq] at h
  subst h
  exact wfx_attach_new _ _
    (wfx_alloc s (holder_type T) dat 1 (WF.to_wfx s hwf) (by decide) (by decide))

theorem make_constant_wf (s s1 : State Val) (T : Nat) (dat : Val) (hwf : WF s)
    (h : (make_constant s T dat).state = some s1) : WF s1 := by
  simp only [make_constant, Outcome.state, Option.some.injEq] at h
  subst h
  exact wfx_attach_new _ _
    (wfx_alloc s (holder_type T) dat 2 (WF.to_wfx s hwf) (by decide) (by decide))

theorem make_single_wf (s s1 : State Val) (T : Nat) (dat : Val) (hwf : WF s)
    (h : (make_single s T dat).state = some s1) : WF s1 := by
  simp only [make_single, Outcome.state, Option.some.injEq] at h
  subst h
  exact wfx_attach_new _ _
    (wfx_alloc s (holder_type T) dat 3 (WF.to_wfx s hwf) (by decide) (by decide))

theorem ctor_value_wf (s s1 : State Val) (T : Nat) (dat : Val) (hwf : WF s)
    (h : (ctor_value s T dat).state = some s1) : WF s1 := by
  simp only [ctor_value, Outcome.state, Option.some.injEq] at h
  subst h
  exact wfx_attach_new _ _
    (wfx_alloc s (holder_type T) dat 0 (WF.to_wfx s hwf) (by decide) (by decide))

theorem protect_wf (s s1 : State Val) (a : Nat) (hwf : WF s)
    (h : (protect s a).state = some s1) : WF s1 := by
  unfold protect at h
  repeat' split at h
  all_goals simp only [Outcome.state, Option.some.injEq] at h
  all_goals first
    | (cases h; done)
    | (subst h; exact hwf)
    | (subst h
       rename_i p _ _ px hp _
       have h5 : (if (none : Option Nat) = some p then 1 else 0) = 0 := by simp
       exact WFx.to_wf _ (wfx_set_slot s none none p px _ (WF.to_wfx s hwf) hp rfl
         (by simp [proxy.in_range]) (by rw [h5]; exact hwf.count p px hp)
         (fun _ _ => Iff.rfl)))

theorem constant_wf (s s1 : State Val) (a : Nat) (hwf : WF s)
    (h : (constant s a).state = some s1) : WF s1 := by
  unfold constant at h
  repeat' split at h
  all_goals simp only [Outcome.state, Option.some.injEq] at h
  all_goals first
    | (cases h; done)
    | (subst h; exact hwf)
    | (subst h
       rename_i p _ _ px hp _
       have h5 : (if (none : Option Nat) = some p then 1 else 0) = 0 := by simp
       exact WFx.to_wf _ (wfx_set_slot s none none p px _ (WF.to_wfx s hwf) hp rfl
         (by simp [proxy.in_range]) (by rw [h5]; exact hwf.count p px hp)
         (fun _ _ => Iff.rfl)))

theorem single_wf (s s1 : State Val) (a : Nat) (hwf : WF s)
    (h : (single s a).state = some s1) : WF s1 := by
  unfold single at h
  repeat' split at h
  all_goals simp only [Outcome.state, Option.some.injEq] at h
  all_goals first
    | (cases h; done)
    | (subst h; exact hwf)
    | (subst h
       rename_i p _ _ px hp _
       have h5 : (if (none : Option Nat) = some p then 1 else 0) = 0 := by simp
       exact WFx.to_wf _ (wfx_set_slot s none none p px _ (WF.to_wfx s hwf) hp rfl
         (by simp [proxy.in_range]) (by rw [h5]; exact hwf.count p px hp)
         (fun _ _ => Iff.rfl)))

theorem ctor_default_wf (s s1 : State Val) (hwf : WF s)
    (h : (ctor_default s).state = some s1) : WF s1 := by
  simp only [ctor_default, Outcome.state, Option.some.injEq] at h
  subst h
  exact wfx_attach_new s none (WF.to_wfx s hwf)

theorem ctor_copy_wf (s s1 : State Val) (v : Nat) (hwf : WF s)
    (h : (ctor_copy s v).state = some s1) : WF s1 := by
  unfold ctor_copy at h
  cases hv : s.mDat v with
  | none => simp [duplicate, hv, Outcome.bind, Outcome.state] at h
  | some m =>
    obtain ⟨s2, hdup, hw2, -⟩ := duplicate_spec s v m (WF.to_wfx s hwf) hv
    rw [hdup] at h
    simp only [Outcome.bind, Outcome.state, Option.some.injEq] at h
    subst h
    exact wfx_attach_new s2 m hw2

theorem ctor_move_wf (s s1 : State Val) (v : Nat) (hwf : WF s)
    (h : (ctor_move s v).state = some s1) : WF s1 := by
  unfold ctor_move at h
  rcases state_bind _ _ _ h with ⟨e, h1⟩ | ⟨r, s2, h1, h2⟩
  · exact absurd h1 (swap_false_not_thrown _ _ _ _ _)
  · simp only [Outcome.state, Option.some.injEq] at h2
    subst h2
    exact swap_wf _ _ _ _ _ (wfx_attach_new s none (WF.to_wfx s hwf)) (by rw [h1]; rfl)

theorem dtor_wf (s s1 : State Val) (a : Nat) (hwf : WF s)
    (h : (dtor s a).state = some s1) : WF s1 := by
  unfold dtor at h
  cases ha : s.mDat a with
  | none => simp [recycle, ha, Outcome.bind, Outcome.state] at h
  | some m =>
    obtain ⟨s2, hrec, hw2, -, -, -, m1, hm1⟩ := recycle_spec s none a m (WF.to_wfx s hwf) ha
    rw [hrec] at h
    simp only [Outcome.bind, Outcome.state, Option.some.injEq] at h
    subst h
    have ha2 : (s2.set_mDat a none).mDat a = some none := by
      rw [mDat_set_mDat s2 a a m1 none hm1, if_pos rfl]
    have := wf_remove _ a (WFx.to_wf _ hw2) ha2
    have e : ({ s2.set_mDat a none with objs := free (s2.set_mDat a none).objs a } : State Val)
        = { s2 with objs := free s2.objs a } := by
      simp [State.set_mDat, free, poke_poke]
    rw [e] at this
    exact this

theorem detach_wf (tr : Traits Val) (s s1 : State Val) (a : Nat) (hwf : WF s)
    (h : (detach tr s a).state = some s1) : WF s1 := by
  unfold detach at h
  repeat' split at h
  all_goals simp only [Outcome.state, Option.some.injEq] at h
  all_goals first
    | (cases h; done)
    | (subst h; exact hwf)
    | (subst h
       exact WFx.to_wf _ (wfx_set_hold s none _ _ _ (WF.to_wfx s hwf) (by assumption)))

theorem store_wf (s s1 : State Val) (ref : Nat) (v : Val) (hwf : WF s)
    (h : (store s ref v).state = some s1) : WF s1 := by
  unfold store at h
  repeat' split at h
  all_goals simp only [Outcome.state, Option.some.injEq] at h
  all_goals first
    | (cases h; done)
    | (subst h
       exact WFx.to_wf _ (wfx_set_hold s none _ _ _ (WF.to_wfx s hwf) (by assumption)))

theorem get_ext_wf (tr : Traits Val) (s s1 : State Val) (a : Nat) (hwf : WF s)
    (h : (get_ext tr s a).state = some s1) : WF s1 := by
  unfold get_ext at h
  repeat' split at h
  all_goals simp only [Outcome.state, Option.some.injEq] at h
  all_goals first
    | (cases h; done)
    | (subst h; exact hwf)

theorem const_val_wf (s s1 : State Val) (a : Nat) (T : type_info) (hwf : WF s)
    (h : (const_val s a T).state = some s1) : WF s1 := by
  unfold const_val at h
  repeat' split at h
  all_goals simp only [Outcome.state, Option.some.injEq] at h
  all_goals first
    | (cases h; done)
    | (subst h; exact hwf)

theorem move_assign_wf (s s1 : State Val) (a var : Nat) (hwf : WF s)
    (h : (move_assign s a var).state = some s1) : WF s1 := by
  unfold move_assign at h
  repeat' split at h
  all_goals first
    | exact swap_wf _ _ _ _ _ hwf h
    | (simp only [Outcome.state, Option.some.injEq] at h
       first
         | (cases h; done)
         | (subst h; exact hwf))

theorem val_wf (s s1 : State Val) (a : Nat) (T : type_info) (raw : Bool) (hwf : WF s)
    (h : (val s a T raw).state = some s1) : WF s1 := by
  unfold val at h
  repeat' split at h
  all_goals first
    | (simp only [Outcome.state, Option.some.injEq] at h
       first
         | (cases h; done)
         | (subst h; exact hwf))
    | (rcases state_bind _ _ _ h with ⟨e, h1⟩ | ⟨r, s2, h1, h2⟩
       · first
           | cases h1
           | exact clone_wf _ _ _ hwf (by rw [h1]; rfl)
       · have hs2 : WF s2 := by
           first
             | (cases h1; exact hwf)
             | exact clone_wf _ _ _ hwf (by rw [h1]; rfl)
         repeat' split at h2
         all_goals simp only [Outcome.state, Option.some.injEq] at h2
         all_goals first | (cases h2; done) | (subst h2; exact hs2))

theorem duplicate_set_mDat (s : State Val) (a v : Nat) (m : Option Nat) (hne : v ≠ a) :
    duplicate (s.set_mDat a m) v =
      match duplicate s v with
      | .ok r t => .ok r (t.set_mDat a m)
      | .thrown e t => .thrown e (t.set_mDat a m)
      | .undefined => .undefined := by
  have hv : (s.set_mDat a m).mDat v = s.mDat v := by
    simp only [State.mDat, State.set_mDat, peek_poke_ne _ _ _ _ hne]
  unfold duplicate
  rw [hv]
  cases hm : s.mDat v with
  | none => rfl
  | some n =>
    cases n with
    | none => rfl
    | some q =>
      have hq : (s.set_mDat a m).slot q = s.slot q := rfl
      simp only [hq]
      cases hs : s.slot q with
      | none => rfl
      | some qx => rfl

theorem copy_assign_wf (s s1 : State Val) (a var : Nat) (hwf : WF s)
    (h : (copy_assign s a var).state = some s1) : WF s1 := by
  unfold copy_assign at h
  split at h
  · rename_i m n ha hv
    split at h
    · rename_i hne
      obtain ⟨s2, hrec, hw2, -, -, hfr, m1, hm1⟩ :=
        recycle_spec s none a m (WF.to_wfx s hwf) ha
      rw [hrec] at h
      simp only [Outcome.bind] at h
      have hv2 : (s2.set_mDat a none).mDat var = some n := by
        rw [mDat_set_mDat s2 a var m1 none hm1, if_neg hne, hfr var hne, hv]
      obtain ⟨X1, hdup, hwX, hobj⟩ := duplicate_spec _ var n hw2 hv2
      rw [duplicate_set_mDat s2 a var none hne] at hdup
      cases hd : duplicate s2 var with
      | ok r t =>
        rw [hd] at hdup h
        simp only [Outcome.ok.injEq] at hdup
        obtain ⟨e1, e2⟩ := hdup
        subst e1 e2
        simp only [Outcome.state, Option.some.injEq] at h
        subst h
        have hXa : (t.set_mDat a none).mDat a = some none := by
          have : (t.set_mDat a none).mDat a = (s2.set_mDat a none).mDat a := by
            simp only [State.mDat, hobj]
          rw [this, mDat_set_mDat s2 a a m1 none hm1, if_pos rfl]
        have := wfx_attach _ r a hwX hXa
        rw [set_mDat_set_mDat] at this
        exact this
      | thrown e t => rw [hd] at hdup; cases hdup
      | undefined => rw [hd] at hdup; cases hdup
    · simp only [Outcome.state, Option.some.injEq] at h
      subst h
      exact hwf
  · cases h

theorem assign_holder_wf (s s1 : State Val) (a T : Nat) (dat : Val) (raw : Bool)
    (hwf : WF s) (h : (assign_holder s a T dat raw).state = some s1) : WF s1 := by
  unfold assign_holder at h
  split at h
  · cases h
  · rename_i p ha
    obtain ⟨px, hp⟩ := hwf.live a p ha
    simp only [hp] at h
    split at h
    · simp only [Outcome.state, Option.some.injEq] at h
      subst h
      exact hwf
    · split at h
      · cases h
      · rename_i s2 hk
        obtain ⟨k, kd, hd, -, e⟩ := kill_eq s s2 px.data hk
        subst e
        have hp2 : State.slot (State.new_holder { s with holders := free s.holders k }
            T dat).2 p = some px := hp
        simp only [hp2, Outcome.state, Option.some.injEq] at h
        subst h
        exact wf_replace_data s p k _ px ⟨T, dat⟩ hwf hp hd (length_free _ _)
  · obtain ⟨s2, hrec, hw2, -, -, -, m2, hm2⟩ :=
      recycle_spec s none a _ (WF.to_wfx s hwf) (by assumption)
    rw [hrec] at h
    simp only [Outcome.bind, Outcome.state, Option.some.injEq] at h
    subst h
    exact wf_fresh s2 a T dat 0 m2 hw2 hm2 (le_refl _) (by decide)

theorem assign_value_wf (s s1 : State Val) (a T : Nat) (dat : Arg Val) (raw : Bool)
    (hwf : WF s) (h : (assign_value s a T dat raw).state = some s1) : WF s1 := by
  rcases assign_value_cases s a T dat raw with h1 | h1 | ⟨v, h1⟩
  · rw [h1] at h
    cases h
  · rw [h1] at h
    simp only [Outcome.state, Option.some.injEq] at h
    subst h
    exact hwf
  · rw [h1] at h
    exact assign_holder_wf s s1 a _ v raw hwf h

theorem assign_wf (s s1 : State Val) (a obj : Nat) (raw : Bool) (hwf : WF s)
    (h : (assign s a obj raw).state = some s1) : WF s1 := by
  unfold assign at h
  split at h
  · rename_i m n ha hb
    split at h
    · rename_i hne
      split at h
      · rename_i p q
        obtain ⟨px, hp⟩ := hwf.live a p ha
        obtain ⟨qx, hq⟩ := hwf.live obj q hb
        simp only [hp, hq] at h
        split at h
        · simp only [Outcome.state, Option.some.injEq] at h
          subst h
          exact hwf
        · split at h
          · cases h
          · rename_i s2 hk
            obtain ⟨k, kd, hd, -, e⟩ := kill_eq s s2 px.data hk
            subst e
            split at h
            · cases h
            · rename_i hs hdup
              obtain ⟨k2, kd2, -, -, e2⟩ := holder_duplicate_eq _ qx.data hs hdup
              subst e2
              have hp2 : State.slot (State.new_holder { s with holders := free s.holders k }
                  kd2.T kd2.mDat).2 p = some px := hp
              simp only [hp2, Outcome.state, Option.some.injEq] at h
              subst h
              exact wf_replace_data s p k _ px ⟨kd2.T, kd2.mDat⟩ hwf hp hd (length_free _ _)
      · obtain ⟨s2, hrec, hw2, -, -, -, m2, hm2⟩ :=
          recycle_spec s none a m (WF.to_wfx s hwf) ha
        rw [hrec] at h
        simp only [Outcome.bind] at h
        split at h
        · split at h
          · cases h
          · split at h
            · cases h
            · rename_i hs hdup
              obtain ⟨k2, kd2, -, -, e2⟩ := holder_duplicate_eq _ _ hs hdup
              subst e2
              simp only [Outcome.state, Option.some.injEq] at h
              subst h
              exact wf_fresh s2 a kd2.T kd2.mDat 0 m2 hw2 hm2 (le_refl _) (by decide)
        · simp only [Outcome.state, Option.some.injEq] at h
          subst h
          exact WFx.to_wf _ hw2
    · simp only [Outcome.state, Option.some.injEq] at h
      subst h
      exact hwf
  · cases h

/-- Every call keeps the memory well formed. -/
theorem run_wf (tr : Traits Val) (s s1 : State Val) (op : Op Val) (hwf : WF s)
    (h : (run tr s op).state = some s1) : WF s1 := by
  cases op <;> simp only [run, void_state] at h
  case swap a obj raw => exact swap_wf _ _ _ _ _ hwf h
  case clone a => exact clone_wf _ _ _ hwf h
  case make T dat => exact make_wf _ _ _ _ hwf h
  case make_protect T dat => exact make_protect_wf _ _ _ _ hwf h
  case make_constant T dat => exact make_constant_wf _ _ _ _ hwf h
  case make_single T dat => exact make_single_wf _ _ _ _ hwf h
  case ctor_default => exact ctor_default_wf _ _ hwf h
  case ctor_value T dat => exact ctor_value_wf _ _ _ _ hwf h
  case ctor_copy v => exact ctor_copy_wf _ _ _ hwf h
  case ctor_move v => exact ctor_move_wf _ _ _ hwf h
  case dtor a => exact dtor_wf _ _ _ hwf h
  case detach a => exact detach_wf _ _ _ _ hwf h
  case get_ext a => exact get_ext_wf _ _ _ _ hwf h
  case protect a => exact protect_wf _ _ _ hwf h
  case constant a => exact constant_wf _ _ _ hwf h
  case single a => exact single_wf _ _ _ hwf h
  case copy_assign a var => exact copy_assign_wf _ _ _ _ hwf h
  case move_assign a var => exact move_assign_wf _ _ _ _ hwf h
  case val a T raw => exact val_wf _ _ _ _ _ hwf h
  case const_val a T => exact const_val_wf _ _ _ _ hwf h
  case store ref v => exact store_wf _ _ _ _ hwf h
  case assign a obj raw => exact assign_wf _ _ _ _ _ hwf h
  case assign_value a T dat raw => exact assign_value_wf _ _ _ _ _ _ hwf h
  case assign_op a T dat => exact assign_value_wf _ _ _ _ _ _ hwf h

theorem wf_empty : WF (State.empty : State Val) where
  live := fun a p h => by cases a <;> cases h
  count := fun p px h => by cases p <;> cases h
  level := fun p px h => by cases p <;> cases h
  data := fun p px h => by cases p <;> cases h
  owner := fun p q px qx h => by cases p <;> cases h

/-- Every memory a program can reach is well formed. -/
theorem wf_of_reachable (tr : Traits Val) (s : State Val) (h : Reachable tr s) : WF s := by
  induction h with
  | empty => exact wf_empty
  | step s s1 op _ hrun ih => exact run_wf tr s s1 op ih hrun

theorem reachable_run_all (tr : Traits Val) (ops : List (Op Val)) (s s1 : State Val)
    (hs : Reachable tr s) (h : run_all tr s ops = some s1) : Reachable tr s1 := by
  induction ops generalizing s with
  | nil =>
    simp only [run_all, Option.some.injEq] at h
    subst h
    exact hs
  | cons op ops ih =>
    simp only [run_all] at h
    split at h
    · cases h
    · rename_i s2 h2
      exact ih s2 (Reachable.step s s2 op hs h2) h

/-- The memory a program leaves when started in the empty memory is well formed. -/
theorem wf_of_run_all (tr : Traits Val) (ops : List (Op Val)) (s1 : State Val)
    (h : run_all tr State.empty ops = some s1) : WF s1 :=
  wf_of_reachable tr s1 (reachable_run_all tr ops State.empty s1 Reachable.empty h)

/-- The proxies and holders `recycle` leaves: the proxy of the handle loses one
reference, and goes with its holder when that was the last one. -/
theorem recycle_slots (s : State Val) (a p h : Nat) (px : proxy) (hd : holder Val)
    (ha : s.mDat a = some (some p)) (hp : s.slot p = some px) (hpd : px.data = some h)
    (hh : s.hold h = some hd) (hr1 : 1 ≤ px.refcount) :
    ∃ s1, recycle s a = .ok () s1 ∧
      (∀ q, s1.slot q = if q = p then
          (if px.refcount = 1 then none else some { px with refcount := px.refcount - 1 })
        else s.slot q) ∧
      (∀ k, s1.hold k = if px.refcount = 1 ∧ k = h then none else s.hold k) ∧
      (∀ b, b ≠ a → s1.mDat b = s.mDat b) ∧ (∃ m1, s1.mDat a = some m1) := by
  by_cases hr : px.refcount - 1 = 0
  · have h1 : px.refcount = 1 := by omega
    refine ⟨State.set_mDat ⟨s.objs, free (poke s.proxies p
        (some { px with refcount := px.refcount - 1 })) p, free s.holders h⟩ a none,
      ?_, ?_, ?_, ?_, ?_⟩
    · have hk : ∀ px1, (s.set_slot p px1).hold h = some hd := fun _ => hh
      obtain ⟨l, r, d⟩ := px
      simp only at hpd
      subst hpd
      simp only [recycle, ha, hp, if_pos hr, free_proxy, kill, hk]
      rfl
    · intro q
      show peek (free (poke s.proxies p _) p) q = _
      rw [peek_free]
      by_cases e : q = p
      · rw [if_pos e, if_pos e, if_pos h1]
      · rw [if_neg e, if_neg e]
        exact peek_poke_ne _ _ _ _ e
    · intro k
      show peek (free s.holders h) k = _
      rw [peek_free]
      by_cases e : k = h
      · rw [if_pos e, if_pos ⟨h1, e⟩]
      · rw [if_neg e, if_neg (fun c => e c.2)]
        rfl
    · intro b hb
      simp only [State.mDat, State.set_mDat, peek_poke_ne _ _ _ _ hb]
    · refine ⟨none, ?_⟩
      simp only [State.mDat, State.set_mDat]
      rw [peek_poke_self _ _ _ (mDat_lt s a _ ha)]
      rfl
  · have h1 : ¬ px.refcount = 1 := by omega
    refine ⟨s.set_slot p { px with refcount := px.refcount - 1 }, ?_, ?_, ?_,
      fun _ _ => rfl, some p, ha⟩
    · simp only [recycle, ha, hp, hr, if_false]
    · intro q
      rw [slot_set_slot s p q px _ hp]
      by_cases e : q = p
      · rw [if_pos e, if_pos e, if_neg h1]
      · rw [if_neg e, if_neg e]
    · intro k
      rw [if_neg (fun c => h1 c.1)]
      rfl

/-- What `clone` does in a well-formed memory, on a handle that is not empty and whose
proxy is below level 3. -/
theorem clone_spec (s : State Val) (a p h : Nat) (px : proxy) (hd : holder Val)
    (hwf : WF s) (ha : s.mDat a = some (some p)) (hp : s.slot p = some px)
    (hpd : px.data = some h) (hh : s.hold h = some hd) (hl : px.protect_level ≤ 2) :
    ∃ s1, clone s a = .ok () s1 ∧ WF s1 ∧
      s1.mDat a = some (some s.proxies.length) ∧
      (∀ b, b ≠ a → s1.mDat b = s.mDat b) ∧
      s1.slot s.proxies.length = some ⟨0, 1, some s.holders.length⟩ ∧
      s1.hold s.holders.length = some ⟨hd.T, hd.mDat⟩ ∧
      s1.slot p = (if px.refcount = 1 then none
        else some { px with refcount := px.refcount - 1 }) ∧
      (∀ q, q ≠ p → q ≠ s.proxies.length → s1.slot q = s.slot q) ∧
      (∀ k, k ≠ s.holders.length →
        s1.hold k = if px.refcount = 1 ∧ k = h then none else s.hold k) := by
  have hlt : ¬ px.protect_level > 2 := not_lt.mpr hl
  have hplt : p < s.proxies.length := peek_lt _ _ _ hp
  have hhlt : h < s.holders.length := peek_lt _ _ _ hh
  have hYp : State.slot ((s.new_holder hd.T hd.mDat).2.new_proxy
      ⟨0, 1, some (s.new_holder hd.T hd.mDat).1⟩).2 p = some px := by
    show peek (s.proxies ++ [_]) p = _
    rw [peek_append, if_neg (by omega)]
    exact hp
  have hYh : State.hold ((s.new_holder hd.T hd.mDat).2.new_proxy
      ⟨0, 1, some (s.new_holder hd.T hd.mDat).1⟩).2 h = some hd := by
    show peek (s.holders ++ [_]) h = _
    rw [peek_append, if_neg (by omega)]
    exact hh
  obtain ⟨s3, hrec, hsl, hho, hfr, m1, hm1⟩ :=
    recycle_slots _ a p h px hd
      (show State.mDat ((s.new_holder hd.T hd.mDat).2.new_proxy
        ⟨0, 1, some (s.new_holder hd.T hd.mDat).1⟩).2 a = some (some p) from ha)
      hYp hpd hYh (hwf.count p px hp).2
  have hclone : clone s a = .ok () (s3.set_mDat a (some s.proxies.length)) := by
    simp only [clone, ha, hp, hlt, if_false, holder_duplicate, hpd, hh, hrec, Outcome.bind]
    rfl
  refine ⟨s3.set_mDat a (some s.proxies.length), hclone, ?_, ?_, ?_, ?_, ?_, ?_, ?_, ?_⟩
  · exact clone_wf s _ a hwf (by rw [hclone]; rfl)
  · rw [mDat_set_mDat s3 a a m1 _ hm1, if_pos rfl]
  · intro b hb
    rw [mDat_set_mDat s3 a b m1 _ hm1, if_neg hb, hfr b hb]
    rfl
  · show s3.slot s.proxies.length = _
    rw [hsl, if_neg (by omega)]
    show peek (s.proxies ++ [_]) s.proxies.length = _
    rw [peek_append, if_pos rfl]
    rfl
  · show s3.hold s.holders.length = _
    rw [hho, if_neg (fun c => by omega)]
    show peek (s.holders ++ [_]) s.holders.length = _
    rw [peek_append, if_pos rfl]
  · show s3.slot p = _
    rw [hsl, if_pos rfl]
  · intro q hq1 hq2
    show s3.slot q = _
    rw [hsl, if_neg hq1]
    show peek (s.proxies ++ [_]) q = _
    rw [peek_append, if_neg hq2]
    rfl
  · intro k hk
    show s3.hold k = _
    rw [hho]
    have : State.hold ((s.new_holder hd.T hd.mDat).2.new_proxy
        ⟨0, 1, some (s.new_holder hd.T hd.mDat).1⟩).2 k = s.hold k := by
      show peek (s.holders ++ [_]) k = _
      rw [peek_append, if_neg hk]
      rfl
    rw [this]

theorem payload_eq (s : State Val) (q k : Nat) (qx : proxy) (hq : s.slot q = some qx)
    (hk : qx.data = some k) : s.payload q = s.hold k := by
  simp only [State.payload, hq, hk]

/-- A typed read that returns follows the handle to its proxy and holder. -/
theorem const_val_chain (s : State Val) (b : Nat) (T : type_info) (v : Val)
    (hwf : WF s) (h : const_val s b T = .ok v s) :
    ∃ q qx k kd, s.mDat b = some (some q) ∧ s.slot q = some qx ∧ qx.data = some k ∧
      s.hold k = some kd ∧ T = .of kd.T ∧ kd.mDat = v := by
  obtain ⟨-, q, kd, hb, hpay, hT, hv⟩ := const_val_ok s s b T v h
  obtain ⟨qx, hq⟩ := hwf.live b q hb
  obtain ⟨k, kd1, hk, hkd⟩ := hwf.data q qx hq
  rw [payload_eq s q k qx hq hk, hkd] at hpay
  cases hpay
  exact ⟨q, qx, k, _, hb, hq, hk, hkd, hT, hv⟩

/-- A typed read returns the payload the chain handle, proxy, holder leads to. -/
theorem const_val_of_chain (s : State Val) (b q k : Nat) (qx : proxy) (kd : holder Val)
    (hb : s.mDat b = some (some q)) (hq : s.slot q = some qx) (hk : qx.data = some k)
    (hkd : s.hold k = some kd) : const_val s b (.of kd.T) = .ok kd.mDat s := by
  rw [const_val_eq, hb]
  simp [payload_eq s q k qx hq hk, hkd]

theorem refs_two (s : State Val) (a b p : Nat) (hne : b ≠ a)
    (ha : s.mDat a = some (some p)) (hb : s.mDat b = some (some p)) : 2 ≤ s.refs p := by
  by_contra hc
  exact hne (refs_unique s a b p ha hb (by omega)).symm

/-- What the other handles see after `clone`: their proxy, its level, its holder and
the payload are the ones before, and the holder is not the new one. -/
theorem clone_frame (s s1 : State Val) (a p h : Nat) (px : proxy)
    (hwf : WF s) (ha : s.mDat a = some (some p)) (hp : s.slot p = some px)
    (hpd : px.data = some h)
    (hsp : s1.slot p = (if px.refcount = 1 then none
        else some { px with refcount := px.refcount - 1 }))
    (hsq : ∀ q, q ≠ p → q ≠ s.proxies.length → s1.slot q = s.slot q)
    (hsh : ∀ k, k ≠ s.holders.length →
        s1.hold k = if px.refcount = 1 ∧ k = h then none else s.hold k)
    (b q k : Nat) (qx : proxy) (kd : holder Val) (hne : b ≠ a)
    (hb : s.mDat b = some (some q)) (hq : s.slot q = some qx) (hk : qx.data = some k)
    (hkd : s.hold k = some kd) :
    ∃ qx1, s1.slot q = some qx1 ∧ qx1.data = some k ∧
      qx1.protect_level = qx.protect_level ∧ s1.hold k = some kd ∧
      k ≠ s.holders.length := by
  have hkl : k ≠ s.holders.length := by
    have := peek_lt _ _ _ hkd
    omega
  have hql : q ≠ s.proxies.length := by
    have := peek_lt _ _ _ hq
    omega
  by_cases e : q = p
  · subst e
    rw [hp] at hq
    cases hq
    have h2 := refs_two s a b q hne ha hb
    have hc := hwf.count q px hp
    have h1 : ¬ px.refcount = 1 := by omega
    rw [if_neg h1] at hsp
    refine ⟨_, hsp, hk, rfl, ?_, hkl⟩
    rw [hsh k hkl, if_neg (fun c => h1 c.1)]
    exact hkd
  · have hkh : k ≠ h := by
      intro c
      subst c
      exact e (hwf.owner q p qx px hq hp (by rw [hk, hpd]))
    refine ⟨qx, by rw [hsq q e hql]; exact hq, hk, rfl, ?_, hkl⟩
    rw [hsh k hkl, if_neg (fun c => hkh c.2)]
    exact hkd

/-- What `val` does in a well-formed memory, on a handle that is not empty, holds a
payload of the requested type and is below level 2. -/
theorem val_spec (s : State Val) (a p h : Nat) (px : proxy) (hd : holder Val)
    (hwf : WF s) (ha : s.mDat a = some (some p)) (hp : s.slot p = some px)
    (hpd : px.data = some h) (hh : s.hold h = some hd) (hl : px.protect_level ≤ 1) :
    val s a (.of hd.T) true = .ok h s ∧
    ∃ s1, clone s a = .ok () s1 ∧ val s a (.of hd.T) false = .ok s.holders.length s1 := by
  have hty : type s a = some (.of hd.T) := by
    simp only [type, ha, payload_eq s p h px hp hpd, hh, Option.map_some']
  have hlt : ¬ px.protect_level > 1 := not_lt.mpr hl
  constructor
  · simp only [val, hty, ha, hp, hlt, hpd, Outcome.bind, ne_eq, not_true_eq_false,
      if_false, if_true]
  · obtain ⟨s1, hclone, -, h1a, -, h1s, -⟩ :=
      clone_spec s a p h px hd hwf ha hp hpd hh (by omega)
    refine ⟨s1, hclone, ?_⟩
    simp only [val, hty, ha, hp, hlt, hclone, h1a, h1s, Outcome.bind, ne_eq,
      not_true_eq_false, if_false, Bool.false_eq_true]

/-- Copy on write: when `a` and `b` share a proxy below level 2, a write through
`b.val<T>()` reaches `b` and not `a`. -/
theorem cow_core (s : State Val) (a b p : Nat) (T : Nat) (v : Val) (hwf : WF s)
    (hne : b ≠ a) (ha : s.mDat a = some (some p)) (hb : s.mDat b = some (some p))
    (hread : const_val s a (.of T) = .ok v s) (hlev : is_constant s a = some false) :
    ∃ r s2, val s b (.of T) false = .ok r s2 ∧
      ∀ v1, ∃ s3, store s2 r v1 = .ok () s3 ∧
        const_val s3 a (.of T) = .ok v s3 ∧ const_val s3 b (.of T) = .ok v1 s3 := by
  obtain ⟨q, px, k, kd, ha1, hp, hk, hkd, hT, hv⟩ :=
    const_val_chain s a (.of T) v hwf hread
  rw [ha] at ha1
  cases ha1
  simp only [type_info.of.injEq] at hT
  subst hT
  have hl : px.protect_level ≤ 1 := by
    simp only [is_constant, ha, hp, Option.map_some', Option.some.injEq,
      decide_eq_false_iff_not, not_lt] at hlev
    exact hlev
  obtain ⟨s1, hclone, -, h1a, h1b, h1s, h1h, h1p, h1q, h1k⟩ :=
    clone_spec s b p k px kd hwf hb hp hk hkd (by omega)
  obtain ⟨-, s1b, hclone2, hval⟩ := val_spec s b p k px kd hwf hb hp hk hkd hl
  rw [hclone] at hclone2
  cases hclone2
  refine ⟨s.holders.length, s1, hval, fun v1 => ?_⟩
  have hst : store s1 s.holders.length v1
      = .ok () (s1.set_hold s.holders.length { kd with mDat := v1 }) := by
    simp only [store, h1h]
  have hho : ∀ j, (s1.set_hold s.holders.length { kd with mDat := v1 }).hold j
      = if j = s.holders.length then some { kd with mDat := v1 } else s1.hold j :=
    fun j => hold_set_hold s1 _ j _ _ h1h
  refine ⟨_, hst, ?_, ?_⟩
  · obtain ⟨qx1, hq1, hk1, -, hkd1, hkl⟩ :=
      clone_frame s s1 b p k px hwf hb hp hk h1p h1q h1k a p k px kd hne.symm ha hp hk hkd
    have := const_val_of_chain (s1.set_hold s.holders.length { kd with mDat := v1 }) a
      p k qx1 kd (by rw [← ha]; exact h1b a hne.symm) hq1 hk1
      (by rw [hho, if_neg hkl]; exact hkd1)
    rw [← hv]
    exact this
  · exact const_val_of_chain (s1.set_hold s.holders.length { kd with mDat := v1 }) b
      s.proxies.length s.holders.length ⟨0, 1, some s.holders.length⟩
      { kd with mDat := v1 } h1a h1s rfl (by rw [hho, if_pos rfl])

/-- What the copy constructor does on a handle that is not empty: the new handle is on
the same proxy, whose refcount is one higher and whose level and holder are the same. -/
theorem ctor_copy_spec (s : State Val) (a p : Nat) (px : proxy)
    (ha : s.mDat a = some (some p)) (hp : s.slot p = some px) :
    ∃ s1, ctor_copy s a = .ok s.objs.length s1 ∧ s.mDat s.objs.length = none ∧
      s1.mDat s.objs.length = some (some p) ∧
      (∀ c, c ≠ s.objs.length → s1.mDat c = s.mDat c) ∧
      s1.slot p = some { px with refcount := px.refcount + 1 } ∧
      (∀ q, q ≠ p → s1.slot q = s.slot q) ∧ s1.holders = s.holders := by
  refine ⟨((s.set_slot p { px with refcount := px.refcount + 1 }).new_any (some p)).2,
    ?_, ?_, ?_, ?_, ?_, ?_, rfl⟩
  · simp only [ctor_copy, duplicate, ha, hp, Outcome.bind]
    rfl
  · simp only [State.mDat, peek_length_le _ _ (le_refl _), Option.map_none']
  · show (peek (s.objs ++ [_]) s.objs.length).map any.mDat = _
    rw [peek_append, if_pos rfl]
    rfl
  · intro c hc
    show (peek (s.objs ++ [_]) c).map any.mDat = _
    rw [peek_append, if_neg hc]
    rfl
  · show (s.set_slot p _).slot p = _
    rw [slot_set_slot s p p px _ hp, if_pos rfl]
  · intro q hq
    show (s.set_slot p _).slot q = _
    rw [slot_set_slot s p q px _ hp, if_neg hq]

/-- What the copy assignment `b = a` does in a well-formed memory when `a` is not
empty: `b` is on the proxy of `a`, whose level and holder are the same. -/
theorem copy_assign_spec (s : State Val) (a b p k : Nat) (m : Option Nat) (px : proxy)
    (kd : holder Val) (hwf : WF s) (hne : b ≠ a) (ha : s.mDat a = some (some p))
    (hb : s.mDat b = some m) (hp : s.slot p = some px) (hk : px.data = some k)
    (hkd : s.hold k = some kd) :
    ∃ s1 px1, copy_assign s b a = .ok () s1 ∧ s1.mDat b = some (some p) ∧
      s1.mDat a = some (some p) ∧ s1.slot p = some px1 ∧ px1.data = some k ∧
      px1.protect_level = px.protect_level ∧ s1.hold k = some kd := by
  have key : ∃ s2 px2 m2, recycle s b = .ok () s2 ∧ s2.mDat b = some m2 ∧
      s2.mDat a = some (some p) ∧ s2.slot p = some px2 ∧ px2.data = some k ∧
      px2.protect_level = px.protect_level ∧ s2.hold k = some kd := by
    cases m with
    | none => exact ⟨s, px, none, by simp [recycle, hb], hb, ha, hp, hk, rfl, hkd⟩
    | some q =>
      obtain ⟨qx, hq⟩ := hwf.live b q hb
      obtain ⟨kq, kdq, hkq, hkdq⟩ := hwf.data q qx hq
      obtain ⟨s2, hrec, hsl, hho, hfr, m2, hm2⟩ :=
        recycle_slots s b q kq qx kdq hb hq hkq hkdq (hwf.count q qx hq).2
      by_cases e : p = q
      · subst e
        rw [hp] at hq
        cases hq
        have h2 := refs_two s a b p hne ha hb
        have hc := hwf.count p px hp
        have h1 : ¬ px.refcount = 1 := by omega
        refine ⟨s2, { px with refcount := px.refcount - 1 }, m2, hrec, hm2, ?_, ?_, hk, rfl,
          ?_⟩
        · rw [hfr a hne.symm, ha]
        · rw [hsl, if_pos rfl, if_neg h1]
        · rw [hho, if_neg (fun c => h1 c.1)]
          exact hkd
      · have hkk : k ≠ kq := by
          intro c
          subst c
          exact e (hwf.owner p q px qx hp hq (by rw [hk, hkq]))
        refine ⟨s2, px, m2, hrec, hm2, ?_, ?_, hk, rfl, ?_⟩
        · rw [hfr a hne.symm, ha]
        · rw [hsl, if_neg e]
          exact hp
        · rw [hho, if_neg (fun c => hkk c.2)]
          exact hkd
  obtain ⟨s2, px2, m2, hrec, h2b, h2a, h2p, h2k, h2l, h2h⟩ := key
  refine ⟨(s2.set_slot p { px2 with refcount := px2.refcount + 1 }).set_mDat b (some p),
    { px2 with refcount := px2.refcount + 1 }, ?_, ?_, ?_, ?_, h2k, h2l, h2h⟩
  · simp only [copy_assign, ha, hb, hrec, duplicate, h2a, h2p, Outcome.bind, ne_eq,
      hne.symm, not_false_eq_true, if_true]
  · rw [mDat_set_mDat (s2.set_slot p _) b b m2 _ h2b, if_pos rfl]
  · rw [mDat_set_mDat (s2.set_slot p _) b a m2 _ h2b, if_neg hne.symm]
    exact h2a
  · show (s2.set_slot p _).slot p = _
    rw [slot_set_slot s2 p p px2 _ h2p, if_pos rfl]

end

/-! ## What the other handles see -/

section
variable {Val : Type}

/-- When a handle keeps its pointer and the proxy it points to keeps its level, its
`data` and the holder behind it, the handle reads the payload it read before and
answers `is_protect`, `is_constant` and `is_single` as before. -/
theorem view_kept (s s1 : State Val) (c : Nat) (hwf : WF s) (hm : s1.mDat c = s.mDat c)
    (hfr : ∀ q qx k kd, s.mDat c = some (some q) → s.slot q = some qx →
      qx.data = some k → s.hold k = some kd →
      ∃ qx1, s1.slot q = some qx1 ∧ qx1.data = some k ∧
        qx1.protect_level = qx.protect_level ∧ s1.hold k = some kd) :
    (∀ T v, const_val s c T = .ok v s → const_val s1 c T = .ok v s1) ∧
    is_protect s1 c = is_protect s c ∧ is_constant s1 c = is_constant s c ∧
    is_single s1 c = is_single s c := by
  constructor
  · intro T v hread
    obtain ⟨q, qx, k, kd, hc, hq, hk, hkd, hT, hv⟩ := const_val_chain s c T v hwf hread
    obtain ⟨qx1, hq1, hk1, -, hkd1⟩ := hfr q qx k kd hc hq hk hkd
    have := const_val_of_chain s1 c q k qx1 kd (by rw [hm, hc]) hq1 hk1 hkd1
    rw [hT, ← hv]
    exact this
  · cases hc : s.mDat c with
    | none => simp [is_protect, is_constant, is_single, hm, hc]
    | some m =>
      cases m with
      | none => simp [is_protect, is_constant, is_single, hm, hc]
      | some q =>
        obtain ⟨qx, hq⟩ := hwf.live c q hc
        obtain ⟨k, kd, hk, hkd⟩ := hwf.data q qx hq
        obtain ⟨qx1, hq1, -, hl1, -⟩ := hfr q qx k kd hc hq hk hkd
        simp [is_protect, is_constant, is_single, hm, hc, hq, hq1, hl1]

/-- What `assign_holder` without `raw` does in a well-formed memory: the handle
releases its pointer and is given a new proxy, with refcount 1 and level 0, on a new
holder of `dat`; every other handle keeps its pointer, and the proxy it points to
keeps its level, its `data` and the holder behind it. -/
theorem assign_holder_spec (s : State Val) (a T : Nat) (dat : Val) (m : Option Nat)
    (hwf : WF s) (ha : s.mDat a = some m) :
    ∃ s1, assign_holder s a T dat false = .ok () s1 ∧ WF s1 ∧
      s1.mDat a = some (some s.proxies.length) ∧
      (∀ c, c ≠ a → s1.mDat c = s.mDat c) ∧
      s1.slot s.proxies.length = some ⟨0, 1, some s.holders.length⟩ ∧
      s1.hold s.holders.length = some ⟨T, dat⟩ ∧
      (∀ p px, m = some p → s.slot p = some px →
        s1.slot p = (if px.refcount = 1 then none
          else some { px with refcount := px.refcount - 1 })) ∧
      (∀ q, m ≠ some q → q ≠ s.proxies.length → s1.slot q = s.slot q) ∧
      (∀ c q qx k kd, c ≠ a → s.mDat c = some (some q) → s.slot q = some qx →
        qx.data = some k → s.hold k = some kd →
        ∃ qx1, s1.slot q = some qx1 ∧ qx1.data = some k ∧
          qx1.protect_level = qx.protect_level ∧ s1.hold k = some kd) := by
  obtain ⟨s2, hrec, -, hpl, hhl, hfr, m1, hm1⟩ :=
    recycle_spec s none a m (WF.to_wfx s hwf) ha
  have hav : assign_holder s a T dat false
      = .ok () (((s2.new_holder T dat).2.new_proxy ⟨0, 1, some (s2.new_holder T dat).1⟩).2.set_mDat
        a (some ((s2.new_holder T dat).2.new_proxy ⟨0, 1, some (s2.new_holder T dat).1⟩).1)) := by
    cases m with
    | none => simp only [assign_holder, ha, hrec, Outcome.bind]
    | some p => simp only [assign_holder, ha, hrec, Outcome.bind]
  have hsl : ∀ r, State.slot (((s2.new_holder T dat).2.new_proxy
      ⟨0, 1, some (s2.new_holder T dat).1⟩).2.set_mDat a
        (some ((s2.new_holder T dat).2.new_proxy ⟨0, 1, some (s2.new_holder T dat).1⟩).1)) r
      = if r = s.proxies.length then some ⟨0, 1, some s.holders.length⟩ else s2.slot r := by
    intro r
    show peek (s2.proxies ++ [some ⟨0, 1, some s2.holders.length⟩]) r = _
    rw [peek_append, hpl, hhl]
    rfl
  have hho : ∀ k, State.hold (((s2.new_holder T dat).2.new_proxy
      ⟨0, 1, some (s2.new_holder T dat).1⟩).2.set_mDat a
        (some ((s2.new_holder T dat).2.new_proxy ⟨0, 1, some (s2.new_holder T dat).1⟩).1)) k
      = if k = s.holders.length then some ⟨T, dat⟩ else s2.hold k := by
    intro k
    show peek (s2.holders ++ [some ⟨T, dat⟩]) k = _
    rw [peek_append, hhl]
    rfl
  have hmd : ∀ c, State.mDat (((s2.new_holder T dat).2.new_proxy
      ⟨0, 1, some (s2.new_holder T dat).1⟩).2.set_mDat a
        (some ((s2.new_holder T dat).2.new_proxy ⟨0, 1, some (s2.new_holder T dat).1⟩).1)) c
      = if c = a then some (some s.proxies.length) else s2.mDat c := by
    intro c
    have := mDat_set_mDat ((s2.new_holder T dat).2.new_proxy
      ⟨0, 1, some (s2.new_holder T dat).1⟩).2 a c m1
      (some ((s2.new_holder T dat).2.new_proxy ⟨0, 1, some (s2.new_holder T dat).1⟩).1) hm1
    rw [this]
    show (if c = a then some (some s2.proxies.length) else s2.mDat c) = _
    rw [hpl]
  have old : ∀ p px, m = some p → s.slot p = some px →
      (∀ r, s2.slot r = if r = p then
          (if px.refcount = 1 then none else some { px with refcount := px.refcount - 1 })
        else s.slot r) ∧
      ∀ h, px.data = some h →
        ∀ k, s2.hold k = if px.refcount = 1 ∧ k = h then none else s.hold k := by
    intro p px hmp hp
    subst hmp
    obtain ⟨h, hd, hpd, hh⟩ := hwf.data p px hp
    obtain ⟨s3, hrec3, hsl3, hho3, -, -⟩ :=
      recycle_slots s a p h px hd ha hp hpd hh (hwf.count p px hp).2
    rw [hrec] at hrec3
    cases hrec3
    refine ⟨hsl3, fun h1 hh1 => ?_⟩
    rw [hpd] at hh1
    cases hh1
    exact hho3
  have none_case : m = none → s2 = s := by
    intro hmn
    subst hmn
    have : recycle s a = .ok () s := by simp [recycle, ha]
    rw [hrec] at this
    cases this
    rfl
  refine ⟨_, hav, assign_holder_wf s _ a T dat false hwf (by rw [hav]; rfl), ?_, ?_, ?_, ?_,
    ?_, ?_, ?_⟩
  · rw [hmd, if_pos rfl]
  · intro c hc
    rw [hmd, if_neg hc, hfr c hc]
  · rw [hsl, if_pos rfl]
  · rw [hho, if_pos rfl]
  · intro p px hmp hp
    have hplt : p < s.proxies.length := peek_lt _ _ _ hp
    rw [hsl, if_neg (by omega), (old p px hmp hp).1 p, if_pos rfl]
  · intro q hq hql
    rw [hsl, if_neg hql]
    cases m with
    | none => rw [none_case rfl]
    | some p =>
      obtain ⟨px, hp⟩ := hwf.live a p ha
      rw [(old p px rfl hp).1 q, if_neg (fun e => hq (by rw [e]))]
  · intro c q qx k kd hc hcq hq hk hkd
    have hkl : k ≠ s.holders.length := by
      have := peek_lt _ _ _ hkd
      omega
    have hql : q ≠ s.proxies.length := by
      have := peek_lt _ _ _ hq
      omega
    cases m with
    | none =>
      refine ⟨qx, ?_, hk, rfl, ?_⟩
      · rw [hsl, if_neg hql, none_case rfl]
        exact hq
      · rw [hho, if_neg hkl, none_case rfl]
        exact hkd
    | some p =>
      obtain ⟨px, hp⟩ := hwf.live a p ha
      obtain ⟨h, hd, hpd, hh⟩ := hwf.data p px hp
      have hplt : p < s.proxies.length := peek_lt _ _ _ hp
      obtain ⟨qx1, h1, h2, h3, h4, -⟩ := clone_frame s _ a p h px hwf ha hp hpd
        (by rw [hsl, if_neg (by omega), (old p px rfl hp).1 p, if_pos rfl])
        (fun r hr hrl => by rw [hsl, if_neg hrl, (old p px rfl hp).1 r, if_neg hr])
        (fun j hj => by rw [hho, if_neg hj, (old p px rfl hp).2 h hpd j])
        c q k qx kd hc hcq hq hk hkd
      exact ⟨qx1, h1, h2, h3, h4⟩

/-- After `recycle` on a handle, a proxy the handle did not point to is as before, and
so is the holder behind it. -/
theorem recycle_frame (s s2 : State Val) (a : Nat) (m : Option Nat) (hwf : WF s)
    (ha : s.mDat a = some m) (hrec : recycle s a = .ok () s2)
    (q k : Nat) (qx : proxy) (kd : holder Val) (hne : m ≠ some q)
    (hq : s.slot q = some qx) (hk : qx.data = some k) (hkd : s.hold k = some kd) :
    s2.slot q = some qx ∧ s2.hold k = some kd := by
  cases m with
  | none =>
    have : recycle s a = .ok () s := by simp [recycle, ha]
    rw [hrec] at this
    cases this
    exact ⟨hq, hkd⟩
  | some p =>
    obtain ⟨px, hp⟩ := hwf.live a p ha
    obtain ⟨h, hd, hpd, hh⟩ := hwf.data p px hp
    obtain ⟨s3, hrec3, hsl3, hho3, -, -⟩ :=
      recycle_slots s a p h px hd ha hp hpd hh (hwf.count p px hp).2
    rw [hrec] at hrec3
    cases hrec3
    have hqp : q ≠ p := fun e => hne (by rw [e])
    have hkh : k ≠ h := by
      intro c
      subst c
      exact hqp (hwf.owner q p qx px hq hp (by rw [hk, hpd]))
    constructor
    · rw [hsl3, if_neg hqp]
      exact hq
    · rw [hho3, if_neg (fun c => hkh c.2)]
      exact hkd

/-- The cooked `assign(const any &obj)` from a handle on another proxy is
`assign_holder` at the type and the payload of the holder of that handle. -/
theorem assign_cooked_eq (s : State Val) (a b q k : Nat) (m : Option Nat) (qx : proxy)
    (kd : holder Val) (hwf : WF s) (ha : s.mDat a = some m) (hb : s.mDat b = some (some q))
    (hne : m ≠ some q) (hq : s.slot q = some qx) (hk : qx.data = some k)
    (hkd : s.hold k = some kd) :
    assign s a b false = assign_holder s a kd.T kd.mDat false := by
  have hba : b ≠ a := by
    intro e
    subst e
    rw [ha] at hb
    exact hne (by simpa using hb)
  obtain ⟨s2, hrec, -⟩ := recycle_spec s none a m (WF.to_wfx s hwf) ha
  obtain ⟨hq2, hkd2⟩ := recycle_frame s s2 a m hwf ha hrec q k qx kd hne hq hk hkd
  have hcond : b ≠ a ∧ some q ≠ m := ⟨hba, fun e => hne e.symm⟩
  cases m with
  | none =>
    simp only [assign, ha, hb, hcond, and_self, ne_eq, not_false_eq_true, if_true, hrec,
      Outcome.bind, hq2, holder_duplicate, hk, hkd2, assign_holder]
  | some p =>
    simp only [assign, ha, hb, hcond, and_self, ne_eq, not_false_eq_true, if_true, hrec,
      Outcome.bind, hq2, holder_duplicate, hk, hkd2, assign_holder]

/-- Without `raw`, `assign_holder` gives the handle a value of its own. -/
theorem assign_holder_reassigned (s : State Val) (a T : Nat) (dat : Val) (m : Option Nat)
    (hwf : WF s) (ha : s.mDat a = some m) :
    ∃ s1, assign_holder s a T dat false = .ok () s1 ∧ WF s1 ∧ Reassigned s s1 a T dat := by
  obtain ⟨s1, hav, hwf1, h1a, h1c, h1s, h1h, h1p, -, h1f⟩ :=
    assign_holder_spec s a T dat m hwf ha
  refine ⟨s1, hav, hwf1, peek_length_le _ _ (le_refl _), h1a, h1s, h1h, ?_, ?_, h1c, ?_, ?_⟩
  · exact const_val_of_chain s1 a s.proxies.length s.holders.length
      ⟨0, 1, some s.holders.length⟩ ⟨T, dat⟩ h1a h1s rfl h1h
  · intro p px hap hp
    rw [ha] at hap
    exact h1p p px (by simpa using hap) hp
  · intro c T1 v hc hread
    exact (view_kept s s1 c hwf (h1c c hc) (fun q qx k kd => h1f c q qx k kd hc)).1 T1 v hread
  · intro c hc
    exact (view_kept s s1 c hwf (h1c c hc) (fun q qx k kd => h1f c q qx k kd hc)).2

/-- What the raw `assign(const any &obj, true)` does in a well-formed memory between
two different proxies at level 0: the holder of the first is killed and replaced by a
new holder with the payload of the second; nothing else changes. -/
theorem assign_raw_spec (s : State Val) (a b p q h k : Nat) (px qx : proxy)
    (kd : holder Val) (hwf : WF s)
    (ha : s.mDat a = some (some p)) (hb : s.mDat b = some (some q))
    (hp : s.slot p = some px) (hq : s.slot q = some qx) (hne : p ≠ q)
    (hpd : px.data = some h) (hk : qx.data = some k) (hkd : s.hold k = some kd)
    (h0 : px.protect_level = 0) (h1 : qx.protect_level = 0) :
    ∃ s1, assign s a b true = .ok () s1 ∧ s1.objs = s.objs ∧
      (∀ r, s1.slot r
        = if r = p then some { px with data := some s.holders.length } else s.slot r) ∧
      (∀ j, s1.hold j = if j = s.holders.length then some kd
        else if j = h then none else s.hold j) := by
  obtain ⟨h', hd, hpd', hh⟩ := hwf.data p px hp
  rw [hpd] at hpd'
  cases hpd'
  have hba : b ≠ a := by
    intro e
    subst e
    rw [ha] at hb
    exact hne (by simpa using hb)
  have hcond : b ≠ a ∧ some q ≠ some p :=
    ⟨hba, fun e => hne (by simpa using e.symm)⟩
  have hl : ¬ (px.protect_level > 0 ∨ qx.protect_level > 0) := by omega
  have hkh : k ≠ h := by
    intro c
    subst c
    exact hne (hwf.owner p q px qx hp hq (by rw [hpd, hk]))
  have hkd1 : State.hold ({ s with holders := free s.holders h } : State Val) k = some kd := by
    show peek (free s.holders h) k = _
    rw [peek_free, if_neg hkh]
    exact hkd
  have hp1 : State.slot (State.new_holder ({ s with holders := free s.holders h } : State Val)
      kd.T kd.mDat).2 p = some px := hp
  refine ⟨State.set_slot (State.new_holder ({ s with holders := free s.holders h } : State Val)
      kd.T kd.mDat).2 p { px with data := some (free s.holders h).length }, ?_, rfl, ?_, ?_⟩
  · simp only [assign, ha, hb, hcond, and_self, ne_eq, not_false_eq_true, if_true, hp, hq,
      hl, if_false, kill, hpd, hh, holder_duplicate, hk, hkd1, hp1]
    rfl
  · intro r
    rw [slot_set_slot _ p r px _ hp1, length_free]
    rfl
  · intro j
    show peek (free s.holders h ++ [some ⟨kd.T, kd.mDat⟩]) j = _
    rw [peek_append, length_free, peek_free]
    rfl

/-- The copy assignment `b = a` from a handle that is not empty, with the refcount it
leaves: one more than before, unless `b` was on the proxy of `a` already. -/
theorem copy_assign_shares (s : State Val) (a b p k : Nat) (n : Option Nat) (px : proxy)
    (kd : holder Val) (hwf : WF s) (hne : b ≠ a) (ha : s.mDat a = some (some p))
    (hb : s.mDat b = some n) (hp : s.slot p = some px) (hk : px.data = some k)
    (hkd : s.hold k = some kd) :
    ∃ s1, copy_assign s b a = .ok () s1 ∧ s1.mDat b = some (some p) ∧
      s1.mDat a = some (some p) ∧ (∀ c, c ≠ b → s1.mDat c = s.mDat c) ∧
      s1.slot p = some { px with
        refcount := if n = some p then px.refcount else px.refcount + 1 } ∧
      s1.hold k = some kd := by
  have key : ∃ s2 m2 r, recycle s b = .ok () s2 ∧ s2.mDat b = some m2 ∧
      (∀ c, c ≠ b → s2.mDat c = s.mDat c) ∧
      s2.slot p = some { px with refcount := r } ∧
      r + 1 = (if n = some p then px.refcount else px.refcount + 1) ∧
      s2.hold k = some kd := by
    cases n with
    | none =>
      exact ⟨s, none, px.refcount, by simp [recycle, hb], hb, fun _ _ => rfl, hp, by simp,
        hkd⟩
    | some q =>
      obtain ⟨qx, hq⟩ := hwf.live b q hb
      obtain ⟨kq, kdq, hkq, hkdq⟩ := hwf.data q qx hq
      obtain ⟨s2, hrec, hsl, hho, hfr, m2, hm2⟩ :=
        recycle_slots s b q kq qx kdq hb hq hkq hkdq (hwf.count q qx hq).2
      by_cases e : p = q
      · subst e
        rw [hp] at hq
        cases hq
        have h2 := refs_two s a b p hne ha hb
        have hc := hwf.count p px hp
        have h1 : ¬ px.refcount = 1 := by omega
        refine ⟨s2, m2, px.refcount - 1, hrec, hm2, hfr, ?_, ?_, ?_⟩
        · rw [hsl, if_pos rfl, if_neg h1]
        · rw [if_pos rfl]
          omega
        · rw [hho, if_neg (fun c => h1 c.1)]
          exact hkd
      · have hkk : k ≠ kq := by
          intro c
          subst c
          exact e (hwf.owner p q px qx hp hq (by rw [hk, hkq]))
        refine ⟨s2, m2, px.refcount, hrec, hm2, hfr, ?_, ?_, ?_⟩
        · rw [hsl, if_neg e]
          exact hp
        · rw [if_neg (fun c => e (by simpa using c.symm))]
        · rw [hho, if_neg (fun c => hkk c.2)]
          exact hkd
  obtain ⟨s2, m2, r, hrec, h2b, h2c, h2p, hr, h2h⟩ := key
  have h2a : s2.mDat a = some (some p) := by rw [h2c a hne.symm, ha]
  refine ⟨(s2.set_slot p { px with refcount := r + 1 }).set_mDat b (some p), ?_, ?_, ?_, ?_,
    ?_, h2h⟩
  · simp only [copy_assign, ha, hb, hrec, duplicate, h2a, h2p, Outcome.bind, ne_eq,
      hne.symm, not_false_eq_true, if_true]
  · rw [mDat_set_mDat (s2.set_slot p _) b b m2 _ h2b, if_pos rfl]
  · rw [mDat_set_mDat (s2.set_slot p _) b a m2 _ h2b, if_neg hne.symm]
    exact h2a
  · intro c hc
    rw [mDat_set_mDat (s2.set_slot p _) b c m2 _ h2b, if_neg hc]
    exact h2c c hc
  · show (s2.set_slot p _).slot p = _
    rw [slot_set_slot s2 p p _ _ h2p, if_pos rfl, hr]

/-- The copy assignment `b = a` from an empty handle leaves `b` empty. -/
theorem copy_assign_empty (s : State Val) (a b : Nat) (n : Option Nat) (hwf : WF s)
    (hne : b ≠ a) (ha : s.mDat a = some none) (hb : s.mDat b = some n) :
    ∃ s1, copy_assign s b a = .ok () s1 ∧ s1.mDat b = some none ∧
      s1.mDat a = some none ∧ (∀ c, c ≠ b → s1.mDat c = s.mDat c) := by
  obtain ⟨s2, hrec, -, -, -, hfr, m1, hm1⟩ := recycle_spec s none b n (WF.to_wfx s hwf) hb
  have h2a : s2.mDat a = some none := by rw [hfr a hne.symm, ha]
  refine ⟨s2.set_mDat b none, ?_, ?_, ?_, ?_⟩
  · simp only [copy_assign, ha, hb, hrec, duplicate, h2a, Outcome.bind, ne_eq,
      hne.symm, not_false_eq_true, if_true]
  · rw [mDat_set_mDat s2 b b m1 _ hm1, if_pos rfl]
  · rw [mDat_set_mDat s2 b a m1 _ hm1, if_neg hne.symm]
    exact h2a
  · intro c hc
    rw [mDat_set_mDat s2 b c m1 _ hm1, if_neg hc]
    exact hfr c hc

/-- The holders `recycle` leaves in a well-formed memory: the one the handle owned
alone is destroyed, every other one is as it was. -/
theorem recycle_holds (s : State Val) (a : Nat) (m : Option Nat) (hwf : WF s)
    (ha : s.mDat a = some m) :
    ∃ s2, recycle s a = .ok () s2 ∧
      ∀ k, s2.hold k = if owns_alone s a k = true then none else s.hold k := by
  cases m with
  | none =>
    refine ⟨s, by simp [recycle, ha], fun k => ?_⟩
    simp [owns_alone, ha]
  | some p =>
    obtain ⟨px, hp⟩ := hwf.live a p ha
    obtain ⟨h, hd, hpd, hh⟩ := hwf.data p px hp
    obtain ⟨s2, hrec, -, hho, -, -⟩ :=
      recycle_slots s a p h px hd ha hp hpd hh (hwf.count p px hp).2
    refine ⟨s2, hrec, fun k => ?_⟩
    rw [hho k]
    have e : (owns_alone s a k = true) ↔ (px.refcount = 1 ∧ k = h) := by
      simp only [owns_alone, ha, hp, hpd, decide_eq_true_eq, Option.some.injEq]
      constructor
      · rintro ⟨h1, h2⟩
        exact ⟨h1, h2.symm⟩
      · rintro ⟨h1, h2⟩
        exact ⟨h1, h2.symm⟩
    by_cases c : px.refcount = 1 ∧ k = h
    · rw [if_pos c, if_pos (e.2 c)]
    · rw [if_neg c, if_neg (fun x => c (e.1 x))]

/-! ## Comparison and hashing -/

/-- When `compare` answers true. -/
theorem compare_true_iff (tr : Traits Val) (s : State Val) (a b : Nat) :
    compare tr s a b = some true ↔
      (s.mDat a = some none ∧ s.mDat b = some none) ∨
      (∃ p q hd od, s.mDat a = some (some p) ∧ s.mDat b = some (some q) ∧
        s.payload p = some hd ∧ s.payload q = some od ∧ od.T = hd.T ∧
        tr.compare hd.T hd.mDat od.mDat = true) := by
  unfold compare
  cases ha : s.mDat a with
  | none => simp
  | some m =>
    cases hb : s.mDat b with
    | none => simp
    | some n =>
      cases m with
      | none => cases n <;> simp
      | some p =>
        cases n with
        | none => simp
        | some q =>
          cases hp : s.payload p with
          | none => simp [hp]
          | some hd =>
            cases hq : s.payload q with
            | none => simp [hp, hq]
            | some od => simp [hp, hq, holder_compare]

/-- A typed read returns `x` exactly when the handle leads to a holder of that type
with the payload `x`. -/
theorem const_val_iff (s : State Val) (a T : Nat) (x : Val) :
    const_val s a (.of T) = .ok x s ↔
      ∃ p hd, s.mDat a = some (some p) ∧ s.payload p = some hd ∧ hd.T = T ∧
        hd.mDat = x := by
  constructor
  · intro h
    obtain ⟨-, p, hd, ha, hp, hT, hx⟩ := const_val_ok s s a (.of T) x h
    simp only [type_info.of.injEq] at hT
    exact ⟨p, hd, ha, hp, hT.symm, hx⟩
  · rintro ⟨p, hd, ha, hp, hT, hx⟩
    rw [const_val_eq, ha]
    simp [hp, hT, hx]

/-- A typed read through a handle depends on its pointer, the proxies and the holders
only. -/
theorem const_val_congr (s s1 : State Val) (c x : Nat) (T : type_info) (v : Val)
    (hm : s1.mDat c = s.mDat x) (hp : s1.proxies = s.proxies)
    (hh : s1.holders = s.holders) (h : const_val s x T = .ok v s) :
    const_val s1 c T = .ok v s1 := by
  obtain ⟨-, p, hd, hx, hpay, hT, hv⟩ := const_val_ok s s x T v h
  have hpay1 : s1.payload p = some hd := by
    simp only [State.payload, State.slot, State.hold, hp, hh] at hpay ⊢
    exact hpay
  rw [const_val_eq, hm, hx]
  simp [hpay1, hT, hv]

/-! ## Exchanging pointers -/

/-- The cooked swap, and the raw swap when one side is empty: the two handles
exchange their pointers. -/
theorem swap_cooked (s : State Val) (a b : Nat) (m n : Option Nat) (raw : Bool)
    (ha : s.mDat a = some m) (hb : s.mDat b = some n)
    (hraw : raw = false ∨ m = none ∨ n = none) :
    swap s a b raw = .ok () ((s.set_mDat a n).set_mDat b m) := by
  unfold swap
  rw [ha, hb]
  cases m with
  | none => cases n <;> rfl
  | some p =>
    cases n with
    | none => rfl
    | some q =>
      rcases hraw with h | h | h
      · subst h
        rfl
      · cases h
      · cases h

/-- The pointers after an exchange. -/
theorem exchange_mDat (s : State Val) (a b c : Nat) (m n : Option Nat)
    (ha : s.mDat a = some m) (hb : s.mDat b = some n) :
    ((s.set_mDat a n).set_mDat b m).mDat c
      = if c = b then some m else if c = a then some n else s.mDat c := by
  have hb1 : (s.set_mDat a n).mDat b = some n := by
    rw [mDat_set_mDat s a b m n ha]
    split
    · rfl
    · exact hb
  rw [mDat_set_mDat _ b c n m hb1, mDat_set_mDat s a c m n ha]

/-! ## The level seen through a handle -/

/-- Overwriting the proxy `p` changes what is observed through the handles on `p`, to
what the new proxy says, and through no other handle. -/
theorem observed_set_slot (s : State Val) (p c : Nat) (px px1 : proxy)
    (hp : s.slot p = some px) :
    observed (s.set_slot p px1) c
      = if s.mDat c = some (some p) then
          (some (decide (px1.protect_level > 0)), some (decide (px1.protect_level > 1)),
            some (decide (px1.protect_level > 2)))
        else observed s c := by
  have hm : (s.set_slot p px1).mDat c = s.mDat c := rfl
  unfold observed is_protect is_constant is_single
  rw [hm]
  cases hc : s.mDat c with
  | none => simp
  | some m =>
    cases m with
    | none => simp
    | some r =>
      simp only [slot_set_slot s p r px px1 hp]
      by_cases e : r = p
      · subst e
        simp
      · simp [e]

/-- What is observed through a handle depends on its pointer and the proxies only. -/
theorem observed_congr (s s1 : State Val) (c x : Nat) (hm : s1.mDat c = s.mDat x)
    (hp : s1.proxies = s.proxies) : observed s1 c = observed s x := by
  simp only [observed, is_protect, is_constant, is_single, State.slot, hm, hp]

/-- The pointers after the construction of a handle. -/
theorem mDat_new_any (s : State Val) (m : Option Nat) (b : Nat) :
    (s.new_any m).2.mDat b = if b = s.objs.length then some m else s.mDat b := by
  simp only [State.mDat, State.new_any, alloc, peek_append]
  split <;> rfl

end

/-! ## The holders of the types that any.hpp names -/

/-- A holder made for `char[N]` is a holder of `std::string`. -/
theorem holder_type_char_array (N : Nat) : holder_type (char_array N) = std_string := by
  have h1 : ¬ (2 * N + 4 = 3) := by omega
  have h2 : 4 ≤ 2 * N + 4 ∧ (2 * N + 4) % 2 = 0 := by omega
  simp only [holder_type, char_array, std_type_info, if_neg h1, if_pos h2]

/-- A holder made for `std::type_info` is a holder of `std::type_index`. -/
theorem holder_type_type_info : holder_type std_type_info = std_type_index := rfl

/-- A holder made for `std::string`, for `std::type_index` or for a type that any.hpp
does not name is a holder of that type. -/
theorem holder_type_primary (T : Nat) (h : T ≤ 2 ∨ (5 ≤ T ∧ T % 2 = 1)) :
    holder_type T = T := by
  have h1 : ¬ (T = 3) := by omega
  have h2 : ¬ (4 ≤ T ∧ T % 2 = 0) := by omega
  simp only [holder_type, std_type_info, if_neg h1, if_neg h2]

/-- After `any a("abc")`, here with the payload `7` and the type `char[4]`, the handle
is of type `std::string`: it is read at `std::string`, and a read at `char[4]` throws
E0006. -/
theorem ctor_value_char_array :
    ∃ s1, ctor_value (State.empty : State Int) (char_array 4) 7 = .ok 0 s1 ∧
      type s1 0 = some (.of std_string) ∧
      const_val s1 0 (.of std_string) = .ok 7 s1 ∧
      const_val s1 0 (.of (char_array 4)) = .thrown .E0006 s1 :=
  ⟨_, rfl, rfl, rfl, rfl⟩

/-! ## The example memories are reached by programs -/

/-- The memory `ex_twins` is what `any a(5); any b(5);` leaves. -/
theorem ex_twins_run :
    run_all ex_traits State.empty [.ctor_value 0 5, .ctor_value 0 5] = some ex_twins := by
  decide

/-- The memory `ex_mixed` is what two constructions from a `5` of type `0` and a `5` of
type `1`, then `any e;`, leave. -/
theorem ex_mixed_run :
    run_all ex_traits State.empty [.ctor_value 0 5, .ctor_value 1 5, .ctor_default]
      = some ex_mixed := by
  decide

/-- The memory `ex_single_null` is what `any a = any::make_single<int>(5); any e;`
leaves. -/
theorem ex_single_null_run :
    run_all ex_traits State.empty [.make_single 0 5, .ctor_default] = some ex_single_null := by
  decide

/-! # The claims -/

section
variable {Val : Type}

/-! ## C1: copy on write -/

/-- C1. Copy-on-write sharing.  In a well-formed memory let `a` be a handle that
reads the payload `v` of type `T` and is below level 2 (Mutable or Protected).  After
`any b(a)`, and after `b = a` for any other handle `b`, `b.is_same(a)` holds; then
`b.val<T>()` returns a reference, and whatever `v1` is written through it, `a` still
reads `v` and `b` reads `v1`. -/
theorem C1_copy_on_write (s : State Val) (a T : Nat) (v : Val) (hwf : WF s)
    (hread : const_val s a (.of T) = .ok v s) (hlev : is_constant s a = some false) :
    (∃ b s1, ctor_copy s a = .ok b s1 ∧ is_same s1 b a = some true ∧
      ∃ r s2, val s1 b (.of T) false = .ok r s2 ∧
        ∀ v1, ∃ s3, store s2 r v1 = .ok () s3 ∧
          const_val s3 a (.of T) = .ok v s3 ∧ const_val s3 b (.of T) = .ok v1 s3) ∧
    (∀ b m, b ≠ a → s.mDat b = some m →
      ∃ s1, copy_assign s b a = .ok () s1 ∧ is_same s1 b a = some true ∧
        ∃ r s2, val s1 b (.of T) false = .ok r s2 ∧
          ∀ v1, ∃ s3, store s2 r v1 = .ok () s3 ∧
            const_val s3 a (.of T) = .ok v s3 ∧ const_val s3 b (.of T) = .ok v1 s3) := by
  obtain ⟨p, px, k, kd, ha, hp, hk, hkd, hT, hv⟩ :=
    const_val_chain s a (.of T) v hwf hread
  simp only [type_info.of.injEq] at hT
  subst hT
  have hl : ¬ px.protect_level > 1 := by
    simp only [is_constant, ha, hp, Option.map_some', Option.some.injEq,
      decide_eq_false_iff_not] at hlev
    exact hlev
  constructor
  · obtain ⟨s1, hcopy, hnew, h1b, h1c, h1p, -, h1h⟩ := ctor_copy_spec s a p px ha hp
    have hne : s.objs.length ≠ a := by
      have := mDat_lt s a _ ha
      omega
    have h1a : s1.mDat a = some (some p) := by rw [h1c a hne.symm, ha]
    have hwf1 : WF s1 := ctor_copy_wf s s1 a hwf (by rw [hcopy]; rfl)
    have hkd1 : s1.hold k = some kd := by
      simp only [State.hold, h1h]
      exact hkd
    have hread1 : const_val s1 a (.of kd.T) = .ok v s1 := by
      rw [← hv]
      exact const_val_of_chain s1 a p k _ kd h1a h1p hk hkd1
    have hlev1 : is_constant s1 a = some false := by
      simp only [is_constant, h1a, h1p, Option.map_some', Option.some.injEq,
        decide_eq_false_iff_not]
      exact hl
    refine ⟨s.objs.length, s1, hcopy, ?_, cow_core s1 a _ p kd.T v hwf1 hne h1a h1b hread1
      hlev1⟩
    simp only [is_same, h1a, h1b, decide_True]
  · intro b m hne hb
    obtain ⟨s1, px1, hcopy, h1b, h1a, h1p, h1k, h1l, h1h⟩ :=
      copy_assign_spec s a b p k m px kd hwf hne ha hb hp hk hkd
    have hwf1 : WF s1 := copy_assign_wf s s1 b a hwf (by rw [hcopy]; rfl)
    have hread1 : const_val s1 a (.of kd.T) = .ok v s1 := by
      rw [← hv]
      exact const_val_of_chain s1 a p k _ kd h1a h1p h1k h1h
    have hlev1 : is_constant s1 a = some false := by
      simp only [is_constant, h1a, h1p, Option.map_some', Option.some.injEq,
        decide_eq_false_iff_not, h1l]
      exact hl
    refine ⟨s1, hcopy, ?_, cow_core s1 a b p kd.T v hwf1 hne h1a h1b hread1 hlev1⟩
    simp only [is_same, h1a, h1b, decide_True]

/-- C1 at `any a(42); any b(a); b.val<int>() = 100;`: `a` reads `42`, `b` reads `100`. -/
theorem C1_copy_on_write_witness :
    ∃ b s1, ctor_copy ex_forty_two 0 = .ok b s1 ∧ is_same s1 b 0 = some true ∧
      ∃ r s2, val s1 b (.of 0) false = .ok r s2 ∧
        ∃ s3, store s2 r 100 = .ok () s3 ∧
          const_val s3 0 (.of 0) = .ok 42 s3 ∧ const_val s3 b (.of 0) = .ok 100 s3 := by
  obtain ⟨b, s1, h1, h2, r, s2, h3, h4⟩ :=
    (C1_copy_on_write ex_forty_two 0 0 42
      (wf_of_run_all ex_traits [.ctor_value 0 42] ex_forty_two (by decide))
      (by decide) (by decide)).1
  exact ⟨b, s1, h1, h2, r, s2, h3, h4 100⟩

/-! ## C2: raw swap between Mutable proxies -/

/-- C2. For two handles that are not empty, on two different proxies both at level 0
(Mutable), `swap(obj, true)` returns; every handle keeps its proxy, the two proxies
keep their refcount and level and have exchanged their `data`, no other proxy and no
holder changes; so a handle that shared the proxy of `a` now reads what `b` read, and
a handle that shared the proxy of `b` now reads what `a` read. -/
theorem C2_raw_swap_exchanges_holders (s : State Val) (a b p q : Nat) (px qx : proxy)
    (ha : s.mDat a = some (some p)) (hb : s.mDat b = some (some q))
    (hp : s.slot p = some px) (hq : s.slot q = some qx) (hne : p ≠ q)
    (h0 : px.protect_level = 0) (h1 : qx.protect_level = 0) :
    ∃ s1, swap s a b true = .ok () s1 ∧
      s1.objs = s.objs ∧ s1.holders = s.holders ∧
      s1.slot p = some { px with data := qx.data } ∧
      s1.slot q = some { qx with data := px.data } ∧
      (∀ r, r ≠ p → r ≠ q → s1.slot r = s.slot r) ∧
      (∀ c T v, s.mDat c = some (some p) → const_val s b T = .ok v s →
        const_val s1 c T = .ok v s1) ∧
      (∀ c T v, s.mDat c = some (some q) → const_val s a T = .ok v s →
        const_val s1 c T = .ok v s1) := by
  have hl : ¬ (px.protect_level > 0 ∨ qx.protect_level > 0) := by omega
  have hmid : (s.set_slot p { px with data := qx.data }).slot q = some qx := by
    rw [slot_set_slot s p q px _ hp, if_neg (Ne.symm hne), hq]
  have hmidp : (s.set_slot p { px with data := qx.data }).slot p
      = some { px with data := qx.data } := by
    rw [slot_set_slot s p p px _ hp, if_pos rfl]
  have hP : ((s.set_slot p { px with data := qx.data }).set_slot q
      { qx with data := px.data }).slot p = some { px with data := qx.data } := by
    rw [slot_set_slot _ q p qx _ hmid, if_neg hne, hmidp]
  have hQ : ((s.set_slot p { px with data := qx.data }).set_slot q
      { qx with data := px.data }).slot q = some { qx with data := px.data } := by
    rw [slot_set_slot _ q q qx _ hmid, if_pos rfl]
  refine ⟨(s.set_slot p { px with data := qx.data }).set_slot q { qx with data := px.data },
    ?_, rfl, rfl, hP, hQ, ?_, ?_, ?_⟩
  · simp only [swap, ha, hb, hp, hq, hl, if_true, if_false, hmid]
  · intro r hrp hrq
    rw [slot_set_slot _ q r qx _ hmid, if_neg hrq, slot_set_slot s p r px _ hp, if_neg hrp]
  · intro c T v hc hread
    obtain ⟨-, q1, hd, hbq, hpay, hT, hv⟩ := const_val_ok s s b T v hread
    rw [hb] at hbq
    cases hbq
    have hpay1 : State.payload ((s.set_slot p { px with data := qx.data }).set_slot q
        { qx with data := px.data }) p = some hd := by
      simp only [State.payload, hq] at hpay
      simp only [State.payload, hP]
      exact hpay
    have hc1 : State.mDat ((s.set_slot p { px with data := qx.data }).set_slot q
        { qx with data := px.data }) c = some (some p) := hc
    rw [const_val_eq, hc1]
    simp [hpay1, hT, hv]
  · intro c T v hc hread
    obtain ⟨-, p1, hd, hap, hpay, hT, hv⟩ := const_val_ok s s a T v hread
    rw [ha] at hap
    cases hap
    have hpay1 : State.payload ((s.set_slot p { px with data := qx.data }).set_slot q
        { qx with data := px.data }) q = some hd := by
      simp only [State.payload, hp] at hpay
      simp only [State.payload, hQ]
      exact hpay
    have hc1 : State.mDat ((s.set_slot p { px with data := qx.data }).set_slot q
        { qx with data := px.data }) c = some (some q) := hc
    rw [const_val_eq, hc1]
    simp [hpay1, hT, hv]

/-- C2 at `any a(5); any b(7); any c(a); a.swap(b, true);`: afterwards `c` reads `7`. -/
theorem C2_raw_swap_exchanges_holders_witness :
    ∃ s1, swap ex_shared 0 1 true = .ok () s1 ∧ const_val s1 2 (.of 0) = .ok 7 s1 := by
  obtain ⟨s1, h1, -, -, -, -, -, h2, -⟩ :=
    C2_raw_swap_exchanges_holders ex_shared 0 1 0 1 ⟨0, 2, some 0⟩ ⟨0, 1, some 1⟩
      rfl rfl rfl rfl (by decide) rfl rfl
  exact ⟨s1, h1, h2 2 (.of 0) 7 rfl (by decide)⟩

/-! ## C3: raw swap and protection -/

/-- C3. For two handles that are not empty, on proxies whose levels are not negative,
`swap(obj, true)` throws E000J (ProtectedMutation) exactly when one of the two levels
is not 0 (Mutable); it throws nothing else, and when it throws the memory is the one
before the call. -/
theorem C3_raw_swap_protected (s : State Val) (a b p q : Nat) (px qx : proxy)
    (ha : s.mDat a = some (some p)) (hb : s.mDat b = some (some q))
    (hp : s.slot p = some px) (hq : s.slot q = some qx)
    (h0 : 0 ≤ px.protect_level) (h1 : 0 ≤ qx.protect_level) :
    ((∃ s1, swap s a b true = .thrown .E000J s1) ↔
      (px.protect_level ≠ 0 ∨ qx.protect_level ≠ 0)) ∧
    (∀ e s1, swap s a b true = .thrown e s1 → e = .E000J ∧ s1 = s) := by
  by_cases hl : px.protect_level > 0 ∨ qx.protect_level > 0
  · have hne : px.protect_level ≠ 0 ∨ qx.protect_level ≠ 0 := by omega
    simp only [swap, ha, hb, hp, hq, hl, if_true]
    simp [hne]
  · have hne : ¬ (px.protect_level ≠ 0 ∨ qx.protect_level ≠ 0) := by omega
    simp only [swap, ha, hb, hp, hq, hl, if_true, if_false]
    cases hq1 : (s.set_slot p { px with data := qx.data }).slot q <;> simp [hne]

/-- C3 at `any a(5); a.protect(); any c(7); a.swap(c, true);`: the call throws E000J,
`a` still reads `5` and `c` still reads `7`. -/
theorem C3_raw_swap_protected_witness :
    run_all ex_traits State.empty [.ctor_value 0 5, .protect 0, .ctor_value 0 7]
      = some ex_five_seven ∧
    swap ex_five_seven 0 1 true = .thrown .E000J ex_five_seven ∧
    (∀ e s1, swap ex_five_seven 0 1 true = .thrown e s1 → e = .E000J ∧ s1 = ex_five_seven) ∧
    const_val ex_five_seven 0 (.of 0) = .ok 5 ex_five_seven ∧
    const_val ex_five_seven 1 (.of 0) = .ok 7 ex_five_seven :=
  ⟨by decide, by decide,
   (C3_raw_swap_protected ex_five_seven 0 1 0 1 ⟨1, 1, some 0⟩ ⟨0, 1, some 1⟩
      rfl rfl rfl rfl (by decide) (by decide)).2,
   by decide, by decide⟩

/-! ## C4: protection never decreases -/

/-- C4. Protection monotonicity.  Whatever calls a program makes, from any memory:
a proxy present before and after has a level after that is at least its level before,
and if all levels were among 0, 1, 2, 3 before they all are after (a program started
from the empty memory only ever sees such levels).  `single()` returns on an empty
handle, and on a handle whose proxy has a level in range it returns with the level
equal to 3, after which `single()` returns again and `constant()` throws E000G
(ProtectionViolation). -/
theorem C4_protection_never_decreases (tr : Traits Val) (s : State Val) :
    (∀ ops s1, run_all tr s ops = some s1 →
      (∀ p px px1, s.slot p = some px → s1.slot p = some px1 →
        px.protect_level ≤ px1.protect_level) ∧
      ((∀ p px, s.slot p = some px → px.in_range) →
        ∀ p px1, s1.slot p = some px1 → px1.in_range)) ∧
    (∀ ops s1, run_all tr State.empty ops = some s1 →
      ∀ p px1, s1.slot p = some px1 → px1.in_range) ∧
    (∀ a, s.mDat a = some none → single s a = .ok () s) ∧
    (∀ a p px, s.mDat a = some (some p) → s.slot p = some px → px.in_range →
      ∃ s1, single s a = .ok () s1 ∧ s1.slot p = some { px with protect_level := 3 } ∧
        (∃ s2, single s1 a = .ok () s2) ∧ constant s1 a = .thrown .E000G s1) := by
  refine ⟨fun ops s1 h => ?_, fun ops s1 h p px1 h1 => ?_, fun a ha => ?_,
    fun a p px ha hp hr => ?_⟩
  · have hR := run_all_raises tr ops s s1 h
    exact ⟨hR.mono, fun hall p px1 h1 => hR.range p px1 h1 (fun px hpx => hall p px hpx)⟩
  · have hR := run_all_raises tr ops State.empty s1 h
    refine hR.range p px1 h1 (fun px hpx => ?_)
    cases p <;> cases hpx
  · simp [single, ha]
  · have hl : ¬ px.protect_level > 3 := not_lt.mpr hr.2
    have hp1 : (s.set_slot p { px with protect_level := 3 }).slot p
        = some { px with protect_level := 3 } := by
      rw [slot_set_slot s p p px _ hp, if_pos rfl]
    have ha1 : (s.set_slot p { px with protect_level := 3 }).mDat a = some (some p) := ha
    refine ⟨s.set_slot p { px with protect_level := 3 }, ?_, hp1, ?_, ?_⟩
    · simp only [single, ha, hp, hl, if_false]
    · simp [single, ha1, hp1]
    · simp [constant, ha1, hp1]

/-- C4 at `any a(5); a.protect(); a.constant(); a.protect(); a.single(); a.constant();
a.single();`, where the third and the fifth call throw: the level goes from 0 to 3. -/
theorem C4_protection_never_decreases_witness :
    run_all ex_traits ex_five
      [.protect 0, .constant 0, .protect 0, .single 0, .constant 0, .single 0]
      = some ex_single ∧
    (0 : Int) ≤ 3 ∧
    (∃ s1, single ex_five 0 = .ok () s1 ∧ s1.slot 0 = some ⟨3, 1, some 0⟩ ∧
      (∃ s2, single s1 0 = .ok () s2) ∧ constant s1 0 = .thrown .E000G s1) :=
  ⟨by decide,
   ((C4_protection_never_decreases ex_traits ex_five).1
      [.protect 0, .constant 0, .protect 0, .single 0, .constant 0, .single 0]
      ex_single (by decide)).1 0 ⟨0, 1, some 0⟩ ⟨3, 1, some 0⟩ rfl rfl,
   (C4_protection_never_decreases ex_traits ex_five).2.2.2 0 0 ⟨0, 1, some 0⟩ rfl rfl
     ⟨by decide, by decide⟩⟩

/-! ## C5: the transitions `protect()` and `constant()` -/

/-- C5. Transition table of `protect()` and `constant()`.  On a handle that is not
empty, whose proxy has a level among 0 (Mutable), 1 (Protected), 2 (Constant) and
3 (Single): `protect()` throws E000G (ProtectionViolation) exactly at level 2 or 3 and
otherwise returns with the level equal to 1; `constant()` throws E000G exactly at
level 3 and otherwise returns with the level equal to 2.  On an empty handle both
return and change nothing. -/
theorem C5_protect_constant_table (s : State Val) (a : Nat) :
    (s.mDat a = some none → protect s a = .ok () s ∧ constant s a = .ok () s) ∧
    (∀ p px, s.mDat a = some (some p) → s.slot p = some px →
      0 ≤ px.protect_level → px.protect_level ≤ 3 →
      ((∃ s1, protect s a = .thrown .E000G s1) ↔
        (px.protect_level = 2 ∨ px.protect_level = 3)) ∧
      (¬ (px.protect_level = 2 ∨ px.protect_level = 3) →
        ∃ s1, protect s a = .ok () s1 ∧ s1.mDat a = some (some p) ∧
          s1.slot p = some { px with protect_level := 1 }) ∧
      ((∃ s1, constant s a = .thrown .E000G s1) ↔ px.protect_level = 3) ∧
      (¬ px.protect_level = 3 →
        ∃ s1, constant s a = .ok () s1 ∧ s1.mDat a = some (some p) ∧
          s1.slot p = some { px with protect_level := 2 })) := by
  refine ⟨fun h => ?_, fun p px hm hp h0 h3 => ⟨?_, ?_, ?_, ?_⟩⟩
  · simp [protect, constant, h]
  · by_cases hl : px.protect_level > 1
    · have : px.protect_level = 2 ∨ px.protect_level = 3 := by omega
      simp [protect, hm, hp, hl, this]
    · have : ¬ (px.protect_level = 2 ∨ px.protect_level = 3) := by omega
      simp [protect, hm, hp, hl, this]
  · intro hn
    have hl : ¬ px.protect_level > 1 := by omega
    refine ⟨s.set_slot p { px with protect_level := 1 }, ?_, hm, ?_⟩
    · simp only [protect, hm, hp, hl, if_false]
    · simp [slot_set_slot s p p px _ hp]
  · by_cases hl : px.protect_level > 2
    · have : px.protect_level = 3 := by omega
      simp [constant, hm, hp, hl, this]
    · have : ¬ px.protect_level = 3 := by omega
      simp [constant, hm, hp, hl, this]
  · intro hn
    have hl : ¬ px.protect_level > 2 := by omega
    refine ⟨s.set_slot p { px with protect_level := 2 }, ?_, hm, ?_⟩
    · simp only [constant, hm, hp, hl, if_false]
    · simp [slot_set_slot s p p px _ hp]

/-- C5 at `any a(5)` and at an empty handle. -/
theorem C5_protect_constant_table_witness :
    (protect ex_null 0 = .ok () ex_null ∧ constant ex_null 0 = .ok () ex_null) ∧
    (∃ s1, protect ex_five 0 = .ok () s1 ∧ s1.mDat 0 = some (some 0) ∧
      s1.slot 0 = some ⟨1, 1, some 0⟩) :=
  ⟨(C5_protect_constant_table ex_null 0).1 rfl,
   ((C5_protect_constant_table ex_five 0).2 0 ⟨0, 1, some 0⟩ rfl rfl
      (by decide) (by decide)).2.1 (by decide)⟩

/-! ## C6: what `clone()` leaves -/

/-- C6. Clone postcondition.  In a well-formed memory, on a handle `a` that is not
empty and whose proxy `p` has a level of at most 2 (Mutable, Protected or Constant),
whatever the refcount, `clone()` returns and `a` then points to a proxy that did not
exist before (so different from `p`), with refcount 1, level 0 and a new holder equal
to the one `p` held.  The proxy `p` has lost one reference: it is destroyed when its
refcount was 1, and otherwise keeps its level and its `data`, whose holder is
unchanged.  No other handle and no other proxy changes, and whatever is then written
through the holder of `a`, every other handle reads what it read before the clone. -/
theorem C6_clone_postcondition (s : State Val) (a p : Nat) (px : proxy) (hwf : WF s)
    (ha : s.mDat a = some (some p)) (hp : s.slot p = some px)
    (hl : px.protect_level ≤ 2) :
    ∃ s1 h hd, clone s a = .ok () s1 ∧ px.data = some h ∧ s.hold h = some hd ∧
      s.slot s.proxies.length = none ∧ s.proxies.length ≠ p ∧
      s1.mDat a = some (some s.proxies.length) ∧
      s1.slot s.proxies.length = some ⟨0, 1, some s.holders.length⟩ ∧
      s.hold s.holders.length = none ∧ s1.hold s.holders.length = some hd ∧
      s1.slot p = (if px.refcount = 1 then none
        else some { px with refcount := px.refcount - 1 }) ∧
      (px.refcount ≠ 1 → s1.hold h = some hd) ∧
      (∀ b, b ≠ a → s1.mDat b = s.mDat b) ∧
      (∀ q, q ≠ p → q ≠ s.proxies.length → s1.slot q = s.slot q) ∧
      (∀ b T v v1, b ≠ a → const_val s b T = .ok v s →
        ∃ s2, store s1 s.holders.length v1 = .ok () s2 ∧
          const_val s2 a (.of hd.T) = .ok v1 s2 ∧ const_val s2 b T = .ok v s2) := by
  obtain ⟨h, hd, hpd, hh⟩ := hwf.data p px hp
  obtain ⟨s1, hclone, -, h1a, h1b, h1s, h1h, h1p, h1q, h1k⟩ :=
    clone_spec s a p h px hd hwf ha hp hpd hh hl
  have hplt : p < s.proxies.length := peek_lt _ _ _ hp
  have hhlt : h < s.holders.length := peek_lt _ _ _ hh
  refine ⟨s1, h, hd, hclone, hpd, hh, peek_length_le _ _ (le_refl _), by omega, h1a, h1s,
    peek_length_le _ _ (le_refl _), h1h, h1p, ?_, h1b, h1q, ?_⟩
  · intro hr
    rw [h1k h (by omega), if_neg (fun c => hr c.1)]
    exact hh
  · intro b T v v1 hne hread
    have hst : store s1 s.holders.length v1
        = .ok () (s1.set_hold s.holders.length { hd with mDat := v1 }) := by
      simp only [store, h1h]
    have hho : ∀ k, (s1.set_hold s.holders.length { hd with mDat := v1 }).hold k
        = if k = s.holders.length then some { hd with mDat := v1 } else s1.hold k :=
      fun k => hold_set_hold s1 _ k _ _ h1h
    refine ⟨_, hst, ?_, ?_⟩
    · exact const_val_of_chain (s1.set_hold s.holders.length { hd with mDat := v1 }) a
        s.proxies.length s.holders.length ⟨0, 1, some s.holders.length⟩
        { hd with mDat := v1 } h1a h1s rfl (by rw [hho, if_pos rfl])
    · obtain ⟨q, qx, k, kd, hb, hq, hk, hkd, hT, hv⟩ := const_val_chain s b T v hwf hread
      obtain ⟨qx1, hq1, hk1, -, hkd1, hkl⟩ :=
        clone_frame s s1 a p h px hwf ha hp hpd h1p h1q h1k b q k qx kd hne hb hq hk hkd
      have := const_val_of_chain (s1.set_hold s.holders.length { hd with mDat := v1 }) b
        q k qx1 kd (by rw [← hb]; exact h1b b hne) hq1 hk1
        (by rw [hho, if_neg hkl]; exact hkd1)
      rw [hT, ← hv]
      exact this

/-- C6 at `any a(5); any b(7); any c(a); c.clone();` followed by a write of `100`
through `c`: `c` is on the new proxy `2` with refcount 1 and level 0, holding a copy
of `5`; after the write `c` reads `100` and `a` still reads `5`. -/
theorem C6_clone_postcondition_witness :
    ∃ s1, clone ex_shared 2 = .ok () s1 ∧ s1.mDat 2 = some (some 2) ∧
      s1.slot 2 = some ⟨0, 1, some 2⟩ ∧ s1.hold 2 = some ⟨0, 5⟩ ∧
      ∃ s2, store s1 2 100 = .ok () s2 ∧ const_val s2 2 (.of 0) = .ok 100 s2 ∧
        const_val s2 0 (.of 0) = .ok 5 s2 := by
  obtain ⟨s1, h, hd, hc, hpd, hh, -, -, ha, hs, -, h1h, -, -, -, -, hiso⟩ :=
    C6_clone_postcondition ex_shared 2 0 ⟨0, 2, some 0⟩
      (wf_of_run_all ex_traits [.ctor_value 0 5, .ctor_value 0 7, .ctor_copy 0] ex_shared
        (by decide)) rfl rfl (by decide)
  cases hpd
  cases hh
  obtain ⟨s2, hst, hra, hrb⟩ := hiso 0 (.of 0) 5 100 (by decide) (by decide)
  exact ⟨s1, hc, ha, hs, h1h, s2, hst, hra, hrb⟩

/-! ## C7: typed access to an empty handle -/

/-- C7. On an empty handle, `const_val<T>()` (read) and `val<T>(raw)` (access) throw
E0006 (TypeMismatch) for every payload type `T` and both values of `raw`, and not
E0005 (EmptyValue): `type()` is `typeid(void)` there and the type test comes first.
The test `mDat == nullptr` that throws E0005 is reached for `typeid(void)` only, which
is the type of no payload. -/
theorem C7_empty_handle_throws_E0006 (s : State Val) (a : Nat) (h : s.mDat a = some none) :
    (∀ T : Nat, const_val s a (.of T) = .thrown .E0006 s) ∧
    (∀ (T : Nat) (raw : Bool), val s a (.of T) raw = .thrown .E0006 s) ∧
    const_val s a .void = .thrown .E0005 s ∧
    (∀ raw : Bool, val s a .void raw = .thrown .E0005 s) := by
  simp [const_val, val, type, h]

/-- C7 at `any e; e.const_val<int>(); e.val<int>();`. -/
theorem C7_empty_handle_throws_E0006_witness :
    const_val ex_null 0 (.of 0) = .thrown .E0006 ex_null ∧
    val ex_null 0 (.of 0) false = .thrown .E0006 ex_null :=
  ⟨(C7_empty_handle_throws_E0006 ex_null 0 rfl).1 0,
   (C7_empty_handle_throws_E0006 ex_null 0 rfl).2.1 0 false⟩

/-! ## C8: mutable access and protection -/

/-- C8. On a handle that is not empty, in a well-formed memory, whose stored type is
`T`: `val<T>(raw)` throws E000K (MutationForbidden) exactly when the level is 2
(Constant) or 3 (Single), for both values of `raw`.  At level 0 or 1, `val<T>(false)`
returns and leaves the handle on a proxy that did not exist before, with refcount 1
and level 0, whose holder the reference designates; `val<T>(true)` returns a reference
into the holder of the handle's proxy and leaves the memory as it was. -/
theorem C8_access_protection (s : State Val) (a p T : Nat) (px : proxy) (hwf : WF s)
    (ha : s.mDat a = some (some p)) (hp : s.slot p = some px)
    (hT : type s a = some (.of T)) :
    (∀ raw, (∃ s1, val s a (.of T) raw = .thrown .E000K s1) ↔
      (px.protect_level = 2 ∨ px.protect_level = 3)) ∧
    (px.protect_level = 0 ∨ px.protect_level = 1 →
      (∃ r s1, val s a (.of T) false = .ok r s1 ∧ s.slot s.proxies.length = none ∧
        s1.mDat a = some (some s.proxies.length) ∧
        s1.slot s.proxies.length = some ⟨0, 1, some r⟩) ∧
      (∃ r, val s a (.of T) true = .ok r s ∧ px.data = some r)) := by
  obtain ⟨h, hd, hpd, hh⟩ := hwf.data p px hp
  have hr := hwf.level p px hp
  have hty : T = hd.T := by
    simp only [type, ha, payload_eq s p h px hp hpd, hh, Option.map_some',
      Option.some.injEq, type_info.of.injEq] at hT
    exact hT.symm
  subst hty
  constructor
  · intro raw
    by_cases hl : px.protect_level > 1
    · have h23 : px.protect_level = 2 ∨ px.protect_level = 3 := by
        have := hr.2
        omega
      simp [val, hT, ha, hp, hl, h23]
    · have h23 : ¬ (px.protect_level = 2 ∨ px.protect_level = 3) := by omega
      obtain ⟨htrue, s1, -, hfalse⟩ :=
        val_spec s a p h px hd hwf ha hp hpd hh (by omega)
      cases raw
      · simp [hfalse, h23]
      · simp [htrue, h23]
  · intro h01
    obtain ⟨htrue, s1, hclone, hfalse⟩ :=
      val_spec s a p h px hd hwf ha hp hpd hh (by omega)
    obtain ⟨s1b, hclone2, -, h1a, -, h1s, -⟩ :=
      clone_spec s a p h px hd hwf ha hp hpd hh (by omega)
    rw [hclone] at hclone2
    cases hclone2
    exact ⟨⟨_, s1, hfalse, peek_length_le _ _ (le_refl _), h1a, h1s⟩, h, htrue, hpd⟩

/-- C8 at `any a(5); a.val<int>();`, and at `a.val<int>(true)`. -/
theorem C8_access_protection_witness :
    (∃ r s1, val ex_five 0 (.of 0) false = .ok r s1 ∧ s1.mDat 0 = some (some 1) ∧
      s1.slot 1 = some ⟨0, 1, some r⟩) ∧
    val ex_five 0 (.of 0) true = .ok 0 ex_five := by
  obtain ⟨⟨r, s1, h1, -, h2, h3⟩, r2, h4, h5⟩ :=
    (C8_access_protection ex_five 0 0 0 ⟨0, 1, some 0⟩
      (wf_of_run_all ex_traits [.ctor_value 0 5] ex_five (by decide)) rfl rfl rfl).2
      (Or.inl rfl)
  cases h5
  exact ⟨⟨r, s1, h1, h2, h3⟩, h4⟩

/-! ## C9: a call that throws changes nothing -/

/-- C9. No partial mutation on failure: whichever call of the interface throws
(raw swap, raw assign from a handle or from a value, clone, detach, protect,
constant, single, `val`, `const_val`, `get_ext`, or any other), and in whatever
memory, the memory at the throw — every handle, every proxy with its refcount, level
and `data`, every holder — is the memory before the call. -/
theorem C9_failure_changes_nothing (tr : Traits Val) (s : State Val) (op : Op Val) :
    ∀ e s1, run tr s op = .thrown e s1 → s1 = s :=
  fun e s1 h => run_thrown tr s s1 op e h

/-- C9 at `any a(5); a.protect(); any c(7); a.swap(c, true);`. -/
theorem C9_failure_changes_nothing_witness :
    run ex_traits ex_five_seven (.swap 0 1 true) = .thrown .E000J ex_five_seven ∧
    ex_five_seven = ex_five_seven ∧
    ∀ e s1, run ex_traits ex_five_seven (.swap 0 1 true) = .thrown e s1 →
      s1 = ex_five_seven :=
  ⟨by decide,
   C9_failure_changes_nothing ex_traits ex_five_seven (.swap 0 1 true) .E000J ex_five_seven
     (by decide),
   C9_failure_changes_nothing ex_traits ex_five_seven (.swap 0 1 true)⟩

/-! ## C10: the refcount invariant -/

/-- C10. Refcount invariant.  In every memory a program can reach from the empty
memory, by any calls of the interface of `any`: every proxy that exists has a holder
that exists (its `data` is not null) and a refcount that is at least 1 and is the
number of handles pointing to it; every handle that is not empty points to a proxy
that exists; and when a handle releases its proxy (`recycle`), that proxy is destroyed
exactly when its refcount was 1, the release bringing it to 0, and no other proxy is
destroyed or changed. -/
theorem C10_refcount_invariant (tr : Traits Val) (s : State Val) (hr : Reachable tr s) :
    (∀ p px, s.slot p = some px →
      px.refcount = s.refs p ∧ 1 ≤ px.refcount ∧
        ∃ h hd, px.data = some h ∧ s.hold h = some hd) ∧
    (∀ a p, s.mDat a = some (some p) → ∃ px, s.slot p = some px) ∧
    (∀ a p px, s.mDat a = some (some p) → s.slot p = some px →
      ∃ s1, recycle s a = .ok () s1 ∧ (s1.slot p = none ↔ px.refcount = 1) ∧
        ∀ q, q ≠ p → s1.slot q = s.slot q) := by
  have hwf := wf_of_reachable tr s hr
  refine ⟨fun p px hp => ⟨(hwf.count p px hp).1, (hwf.count p px hp).2, hwf.data p px hp⟩,
    hwf.live, fun a p px ha hp => ?_⟩
  obtain ⟨h, hd, hpd, hh⟩ := hwf.data p px hp
  obtain ⟨s1, hrec, hsl, -, -, -⟩ :=
    recycle_slots s a p h px hd ha hp hpd hh (hwf.count p px hp).2
  refine ⟨s1, hrec, ?_, fun q hq => by rw [hsl, if_neg hq]⟩
  rw [hsl, if_pos rfl]
  by_cases h1 : px.refcount = 1
  · simp [h1]
  · simp [h1]

/-- C10 at `any a(5); any b(7); any c(a);`: the proxy of `a` and `c` has refcount 2 and
two handles, and `recycle` on `c` does not destroy it. -/
theorem C10_refcount_invariant_witness :
    Reachable ex_traits ex_shared ∧
    ((2 : Nat) = ex_shared.refs 0 ∧ 1 ≤ (2 : Nat) ∧
      ∃ h hd, (some 0 : Option Nat) = some h ∧ ex_shared.hold h = some hd) ∧
    (∃ s1, recycle ex_shared 2 = .ok () s1 ∧ (s1.slot 0 = none ↔ (2 : Nat) = 1) ∧
      ∀ q, q ≠ 0 → s1.slot q = ex_shared.slot q) :=
  ⟨reachable_run_all ex_traits [.ctor_value 0 5, .ctor_value 0 7, .ctor_copy 0]
      State.empty ex_shared Reachable.empty (by decide),
   (C10_refcount_invariant ex_traits ex_shared
      (reachable_run_all ex_traits [.ctor_value 0 5, .ctor_value 0 7, .ctor_copy 0]
        State.empty ex_shared Reachable.empty (by decide))).1 0 ⟨0, 2, some 0⟩ rfl,
   (C10_refcount_invariant ex_traits ex_shared
      (reachable_run_all ex_traits [.ctor_value 0 5, .ctor_value 0 7, .ctor_copy 0]
        State.empty ex_shared Reachable.empty (by decide))).2.2 2 0 ⟨0, 2, some 0⟩ rfl rfl⟩

/-! ## C11: copy is sharing -/

/-- C11. Copy is sharing.  In a well-formed memory, the copy constructor `any b(a)` and
the copy assignment `b = a` (for a handle `b` other than `a`) return.  When `a` is
empty, `b` is empty and the copy constructor changes no proxy and no holder.  When `a`
is on the proxy `p`, `b` is on `p` too, so `b.is_same(a)`; the proxy `p` keeps its
level and its `data`, the holder behind it is unchanged, and its refcount is one
higher, except after `b = a` for a `b` that was on `p` already, where it is the same.
No level is tested: this holds at level 3 (Single) as at every other. -/
theorem C11_copy_is_sharing (s : State Val) (a : Nat) (hwf : WF s) :
    (s.mDat a = some none →
      (∃ s1, ctor_copy s a = .ok s.objs.length s1 ∧ s.mDat s.objs.length = none ∧
        s1.mDat s.objs.length = some none ∧ s1.proxies = s.proxies ∧
        s1.holders = s.holders) ∧
      (∀ b n, b ≠ a → s.mDat b = some n →
        ∃ s1, copy_assign s b a = .ok () s1 ∧ s1.mDat b = some none)) ∧
    (∀ p px, s.mDat a = some (some p) → s.slot p = some px →
      (∃ s1, ctor_copy s a = .ok s.objs.length s1 ∧ s.mDat s.objs.length = none ∧
        s1.mDat s.objs.length = some (some p) ∧
        is_same s1 s.objs.length a = some true ∧
        s1.slot p = some { px with refcount := px.refcount + 1 } ∧
        s1.holders = s.holders) ∧
      (∀ b n, b ≠ a → s.mDat b = some n →
        ∃ s1, copy_assign s b a = .ok () s1 ∧ s1.mDat b = some (some p) ∧
          is_same s1 b a = some true ∧
          s1.slot p = some { px with
            refcount := if n = some p then px.refcount else px.refcount + 1 } ∧
          ∃ k kd, px.data = some k ∧ s.hold k = some kd ∧ s1.hold k = some kd)) := by
  constructor
  · intro ha
    constructor
    · refine ⟨(s.new_any none).2, ?_, ?_, ?_, rfl, rfl⟩
      · simp only [ctor_copy, duplicate, ha, Outcome.bind]
        rfl
      · simp only [State.mDat, peek_length_le _ _ (le_refl _), Option.map_none']
      · show (peek (s.objs ++ [_]) s.objs.length).map any.mDat = _
        rw [peek_append, if_pos rfl]
        rfl
    · intro b n hne hb
      obtain ⟨s1, hok, h1b, -, -⟩ := copy_assign_empty s a b n hwf hne ha hb
      exact ⟨s1, hok, h1b⟩
  · intro p px ha hp
    obtain ⟨k, kd, hk, hkd⟩ := hwf.data p px hp
    constructor
    · obtain ⟨s1, hcopy, hnew, h1b, h1c, h1p, -, h1h⟩ := ctor_copy_spec s a p px ha hp
      have hne : a ≠ s.objs.length := by
        have := mDat_lt s a _ ha
        omega
      refine ⟨s1, hcopy, hnew, h1b, ?_, h1p, h1h⟩
      simp only [is_same, h1b, h1c a hne, ha, decide_True]
    · intro b n hne hb
      obtain ⟨s1, hok, h1b, h1a, -, h1p, h1h⟩ :=
        copy_assign_shares s a b p k n px kd hwf hne ha hb hp hk hkd
      refine ⟨s1, hok, h1b, ?_, h1p, k, kd, hk, hkd, h1h⟩
      simp only [is_same, h1b, h1a, decide_True]

/-- C11 at `any a(5); a.single(); any d(a);`: the copy returns, `d.is_same(a)`, and the
proxy they share is at level 3 with refcount 2. -/
theorem C11_copy_is_sharing_witness :
    ∃ s1, ctor_copy ex_single 0 = .ok 1 s1 ∧ s1.mDat 1 = some (some 0) ∧
      is_same s1 1 0 = some true ∧ s1.slot 0 = some ⟨3, 2, some 0⟩ := by
  obtain ⟨s1, h1, -, h2, h3, h4, -⟩ :=
    ((C11_copy_is_sharing ex_single 0
      (wf_of_run_all ex_traits [.ctor_value 0 5, .single 0] ex_single (by decide))).2
      0 ⟨3, 1, some 0⟩ rfl rfl).1
  exact ⟨s1, h1, h2, h3, h4⟩

/-! ## C12: `clone()` and `detach()` at level Single -/

/-- C12. In a well-formed memory, on a handle that is not empty, `clone()` and
`detach()` throw E000L (CannotDuplicate) exactly when the level of its proxy is 3
(Single); below that both return.  On an empty handle both return and change nothing.
A `detach()` that returns leaves every handle and every proxy as it was (so the handle
is on the same proxy, with the same refcount and level) and no holder changed but the
one of the handle, whose payload `x` has become `detach(x)`. -/
theorem C12_clone_detach_single (tr : Traits Val) (s : State Val) (a : Nat) (hwf : WF s) :
    (s.mDat a = some none → clone s a = .ok () s ∧ detach tr s a = .ok () s) ∧
    (∀ p px, s.mDat a = some (some p) → s.slot p = some px →
      ((∃ s1, clone s a = .thrown .E000L s1) ↔ px.protect_level = 3) ∧
      ((∃ s1, detach tr s a = .thrown .E000L s1) ↔ px.protect_level = 3) ∧
      (px.protect_level ≠ 3 →
        (∃ s1, clone s a = .ok () s1) ∧
        ∃ s1 h hd, px.data = some h ∧ s.hold h = some hd ∧ detach tr s a = .ok () s1 ∧
          s1.objs = s.objs ∧ s1.proxies = s.proxies ∧
          ∀ k, s1.hold k
            = if k = h then some { hd with mDat := tr.detach hd.T hd.mDat }
              else s.hold k)) := by
  constructor
  · intro ha
    simp [clone, detach, ha]
  · intro p px ha hp
    obtain ⟨h, hd, hpd, hh⟩ := hwf.data p px hp
    have hr := hwf.level p px hp
    by_cases hl : px.protect_level > 2
    · have h3 : px.protect_level = 3 := by
        have := hr.2
        omega
      refine ⟨?_, ?_, fun hn => absurd h3 hn⟩
      · simp [clone, ha, hp, hl, h3]
      · simp [detach, ha, hp, hl, h3]
    · have h3 : ¬ px.protect_level = 3 := by omega
      obtain ⟨s1, hclone, -⟩ := clone_spec s a p h px hd hwf ha hp hpd hh (by omega)
      have hdet : detach tr s a
          = .ok () (s.set_hold h { hd with mDat := tr.detach hd.T hd.mDat }) := by
        simp only [detach, ha, hp, hl, if_false, hpd, hh]
      refine ⟨?_, ?_, fun _ => ⟨⟨s1, hclone⟩, _, h, hd, hpd, hh, hdet, rfl, rfl,
        fun k => hold_set_hold s h k hd _ hh⟩⟩
      · simp [hclone, h3]
      · simp [hdet, h3]

/-- C12 at `any a(5); a.detach();` and at `any a(5); a.single(); a.clone();
a.detach();`. -/
theorem C12_clone_detach_single_witness :
    (∃ s1, detach ex_traits ex_five 0 = .ok () s1 ∧ s1.objs = ex_five.objs ∧
      s1.proxies = ex_five.proxies) ∧
    (∃ s1, clone ex_single 0 = .thrown .E000L s1) ∧
    (∃ s1, detach ex_traits ex_single 0 = .thrown .E000L s1) := by
  obtain ⟨s1, h, hd, -, -, h1, h2, h3, -⟩ :=
    (((C12_clone_detach_single ex_traits ex_five 0
      (wf_of_run_all ex_traits [.ctor_value 0 5] ex_five (by decide))).2
      0 ⟨0, 1, some 0⟩ rfl rfl).2.2 (by decide)).2
  have hs := (C12_clone_detach_single ex_traits ex_single 0
    (wf_of_run_all ex_traits [.ctor_value 0 5, .single 0] ex_single (by decide))).2
    0 ⟨3, 1, some 0⟩ rfl rfl
  exact ⟨⟨s1, h1, h2, h3⟩, hs.1.mpr rfl, hs.2.1.mpr rfl⟩

/-! ## C13: the raw assign from a handle -/

/-- C13. Raw assign from a handle.  In a well-formed memory, for two handles `a` and
`b` that are not empty and are on different proxies, `a.assign(b, true)` throws E000J
(ProtectedMutation) unless both proxies are at level 0, throws nothing else, and
leaves the memory as it was when it throws.  When both are at level 0 it returns:
every handle keeps its pointer; the proxy of `a` keeps its refcount and its level and
has a new holder, equal to the holder of `b`; no other proxy changes.  So every handle
on the proxy of `a` reads the payload of `b`, and every handle elsewhere, `b` among
them, reads what it read.  When `obj` is `a` itself, or a handle with the pointer of
`a`, `assign` returns and changes nothing, for both values of `raw`. -/
theorem C13_raw_assign (s : State Val) (a p : Nat) (px : proxy) (hwf : WF s)
    (ha : s.mDat a = some (some p)) (hp : s.slot p = some px) :
    (∀ b q qx, s.mDat b = some (some q) → s.slot q = some qx → p ≠ q →
      ((∃ s1, assign s a b true = .thrown .E000J s1) ↔
        ¬ (px.protect_level = 0 ∧ qx.protect_level = 0)) ∧
      (∀ e s1, assign s a b true = .thrown e s1 → e = .E000J ∧ s1 = s) ∧
      (px.protect_level = 0 → qx.protect_level = 0 →
        ∃ s1 kd, s.payload q = some kd ∧ assign s a b true = .ok () s1 ∧
          s1.objs = s.objs ∧
          s1.slot p = some { px with data := some s.holders.length } ∧
          s.hold s.holders.length = none ∧ s1.hold s.holders.length = some kd ∧
          (∀ r, r ≠ p → s1.slot r = s.slot r) ∧
          (∀ c, s.mDat c = some (some p) → const_val s1 c (.of kd.T) = .ok kd.mDat s1) ∧
          (∀ c T v, s.mDat c ≠ some (some p) → const_val s c T = .ok v s →
            const_val s1 c T = .ok v s1))) ∧
    (∀ c raw, s.mDat c = s.mDat a → assign s a c raw = .ok () s) := by
  constructor
  · intro b q qx hb hq hne
    obtain ⟨h, hd, hpd, hh⟩ := hwf.data p px hp
    obtain ⟨k, kd, hk, hkd⟩ := hwf.data q qx hq
    have hrp := hwf.level p px hp
    have hrq := hwf.level q qx hq
    have hba : b ≠ a := by
      intro e
      subst e
      rw [ha] at hb
      exact hne (by simpa using hb)
    have hcond : b ≠ a ∧ some q ≠ some p :=
      ⟨hba, fun e => hne (by simpa using e.symm)⟩
    have key : ¬ (px.protect_level = 0 ∧ qx.protect_level = 0) →
        assign s a b true = .thrown .E000J s := by
      intro hn
      have hl : px.protect_level > 0 ∨ qx.protect_level > 0 := by
        have := hrp.1
        have := hrq.1
        omega
      simp only [assign, ha, hb, hcond, and_self, ne_eq, not_false_eq_true, if_true, hp, hq,
        hl]
    have good : px.protect_level = 0 → qx.protect_level = 0 →
        ∃ s1, assign s a b true = .ok () s1 ∧ s1.objs = s.objs ∧
          (∀ r, s1.slot r
            = if r = p then some { px with data := some s.holders.length } else s.slot r) ∧
          (∀ j, s1.hold j = if j = s.holders.length then some kd
            else if j = h then none else s.hold j) :=
      fun h0 h1 => assign_raw_spec s a b p q h k px qx kd hwf ha hb hp hq hne hpd hk hkd h0 h1
    refine ⟨?_, ?_, ?_⟩
    · constructor
      · rintro ⟨s1, hth⟩ ⟨h0, h1⟩
        obtain ⟨s2, hok, -⟩ := good h0 h1
        rw [hok] at hth
        cases hth
      · intro hn
        exact ⟨s, key hn⟩
    · intro e s1 hth
      by_cases hn : px.protect_level = 0 ∧ qx.protect_level = 0
      · obtain ⟨s2, hok, -⟩ := good hn.1 hn.2
        rw [hok] at hth
        cases hth
      · rw [key hn] at hth
        cases hth
        exact ⟨rfl, rfl⟩
    · intro h0 h1
      obtain ⟨s1, hok, hobj, hsl, hho⟩ := good h0 h1
      have hkl : k ≠ s.holders.length := by
        have := peek_lt _ _ _ hkd
        omega
      have hmd : ∀ c, s1.mDat c = s.mDat c := fun c => by simp only [State.mDat, hobj]
      refine ⟨s1, kd, ?_, hok, hobj, ?_, peek_length_le _ _ (le_refl _), ?_, ?_, ?_, ?_⟩
      · rw [payload_eq s q k qx hq hk, hkd]
      · rw [hsl, if_pos rfl]
      · rw [hho, if_pos rfl]
      · intro r hr
        rw [hsl, if_neg hr]
      · intro c hc
        exact const_val_of_chain s1 c p s.holders.length _ kd (by rw [hmd, hc])
          (by rw [hsl, if_pos rfl]) rfl (by rw [hho, if_pos rfl])
      · intro c T v hc hread
        obtain ⟨r, rx, j, jd, hcr, hr, hj, hjd, hT, hv⟩ := const_val_chain s c T v hwf hread
        have hrp : r ≠ p := by
          intro e
          subst e
          exact hc hcr
        have hjl : j ≠ s.holders.length := by
          have := peek_lt _ _ _ hjd
          omega
        have hjh : j ≠ h := by
          intro e
          subst e
          exact hrp (hwf.owner r p rx px hr hp (by rw [hj, hpd]))
        have := const_val_of_chain s1 c r j rx jd (by rw [hmd, hcr])
          (by rw [hsl, if_neg hrp]; exact hr) hj
          (by rw [hho, if_neg hjl, if_neg hjh]; exact hjd)
        rw [hT, ← hv]
        exact this
  · intro c raw hc
    rw [ha] at hc
    simp only [assign, ha, hc, ne_eq, not_true_eq_false, and_false, if_false]

/-- C13 at `any a(5); any b(7); any c(a); a.assign(b, true);`: `a` and its sibling `c`
read `7`, `b` still reads `7`, and the proxy of `a` still has refcount 2 and level 0. -/
theorem C13_raw_assign_witness :
    ∃ s1, assign ex_shared 0 1 true = .ok () s1 ∧ s1.slot 0 = some ⟨0, 2, some 2⟩ ∧
      const_val s1 0 (.of 0) = .ok 7 s1 ∧ const_val s1 2 (.of 0) = .ok 7 s1 ∧
      const_val s1 1 (.of 0) = .ok 7 s1 ∧ assign ex_shared 0 2 true = .ok () ex_shared := by
  have h := C13_raw_assign ex_shared 0 0 ⟨0, 2, some 0⟩
    (wf_of_run_all ex_traits [.ctor_value 0 5, .ctor_value 0 7, .ctor_copy 0] ex_shared
      (by decide)) rfl rfl
  obtain ⟨s1, kd, hkd, hok, -, hsl, -, -, -, hsib, hoth⟩ :=
    (h.1 1 1 ⟨0, 1, some 1⟩ rfl rfl (by decide)).2.2 rfl rfl
  cases hkd
  exact ⟨s1, hok, hsl, hsib 0 rfl, hsib 2 rfl, hoth 1 (.of 0) 7 (by decide) (by decide),
    h.2 2 true rfl⟩

/-! ## C14: the cooked assign leaves the siblings alone -/

/-- C14. Cooked assign never mutates siblings.  In a well-formed memory, for every
handle `a`, empty or not: `a.assign(b)` from a handle `b` that is not empty and is on
another proxy, and `a.assign(dat)` and `a = dat` from an object `dat` that `a.recycle()`
does not destroy (a value outside the memory of the handles, or the payload of a
holder that `a` does not own alone), return; `a` has released its proxy (one reference
less, the proxy gone when it was the last) and points to a proxy that did not exist,
with refcount 1 and level 0, holding a copy of the payload of `b` (of `dat`, in a
holder of the type `holder_type T`); every other handle, `b` and the former siblings
of `a` among them, keeps its pointer, reads the payload it read and shows the level it
showed.  When `dat` is the payload of the holder that `a` owns alone, as in
`a = a.const_val<T>()` on a handle that shares its proxy with none, `recycle()`
destroys the holder before `dat` is copied: the call has no defined behaviour. -/
theorem C14_cooked_assign_frame (s : State Val) (a : Nat) (m : Option Nat) (hwf : WF s)
    (ha : s.mDat a = some m) :
    (∀ b q, s.mDat b = some (some q) → m ≠ some q →
      ∃ s1 kd, s.payload q = some kd ∧ assign s a b false = .ok () s1 ∧
        Reassigned s s1 a kd.T kd.mDat) ∧
    (∀ T v, ∃ s1, assign_value s a T (.value v) false = .ok () s1 ∧
      assign_op s a T (.value v) = .ok () s1 ∧ Reassigned s s1 a (holder_type T) v) ∧
    (∀ T h hd, s.hold h = some hd → owns_alone s a h = false →
      ∃ s1, assign_value s a T (.payload h) false = .ok () s1 ∧
        assign_op s a T (.payload h) = .ok () s1 ∧
        Reassigned s s1 a (holder_type T) hd.mDat) ∧
    (∀ T h, owns_alone s a h = true →
      assign_value s a T (.payload h) false = .undefined ∧
      assign_op s a T (.payload h) = .undefined) := by
  obtain ⟨s2, hrec, hho⟩ := recycle_holds s a m hwf ha
  refine ⟨?_, ?_, ?_, ?_⟩
  · intro b q hb hne
    obtain ⟨qx, hq⟩ := hwf.live b q hb
    obtain ⟨k, kd, hk, hkd⟩ := hwf.data q qx hq
    obtain ⟨s1, hav, -, hre⟩ := assign_holder_reassigned s a kd.T kd.mDat m hwf ha
    refine ⟨s1, kd, ?_, ?_, hre⟩
    · rw [payload_eq s q k qx hq hk, hkd]
    · rw [assign_cooked_eq s a b q k m qx kd hwf ha hb hne hq hk hkd]
      exact hav
  · intro T v
    obtain ⟨s1, hav, -, hre⟩ := assign_holder_reassigned s a (holder_type T) v m hwf ha
    have e := assign_value_value s a T v false
    exact ⟨s1, e.trans hav, e.trans hav, hre⟩
  · intro T h hd hh hown
    obtain ⟨s1, hav, -, hre⟩ :=
      assign_holder_reassigned s a (holder_type T) hd.mDat m hwf ha
    have hg : Arg.get s2 (.payload h) = some hd.mDat := by
      simp [Arg.get, hho h, hown, hh]
    have e : assign_value s a T (.payload h) false
        = assign_holder s a (holder_type T) hd.mDat false := by
      rw [assign_value_cooked s s2 a T _ hrec, hg]
    exact ⟨s1, e.trans hav, e.trans hav, hre⟩
  · intro T h hown
    have hg : Arg.get s2 (Arg.payload h : Arg Val) = none := by
      simp [Arg.get, hho h, hown]
    have e : assign_value s a T (.payload h) false = .undefined := by
      rw [assign_value_cooked s s2 a T _ hrec, hg]
    exact ⟨e, e⟩

/-- C14 at `any a(5); any b(7); any c(a); c.assign(b);`: `c` is on the new proxy `2`
holding `7`, the proxy `0` is left with refcount 1, `a` still reads `5` and `b` still
reads `7`.  At `any a(5); a = "abc";`, here with the payload `7` of type `char[4]`:
`a` is read at `std::string`.  And at `any a(5); a = a.const_val<int>();`, where the
argument is the payload of the holder `0` that `a` owns alone: the call has no defined
behaviour. -/
theorem C14_cooked_assign_frame_witness :
    (∃ s1, assign ex_shared 2 1 false = .ok () s1 ∧ s1.mDat 2 = some (some 2) ∧
      s1.slot 2 = some ⟨0, 1, some 2⟩ ∧ const_val s1 2 (.of 0) = .ok 7 s1 ∧
      s1.slot 0 = some ⟨0, 1, some 0⟩ ∧ const_val s1 0 (.of 0) = .ok 5 s1 ∧
      const_val s1 1 (.of 0) = .ok 7 s1) ∧
    (∃ s1, assign_op ex_five 0 (char_array 4) (.value 7) = .ok () s1 ∧
      const_val s1 0 (.of std_string) = .ok 7 s1) ∧
    const_val ex_five 0 (.of 0) = .ok 5 ex_five ∧ owns_alone ex_five 0 0 = true ∧
    assign_op ex_five 0 0 (.payload 0) = .undefined := by
  have h5 := C14_cooked_assign_frame ex_five 0 (some 0)
    (wf_of_run_all ex_traits [.ctor_value 0 5] ex_five (by decide)) rfl
  obtain ⟨s2, -, h2, hre2⟩ := h5.2.1 (char_array 4) 7
  obtain ⟨s1, kd, hkd, h1, hre⟩ :=
    (C14_cooked_assign_frame ex_shared 2 (some 0)
      (wf_of_run_all ex_traits [.ctor_value 0 5, .ctor_value 0 7, .ctor_copy 0] ex_shared
        (by decide)) rfl).1 1 1 rfl (by decide)
  cases hkd
  exact ⟨⟨s1, h1, hre.new_handle, hre.new_proxy, hre.new_read,
    hre.released 0 ⟨0, 2, some 0⟩ rfl rfl, hre.reads 0 (.of 0) 5 (by decide) (by decide),
    hre.reads 1 (.of 0) 7 (by decide) (by decide)⟩, ⟨s2, h2, hre2.new_read⟩, rfl, rfl,
    (h5.2.2.2 0 0 rfl).2⟩

/-! ## C15: when two handles compare equal -/

/-- C15. For all handles `a` and `b`, `a.compare(b)` is true if and only if either
both are empty, or both are non-empty, hold payloads `x` and `y` of one and the same
type `T`, and the per-type compare of `T` reports `x` and `y` equal.  In particular:
two empty handles compare equal; an empty and a non-empty handle compare unequal, in
either order; two payloads of the same type compare as the per-type compare says; and
two payloads of different types compare unequal under every per-type compare, which is
therefore not consulted. -/
theorem C15_compare_iff (tr : Traits Val) (s : State Val) (a b : Nat) :
    (compare tr s a b = some true ↔
      (s.mDat a = some none ∧ s.mDat b = some none) ∨
      (∃ T x y, const_val s a (.of T) = .ok x s ∧ const_val s b (.of T) = .ok y s ∧
        tr.compare T x y = true)) ∧
    (s.mDat a = some none → s.mDat b = some none → compare tr s a b = some true) ∧
    (∀ q, s.mDat a = some none → s.mDat b = some (some q) →
      compare tr s a b = some false ∧ compare tr s b a = some false) ∧
    (∀ T U x y, const_val s a (.of T) = .ok x s → const_val s b (.of U) = .ok y s →
      (U = T → compare tr s a b = some (tr.compare T x y)) ∧
      (U ≠ T → ∀ tr1 : Traits Val, compare tr1 s a b = some false)) := by
  refine ⟨?_, ?_, ?_, ?_⟩
  · rw [compare_true_iff]
    constructor
    · rintro (h | ⟨p, q, hd, od, ha, hb, hp, hq, hT, hc⟩)
      · exact Or.inl h
      · exact Or.inr ⟨hd.T, hd.mDat, od.mDat,
          (const_val_iff s a hd.T hd.mDat).2 ⟨p, hd, ha, hp, rfl, rfl⟩,
          (const_val_iff s b hd.T od.mDat).2 ⟨q, od, hb, hq, hT, rfl⟩, hc⟩
    · rintro (h | ⟨T, x, y, hx, hy, hc⟩)
      · exact Or.inl h
      · obtain ⟨p, hd, ha, hp, hT, hdx⟩ := (const_val_iff s a T x).1 hx
        obtain ⟨q, od, hb, hq, hU, hdy⟩ := (const_val_iff s b T y).1 hy
        refine Or.inr ⟨p, q, hd, od, ha, hb, hp, hq, by rw [hT, hU], ?_⟩
        rw [hT, hdx, hdy]
        exact hc
  · intro ha hb
    exact (compare_true_iff tr s a b).2 (Or.inl ⟨ha, hb⟩)
  · intro q ha hb
    constructor
    · simp [compare, ha, hb]
    · simp [compare, ha, hb]
  · intro T U x y hx hy
    obtain ⟨p, hd, ha, hp, hT, hdx⟩ := (const_val_iff s a T x).1 hx
    obtain ⟨q, od, hb, hq, hU, hdy⟩ := (const_val_iff s b U y).1 hy
    constructor
    · intro h
      simp [compare, ha, hb, hp, hq, holder_compare, hT, hU, hdx, hdy, h]
    · intro h tr1
      simp [compare, ha, hb, hp, hq, holder_compare, hT, hU, h]

/-- C15 at the handles of `ex_mixed`, which are on a `5` of type `0`, on a `5` of type
`1` and empty, under the per-type compare of `ex_traits` (equality of the integers):
the two payloads compare unequal although the per-type compare finds them equal, the
empty handle compares equal to itself and unequal to the first; the two `5` of type `0`
of `ex_twins` compare equal. -/
theorem C15_compare_iff_witness :
    ex_traits.compare 0 5 5 = true ∧ compare ex_traits ex_mixed 0 1 = some false ∧
      compare ex_traits ex_mixed 2 2 = some true ∧
      compare ex_traits ex_mixed 2 0 = some false ∧
      compare ex_traits ex_mixed 0 2 = some false ∧
      compare ex_traits ex_twins 0 1 = some true :=
  ⟨by decide,
    ((C15_compare_iff ex_traits ex_mixed 0 1).2.2.2 0 1 5 5 rfl rfl).2 (by decide) ex_traits,
    (C15_compare_iff ex_traits ex_mixed 2 2).2.1 rfl rfl,
    ((C15_compare_iff ex_traits ex_mixed 2 0).2.2.1 0 rfl rfl).1,
    ((C15_compare_iff ex_traits ex_mixed 2 0).2.2.1 0 rfl rfl).2,
    (C15_compare_iff ex_traits ex_twins 0 1).1.2 (Or.inr ⟨0, 5, 5, rfl, rfl, by decide⟩)⟩

/-! ## C16: a protection transition and the sibling handles -/

/-- C16, the claim as stated fails: in `ex_shared` the handles `0` and `2` share the
proxy `0`, which is at level 0; `protect()` through the handle `0` returns, and
`is_protect()` through the handle `2` is false before the call and true after it. -/
theorem C16_sibling_level_changes :
    ex_shared.mDat 0 = some (some 0) ∧ ex_shared.mDat 2 = some (some 0) ∧
      ∃ s1, protect ex_shared 0 = .ok () s1 ∧ is_protect ex_shared 2 = some false ∧
        is_protect s1 2 = some true ∧ observed s1 2 ≠ observed ex_shared 2 :=
  ⟨rfl, rfl, _, rfl, rfl, rfl, by decide⟩

/-- C16, amended. For every handle `a` that shares its proxy with a sibling handle `b`:
a protection transition performed through `a` that returns is observed through `b`
exactly as through `a`, the level of the common proxy being afterwards 1 after
`protect()`, 2 after `constant()` and 3 after `single()`; what is observed through a
handle that is not on this proxy does not change; a transition that throws changes
nothing.  In particular, when the common proxy is at level 0, `a.protect()` returns and
changes `b.is_protect()` from false to true. -/
theorem C16_transition_seen_by_siblings (s : State Val) (a b p : Nat) (px : proxy)
    (ha : s.mDat a = some (some p)) (hb : s.mDat b = some (some p))
    (hp : s.slot p = some px) :
    (∀ s1, protect s a = .ok () s1 →
      s1.slot p = some { px with protect_level := 1 } ∧
      observed s1 b = (some true, some false, some false) ∧ observed s1 a = observed s1 b ∧
      ∀ c, s.mDat c ≠ some (some p) → observed s1 c = observed s c) ∧
    (∀ s1, constant s a = .ok () s1 →
      s1.slot p = some { px with protect_level := 2 } ∧
      observed s1 b = (some true, some true, some false) ∧ observed s1 a = observed s1 b ∧
      ∀ c, s.mDat c ≠ some (some p) → observed s1 c = observed s c) ∧
    (∀ s1, single s a = .ok () s1 →
      s1.slot p = some { px with protect_level := 3 } ∧
      observed s1 b = (some true, some true, some true) ∧ observed s1 a = observed s1 b ∧
      ∀ c, s.mDat c ≠ some (some p) → observed s1 c = observed s c) ∧
    (∀ e s1, protect s a = .thrown e s1 ∨ constant s a = .thrown e s1 ∨
      single s a = .thrown e s1 → s1 = s) ∧
    (px.protect_level = 0 → ∃ s1, protect s a = .ok () s1 ∧
      is_protect s b = some false ∧ is_protect s1 b = some true) := by
  refine ⟨?_, ?_, ?_, ?_, ?_⟩
  · intro s1 h
    simp only [protect, ha, hp] at h
    split at h
    · cases h
    · cases h
      refine ⟨by simp [slot_set_slot s p p px _ hp], ?_, ?_, ?_⟩
      · rw [observed_set_slot s p b px _ hp, if_pos hb]
        rfl
      · rw [observed_set_slot s p b px _ hp, observed_set_slot s p a px _ hp, if_pos ha,
          if_pos hb]
      · intro c hc
        rw [observed_set_slot s p c px _ hp, if_neg hc]
  · intro s1 h
    simp only [constant, ha, hp] at h
    split at h
    · cases h
    · cases h
      refine ⟨by simp [slot_set_slot s p p px _ hp], ?_, ?_, ?_⟩
      · rw [observed_set_slot s p b px _ hp, if_pos hb]
        rfl
      · rw [observed_set_slot s p b px _ hp, observed_set_slot s p a px _ hp, if_pos ha,
          if_pos hb]
      · intro c hc
        rw [observed_set_slot s p c px _ hp, if_neg hc]
  · intro s1 h
    simp only [single, ha, hp] at h
    split at h
    · cases h
    · cases h
      refine ⟨by simp [slot_set_slot s p p px _ hp], ?_, ?_, ?_⟩
      · rw [observed_set_slot s p b px _ hp, if_pos hb]
        rfl
      · rw [observed_set_slot s p b px _ hp, observed_set_slot s p a px _ hp, if_pos ha,
          if_pos hb]
      · intro c hc
        rw [observed_set_slot s p c px _ hp, if_neg hc]
  · rintro e s1 (h | h | h)
    · exact protect_thrown s s1 a e h
    · exact constant_thrown s s1 a e h
    · exact single_thrown s s1 a e h
  · intro h0
    have hl : ¬ px.protect_level > 1 := by omega
    refine ⟨s.set_slot p { px with protect_level := 1 }, ?_, ?_, ?_⟩
    · simp only [protect, ha, hp, hl, if_false]
    · simp [is_protect, hb, hp, h0]
    · have hm : (s.set_slot p { px with protect_level := 1 }).mDat b = some (some p) := hb
      simp [is_protect, hm, slot_set_slot s p p px _ hp]

/-- C16, amended, at `ex_shared`, where the handles `0` and `2` share the proxy `0`
and the handle `1` is on the proxy `1`: after `constant()` through the handle `0`, the
handle `2` is protected and constant and not single, and the handle `1` is none of
them. -/
theorem C16_transition_seen_by_siblings_witness :
    ∃ s1, constant ex_shared 0 = .ok () s1 ∧
      observed s1 2 = (some true, some true, some false) ∧
      observed s1 1 = (some false, some false, some false) := by
  have h := (C16_transition_seen_by_siblings ex_shared 0 2 0 ⟨0, 2, some 0⟩ rfl rfl rfl).2.1
    _ rfl
  exact ⟨_, rfl, h.2.1, (h.2.2.2 1 (by decide)).trans rfl⟩

/-! ## C17: the cooked swap -/

/-- C17. Cooked swap.  For all handles `a` and `b`, empty or not, whatever the levels
of their proxies, `a.swap(b)` with `raw = false` returns, and so does not throw; after
it `a` has the pointer that `b` had and `b` the pointer that `a` had, so that each
reads what the other read; the proxies and the holders, hence every refcount, level,
holder and payload, are what they were; every other handle has its pointer, observes
the level and reads the payload it did.  With `raw = true` and at least one of the two
handles empty, the call does the same. -/
theorem C17_cooked_swap (s : State Val) (a b : Nat) (m n : Option Nat)
    (ha : s.mDat a = some m) (hb : s.mDat b = some n) :
    ∃ s1, swap s a b false = .ok () s1 ∧ s1.mDat a = some n ∧ s1.mDat b = some m ∧
      s1.proxies = s.proxies ∧ s1.holders = s.holders ∧
      (∀ T v, const_val s b T = .ok v s → const_val s1 a T = .ok v s1) ∧
      (∀ T v, const_val s a T = .ok v s → const_val s1 b T = .ok v s1) ∧
      observed s1 a = observed s b ∧ observed s1 b = observed s a ∧
      (∀ c, c ≠ a → c ≠ b → s1.mDat c = s.mDat c ∧ observed s1 c = observed s c ∧
        ∀ T v, const_val s c T = .ok v s → const_val s1 c T = .ok v s1) ∧
      (m = none ∨ n = none → swap s a b true = .ok () s1) := by
  have hm := fun c => exchange_mDat s a b c m n ha hb
  have h1 : ((s.set_mDat a n).set_mDat b m).mDat a = s.mDat b := by
    rw [hm, hb]
    split
    · next e => rw [← ha, e, hb]
    · rw [if_pos rfl]
  have h2 : ((s.set_mDat a n).set_mDat b m).mDat b = s.mDat a := by
    rw [hm, if_pos rfl, ha]
  have h3 : ∀ c, c ≠ a → c ≠ b → ((s.set_mDat a n).set_mDat b m).mDat c = s.mDat c := by
    intro c hca hcb
    rw [hm, if_neg hcb, if_neg hca]
  refine ⟨(s.set_mDat a n).set_mDat b m, swap_cooked s a b m n false ha hb (Or.inl rfl),
    h1.trans hb, h2.trans ha, rfl, rfl, ?_, ?_, observed_congr s _ a b h1 rfl,
    observed_congr s _ b a h2 rfl, ?_, ?_⟩
  · intro T v h
    exact const_val_congr s _ a b T v h1 rfl rfl h
  · intro T v h
    exact const_val_congr s _ b a T v h2 rfl rfl h
  · intro c hca hcb
    refine ⟨h3 c hca hcb, observed_congr s _ c c (h3 c hca hcb) rfl, ?_⟩
    intro T v h
    exact const_val_congr s _ c c T v (h3 c hca hcb) rfl rfl h
  · intro h
    exact swap_cooked s a b m n true ha hb (Or.inr h)

/-- C17 at `ex_single_null`, whose handle `0` is on a proxy at level 3 (Single) that
holds `5` and whose handle `1` is empty: the cooked swap returns, after it the handle
`0` is empty and the handle `1` reads `5` at level 3, the proxy is as it was, and the
raw swap does the same. -/
theorem C17_cooked_swap_witness :
    ∃ s1, swap ex_single_null 0 1 false = .ok () s1 ∧ s1.mDat 0 = some none ∧
      s1.mDat 1 = some (some 0) ∧ s1.slot 0 = some ⟨3, 1, some 0⟩ ∧
      const_val s1 1 (.of 0) = .ok 5 s1 ∧
      observed s1 1 = (some true, some true, some true) ∧
      swap ex_single_null 0 1 true = .ok () s1 := by
  obtain ⟨s1, h, h0, h1, hp, -, -, hr, -, ho, -, hraw⟩ :=
    C17_cooked_swap ex_single_null 0 1 (some 0) none rfl rfl
  refine ⟨s1, h, h0, h1, ?_, hr (.of 0) 5 rfl, ho.trans rfl, hraw (Or.inr rfl)⟩
  simp only [State.slot, hp]
  rfl

/-! ## C18: the move assignment and the move constructor -/

/-- C18. Move assignment is an exchange.  For every handle `b` and every handle `a`
other than `b`, `a = std::move(b)` returns; after it `a` has the pointer that `b` had
and `b` the pointer that `a` had, so that `b` is empty afterwards exactly when `a` was
empty before; the proxies and the holders, hence every refcount, holder and level, are
what they were, and so are the pointers of the other handles.  The move constructor
`any d(std::move(b))` returns a handle that did not exist, which has the pointer that
`b` had, and leaves `b` empty, the proxies, the holders and the pointers of the other
handles being what they were.  A move assignment of a handle to itself changes
nothing. -/
theorem C18_move_is_exchange (s : State Val) (b : Nat) (n : Option Nat)
    (hb : s.mDat b = some n) :
    (∀ a m, a ≠ b → s.mDat a = some m →
      ∃ s1, move_assign s a b = .ok () s1 ∧ s1.mDat a = some n ∧ s1.mDat b = some m ∧
        (s1.mDat b = some none ↔ s.mDat a = some none) ∧
        s1.proxies = s.proxies ∧ s1.holders = s.holders ∧
        ∀ c, c ≠ a → c ≠ b → s1.mDat c = s.mDat c) ∧
    (∃ s1, ctor_move s b = .ok s.objs.length s1 ∧ s.mDat s.objs.length = none ∧
      s1.mDat s.objs.length = some n ∧ s1.mDat b = some none ∧
      s1.proxies = s.proxies ∧ s1.holders = s.holders ∧
      ∀ c, c ≠ s.objs.length → c ≠ b → s1.mDat c = s.mDat c) ∧
    move_assign s b b = .ok () s := by
  have hlt := mDat_lt s b n hb
  refine ⟨?_, ?_, ?_⟩
  · intro a m hab ha
    have hm := fun c => exchange_mDat s a b c m n ha hb
    refine ⟨(s.set_mDat a n).set_mDat b m, ?_, ?_, ?_, ?_, rfl, rfl, ?_⟩
    · simp only [move_assign, ha, hb]
      rw [if_pos (Ne.symm hab)]
      exact swap_cooked s a b m n false ha hb (Or.inl rfl)
    · rw [hm, if_neg hab, if_pos rfl]
    · rw [hm, if_pos rfl]
    · rw [hm, if_pos rfl, ha]
    · intro c hca hcb
      rw [hm, if_neg hcb, if_neg hca]
  · have hne : b ≠ s.objs.length := by omega
    have h0 : (s.new_any none).2.mDat s.objs.length = some none := by
      rw [mDat_new_any, if_pos rfl]
    have h1 : (s.new_any none).2.mDat b = some n := by
      rw [mDat_new_any, if_neg hne, hb]
    have hm := fun c => exchange_mDat (s.new_any none).2 s.objs.length b c none n h0 h1
    have hsw := swap_cooked (s.new_any none).2 s.objs.length b none n false h0 h1 (Or.inl rfl)
    refine ⟨((s.new_any none).2.set_mDat s.objs.length n).set_mDat b none, ?_, ?_, ?_, ?_,
      rfl, rfl, ?_⟩
    · unfold ctor_move
      have hid : (s.new_any none).1 = s.objs.length := rfl
      rw [hid, hsw]
      rfl
    · unfold State.mDat
      rw [peek_length_le s.objs _ (Nat.le_refl _)]
      rfl
    · rw [hm, if_neg (Ne.symm hne), if_pos rfl]
    · rw [hm, if_pos rfl]
    · intro c hcl hcb
      rw [hm, if_neg hcb, if_neg hcl, mDat_new_any, if_neg hcl]
  · simp [move_assign, hb]

/-- C18 at `ex_five_seven`, whose handle `0` reads `5` on the protected proxy `0` and
whose handle `1` reads `7` on the proxy `1`: after `a = std::move(b)` of the handle `1` into
the handle `0`, the handle `1` is on the proxy `0` and is not empty; the move
constructor from the handle `1` returns the new handle `2` on the proxy `1` and leaves
the handle `1` empty. -/
theorem C18_move_is_exchange_witness :
    (∃ s1, move_assign ex_five_seven 0 1 = .ok () s1 ∧ s1.mDat 0 = some (some 1) ∧
      s1.mDat 1 = some (some 0) ∧ s1.mDat 1 ≠ some none) ∧
    (∃ s1, ctor_move ex_five_seven 1 = .ok 2 s1 ∧ s1.mDat 2 = some (some 1) ∧
      s1.mDat 1 = some none) := by
  have h := C18_move_is_exchange ex_five_seven 1 (some 1) rfl
  obtain ⟨s1, h1, h2, h3, -⟩ := h.1 0 (some 0) (by decide) rfl
  obtain ⟨s2, h4, -, h5, h6, -⟩ := h.2.1
  refine ⟨⟨s1, h1, h2, h3, ?_⟩, ⟨s2, h4, h5, h6⟩⟩
  rw [h3]
  decide

/-! ## C19: the cooked assign tests no protection level -/

/-- C19. Cooked assign performs no protection check.  In a well-formed memory, for
every handle `a` and every handle `b` that is not empty and is on another proxy,
whatever the levels of the two proxies: `a.assign(b)` returns and leaves `a` on a
proxy that did not exist, with refcount 1 and level 0, holding a copy of the payload of
`b`.  This is so when the proxy of `b` is at level 3 (Single), where `b.clone()` throws
E000L (CannotDuplicate). -/
theorem C19_cooked_assign_unchecked (s : State Val) (a b q : Nat) (m : Option Nat)
    (hwf : WF s) (ha : s.mDat a = some m) (hb : s.mDat b = some (some q))
    (hne : m ≠ some q) :
    ∃ s1 qx kd, s.slot q = some qx ∧ s.payload q = some kd ∧
      assign s a b false = .ok () s1 ∧ s.slot s.proxies.length = none ∧
      s1.mDat a = some (some s.proxies.length) ∧
      s1.slot s.proxies.length = some ⟨0, 1, some s.holders.length⟩ ∧
      s1.hold s.holders.length = some kd ∧
      const_val s1 a (.of kd.T) = .ok kd.mDat s1 ∧
      (qx.protect_level = 3 → clone s b = .thrown .E000L s) := by
  obtain ⟨qx, hq⟩ := hwf.live b q hb
  obtain ⟨k, kd, hk, hkd⟩ := hwf.data q qx hq
  obtain ⟨s1, hav, -, hre⟩ := assign_holder_reassigned s a kd.T kd.mDat m hwf ha
  refine ⟨s1, qx, kd, hq, ?_, ?_, hre.fresh, hre.new_handle, hre.new_proxy, hre.new_holder,
    hre.new_read, ?_⟩
  · rw [payload_eq s q k qx hq hk, hkd]
  · rw [assign_cooked_eq s a b q k m qx kd hwf ha hb hne hq hk hkd]
    exact hav
  · intro h3
    have hl : qx.protect_level > 2 := by omega
    simp only [clone, hb, hq, if_pos hl]

/-- C19 at `any a = any::make_single<int>(5); any e; e.assign(a);`: the call returns,
`e` is on the new proxy `1` at level 0 and reads `5`, while `a.clone()` throws E000L. -/
theorem C19_cooked_assign_unchecked_witness :
    ∃ s1, assign ex_single_null 1 0 false = .ok () s1 ∧ s1.mDat 1 = some (some 1) ∧
      s1.slot 1 = some ⟨0, 1, some 1⟩ ∧ const_val s1 1 (.of 0) = .ok 5 s1 ∧
      clone ex_single_null 0 = .thrown .E000L ex_single_null := by
  obtain ⟨s1, qx, kd, hq, hkd, h1, -, h2, h3, -, h4, h5⟩ :=
    C19_cooked_assign_unchecked ex_single_null 1 0 0 none
      (wf_of_run_all ex_traits [.make_single 0 5, .ctor_default] ex_single_null (by decide))
      rfl rfl (by decide)
  cases hq
  cases hkd
  exact ⟨s1, h1, h2, h3, h4, h5 rfl⟩

/-! ## C20: the hash agrees with the comparison -/

/-- C20. Hash is consistent with equality at the level of the handles.  Assume that
for every payload type the per-type functions satisfy: `compare(x, y)` true implies
`hash(x) = hash(y)`.  Then for all handles `a` and `b`, empty or not, if `a.compare(b)`
is true then `a.hash()` and `b.hash()` return the same number; the same holds of
`operator==` and of the `std::hash` specialisation, which return what `compare` and
`hash` return. -/
theorem C20_hash_respects_compare (tr : Traits Val) (s : State Val) (a b : Nat)
    (hlaw : ∀ T x y, tr.compare T x y = true → tr.hash T x = tr.hash T y) :
    (compare tr s a b = some true → ∃ k, hash tr s a = some k ∧ hash tr s b = some k) ∧
    (op_eq tr s a b = some true →
      ∃ k, std_hash tr s a = some k ∧ std_hash tr s b = some k) := by
  have key : compare tr s a b = some true →
      ∃ k, hash tr s a = some k ∧ hash tr s b = some k := by
    intro h
    rcases (compare_true_iff tr s a b).1 h with
      ⟨ha, hb⟩ | ⟨p, q, hd, od, ha, hb, hp, hq, hT, hc⟩
    · exact ⟨tr.hash_nullptr, by simp [hash, ha], by simp [hash, hb]⟩
    · refine ⟨tr.hash hd.T hd.mDat, by simp [hash, ha, hp], ?_⟩
      simp only [hash, hb, hq, Option.map_some', hT]
      rw [hlaw hd.T hd.mDat od.mDat hc]
  exact ⟨key, key⟩

/-- C20 under `ex_traits`, whose per-type compare is the equality of the integers and
whose per-type hash is the absolute value: the two handles of `ex_twins`, on two
proxies that each hold a `5`, compare equal and have the same hash `5`; so have two
empty handles, whose hash is that of the null pointer. -/
theorem C20_hash_respects_compare_witness :
    compare ex_traits ex_twins 0 1 = some true ∧
      (∃ k, hash ex_traits ex_twins 0 = some k ∧ hash ex_traits ex_twins 1 = some k) ∧
      hash ex_traits ex_twins 0 = some 5 ∧
      compare ex_traits ex_mixed 2 2 = some true ∧
      (∃ k, hash ex_traits ex_mixed 2 = some k ∧ hash ex_traits ex_mixed 2 = some k) :=
  ⟨rfl,
    (C20_hash_respects_compare ex_traits ex_twins 0 1
      (fun _ x y h => by rw [of_decide_eq_true h])).1 rfl,
    rfl, rfl,
    (C20_hash_respects_compare ex_traits ex_mixed 2 2
      (fun _ x y h => by rw [of_decide_eq_true h])).1 rfl⟩

end

end cs_impl
